import Mathlib

/-!
# Incline3D GUI: survey file I/O, angle helpers and project persistence

A shallow embedding of the parts of the Incline3D GUI sources that read and
write borehole-survey files (`core/file_io.cpp`), convert angles
(`utils/angle_utils.h`) and persist projects (`core/project_manager.cpp`),
followed by theorems about them.

Conventions of the embedding:

* `double` is modelled by `ℚ`; every statement is therefore exact and says
  nothing about binary rounding.
* `QString` / `std::string` are modelled by `List Char`.
* A file is its text; a file that cannot be opened is `none`.
-/

namespace Incline3d

/-! ## Qt string primitives -/

/-- Text as a sequence of characters (`QString`, `std::string`). -/
abbrev QString := List Char

/-- Whitespace in the sense of `QChar::isSpace`: the ASCII controls
U+0009..U+000D, the space, U+0085, U+00A0 and the Unicode separators. -/
def isSpace (c : Char) : Bool :=
  let n := c.toNat
  (9 ≤ n && n ≤ 13) || n == 32 || n == 0x85 || n == 0xA0 || n == 0x1680 ||
  (0x2000 ≤ n && n ≤ 0x200A) || n == 0x2028 || n == 0x2029 || n == 0x202F ||
  n == 0x205F || n == 0x3000

/-- Model of `QString::trimmed`: whitespace removed from both ends. -/
def trimmed (s : QString) : QString :=
  ((s.dropWhile isSpace).reverse.dropWhile isSpace).reverse

/-- Model of `QString::split(sep, Qt::KeepEmptyParts)` for a one-character separator. -/
def split (sep : Char) : QString → List QString
  | [] => [[]]
  | c :: cs =>
    if c = sep then [] :: split sep cs
    else
      match split sep cs with
      | [] => [[c]]
      | f :: fs => (c :: f) :: fs

/-- The lines a `QTextStream` yields by calling `readLine` until `atEnd`:
the text is cut at every line feed, and a line feed at the very end does not
open a further line. -/
def readLines : QString → List QString
  | [] => []
  | c :: cs =>
    if c = '\n' then [] :: readLines cs
    else
      match readLines cs with
      | [] => [[c]]
      | l :: ls => (c :: l) :: ls

/-- Model of `QString::startsWith(QChar)`. -/
def startsWith (s : QString) (c : Char) : Bool :=
  match s with
  | [] => false
  | d :: _ => d == c

/-- Model of `QString::endsWith(QChar)`. -/
def endsWith (s : QString) (c : Char) : Bool :=
  startsWith s.reverse c

/-- Model of `QString::mid(pos, n)`. -/
def mid (s : QString) (pos n : Nat) : QString :=
  (s.drop pos).take n

/-- Lower-casing of one character, for the Latin and Cyrillic letters the
parsers compare against and the Kelvin sign, whose lower case is `k` (other
characters are left as they are). -/
def lowerChar (c : Char) : Char :=
  let n := c.toNat
  if (65 ≤ n && n ≤ 90) || (0xC0 ≤ n && n ≤ 0xDE && n != 0xD7) || (0x410 ≤ n && n ≤ 0x42F) then
    Char.ofNat (n + 32)
  else if 0x400 ≤ n && n ≤ 0x40F then Char.ofNat (n + 80)
  else if n == 0x212A then 'k'
  else c

/-- Model of `QString::toLower`. -/
def toLower (s : QString) : QString := s.map lowerChar

/-- Model of `QString::contains(QString)`: the needle occurs as a substring. -/
def contains (hay needle : QString) : Bool :=
  hay.tails.any (fun t => needle.isPrefixOf t)

/-- Model of `QString::contains(QChar)`. -/
def containsChar (hay : QString) (c : Char) : Bool := hay.any (fun d => d == c)

/-! ## Numbers as text -/

/-- An ASCII decimal digit. -/
def isDigit (c : Char) : Bool := 48 ≤ c.toNat && c.toNat ≤ 57

/-- The character of a decimal digit. -/
def digitChar (d : Nat) : Char := Char.ofNat (48 + d)

/-- Value of a run of decimal digits (most significant first). -/
def digitsVal (l : List Char) : Nat :=
  l.foldl (fun a c => 10 * a + (c.toNat - 48)) 0

/-- Decimal digits of a natural number, without leading zeros (`0` is "0"). -/
def natDigitsAux : Nat → Nat → List Char → List Char
  | 0, _, acc => acc
  | fuel + 1, n, acc =>
    if n < 10 then digitChar n :: acc
    else natDigitsAux fuel (n / 10) (digitChar (n % 10) :: acc)

/-- Decimal digits of a natural number. -/
def natDigits (n : Nat) : List Char := natDigitsAux (n + 1) n []

/-- The last `k` decimal digits of `v`, zero padded. -/
def fracDigits : Nat → Nat → List Char
  | 0, _ => []
  | k + 1, v => fracDigits k (v / 10) ++ [digitChar (v % 10)]

/-- Model of `QString::number(x, 'f', prec)`: fixed notation with `prec`
digits after the point, rounded to nearest (a tie goes away from zero), with
a minus sign for every negative `x`. -/
def number_f (x : ℚ) (prec : Nat) : QString :=
  let scaled : Nat := (⌊|x| * (10 : ℚ) ^ prec + 1 / 2⌋).toNat
  let ip := scaled / 10 ^ prec
  let fp := scaled % 10 ^ prec
  (if x < 0 then ['-'] else []) ++ natDigits ip ++
    (if prec = 0 then [] else '.' :: fracDigits prec fp)

/-- Splits an optional sign off the front: the flag says whether it was a minus. -/
def takeSign : QString → Bool × QString
  | '-' :: t => (true, t)
  | '+' :: t => (false, t)
  | s => (false, s)

/-- The part of `toDouble` after the sign: decimal digits with an optional
point (at least one digit in all) and an optional exponent must make up the
whole of `r0`; `neg` says whether a minus sign came before. -/
def toDoubleMag (neg : Bool) (r0 : QString) : Option ℚ :=
  let ip := r0.takeWhile isDigit
  let r1 := r0.dropWhile isDigit
  let (fp, r2) :=
    match r1 with
    | '.' :: t => (t.takeWhile isDigit, t.dropWhile isDigit)
    | _ => ([], r1)
  if ip = [] ∧ fp = [] then none
  else
    let mant : ℚ := (digitsVal (ip ++ fp) : ℚ) / (10 : ℚ) ^ fp.length
    let sgn : ℚ := if neg then -1 else 1
    match r2 with
    | [] => some (sgn * mant)
    | e :: r3 =>
      if e = 'e' ∨ e = 'E' then
        let (eneg, r4) := takeSign r3
        if r4 = [] ∨ r4.any (fun c => !isDigit c) then none
        else if eneg then some (sgn * mant / (10 : ℚ) ^ digitsVal r4)
        else some (sgn * mant * (10 : ℚ) ^ digitsVal r4)
      else none

/-- Model of `QString::toDouble(&ok)` in the C locale: surrounding whitespace is
ignored, then an optional sign and the digits of `toDoubleMag` must make up the
whole text. `none` stands for `ok == false`. The spellings of the non-finite
values have no counterpart in `ℚ` and are not accepted. -/
def toDouble (s : QString) : Option ℚ :=
  let p := takeSign (trimmed s)
  toDoubleMag p.1 p.2

/-- Model of `QString::toDouble()` without the flag: `0.0` when the text is not a number. -/
def toDoubleD (s : QString) : ℚ := (toDouble s).getD 0

/-- The number `x` has at most `k` decimals: `x * 10 ^ k` is whole. -/
def HasDecimals (k : Nat) (x : ℚ) : Prop := (x * (10 : ℚ) ^ k).den = 1

instance (k : Nat) (x : ℚ) : Decidable (HasDecimals k x) := by
  unfold HasDecimals
  infer_instance

/-! ## Data model (`models/well_data.h`) -/

/-- Model of `QColor`: validity flag and 8-bit red, green, blue and alpha. -/
structure QColor where
  valid : Bool
  r : Fin 256
  g : Fin 256
  b : Fin 256
  a : Fin 256
  deriving DecidableEq, Repr

/-- The opaque colour with the given components. -/
def QColor.rgb (r g b : Fin 256) : QColor := ⟨true, r, g, b, 255⟩

/-- The colour `Qt::blue`. -/
def QColor.blue : QColor := QColor.rgb 0 0 255

/-- The colour `Qt::red`. -/
def QColor.red : QColor := QColor.rgb 255 0 0

/-- The colour `Qt::green`. -/
def QColor.green : QColor := QColor.rgb 0 255 0

/-- Enumeration `AzimuthType`. -/
inductive AzimuthType where
  | kMagnetic | kTrue | kGrid
  deriving DecidableEq, Repr

/-- Enumeration `CalculationMethod`. -/
inductive CalculationMethod where
  | kAverageAngle | kBalancedTangential | kMinimumCurvature | kRadiusOfCurvature | kRingArc
  deriving DecidableEq, Repr

/-- Struct `MeasuredPoint`. -/
structure MeasuredPoint where
  measured_depth_m : ℚ := 0
  inclination_deg : ℚ := 0
  azimuth_deg : Option ℚ := none
  azimuth_true_deg : Option ℚ := none
  azimuth_type : AzimuthType := AzimuthType.kMagnetic
  deriving DecidableEq

/-- Struct `ProcessedPoint`. -/
structure ProcessedPoint where
  measured_depth_m : ℚ := 0
  inclination_deg : ℚ := 0
  azimuth_deg : Option ℚ := none
  applied_azimuth_deg : ℚ := 0
  north_m : ℚ := 0
  east_m : ℚ := 0
  tvd_m : ℚ := 0
  tvd_bgl_m : Option ℚ := none
  tvd_bml_m : Option ℚ := none
  absolute_elevation_m : Option ℚ := none
  dogleg_angle_deg : ℚ := 0
  intensity_10m : ℚ := 0
  intensity_L : ℚ := 0
  smoothed_intensity_10m : ℚ := 0
  smoothed_intensity_L : ℚ := 0
  mistake_x : ℚ := 0
  mistake_y : ℚ := 0
  mistake_z : ℚ := 0
  mistake_absg : ℚ := 0
  mistake_intensity : ℚ := 0
  deriving DecidableEq

/-- Struct `CalculationParams`. -/
structure CalculationParams where
  method : CalculationMethod := CalculationMethod.kMinimumCurvature
  magnetic_declination_deg : ℚ := 0
  meridian_convergence_deg : ℚ := 0
  intensity_interval_m : ℚ := 30
  min_inclination_for_xy_deg : ℚ := 0
  vertical_limit_deg : ℚ := 3
  error_depth_m : ℚ := 1 / 10
  error_inclination_deg : ℚ := 1 / 10
  error_azimuth_deg : ℚ := 1 / 10
  intensity_threshold_deg : ℚ := 0
  delta_depth_warning_m : ℚ := 0
  interpolation_step_m : ℚ := 0
  use_last_azimuth : Bool := true
  interpolate_missing_azimuths : Bool := true
  unwrap_azimuths : Bool := true
  smooth_intensity : Bool := false
  sngf_mode : Bool := false
  sngf_min_angle_deg : ℚ := 5
  azimuth_type : AzimuthType := AzimuthType.kMagnetic
  kelly_bushing_elevation_m : ℚ := 0
  ground_elevation_m : ℚ := 0
  water_depth_m : ℚ := 0
  quality_check : Bool := false
  max_angle_deviation_deg : ℚ := 5
  max_azimuth_deviation_deg : ℚ := 10
  deriving DecidableEq

/-- Struct `WellMetadata`, restricted to the identification fields that the
file readers and the writer touch. -/
structure WellMetadata where
  uwi : QString := []
  well_name : QString := []
  field_name : QString := []
  well_pad : QString := []
  deriving DecidableEq

/-- Struct `WellData`. The horizontal displacement (a square root) and the
fields no modelled function reads or writes are left out. -/
structure WellData where
  metadata : WellMetadata := {}
  measurements : List MeasuredPoint := []
  results : List ProcessedPoint := []
  max_inclination_deg : ℚ := 0
  max_intensity_10m : ℚ := 0
  max_intensity_10m_depth : ℚ := 0
  total_depth : ℚ := 0
  display_color : QColor := QColor.blue
  visible : Bool := true
  line_width : Int := 2
  source_file_path : QString := []
  source_format : QString := []
  deriving DecidableEq

/-- Struct `WellLoadResult`: `well` is the shared pointer, `none` when null. -/
structure WellLoadResult where
  success : Bool := false
  error_message : QString := []
  well : Option WellData := none
  deriving DecidableEq

/-! ## Sectioned text files (`FileIO::parseWsFile`, `FileIO::writeWsFile`) -/

/-- Model of `QFileInfo(path).fileName()`: the text after the last slash. -/
def fileName (path : QString) : QString := ((split '/' path).getLast?).getD []

/-- Model of `QFileInfo(path).baseName()`: the file name up to its first dot. -/
def baseName (path : QString) : QString := (fileName path).takeWhile (fun c => c != '.')

/-- The loop variables of `parseWsFile`. -/
structure WsState where
  current_section : QString := []
  headers : List QString := []
  well : WellData := {}
  deriving DecidableEq

/-- The `intervals` branch of the loop body of `parseWsFile`. -/
def wsIntervalsRow (values : List QString) (well : WellData) : WellData :=
  if values.length ≥ 3 then
    match toDouble (values.getD 0 []), toDouble (values.getD 1 []) with
    | some d, some i =>
      let azim : Option ℚ :=
        if values.length ≥ 4 ∧ values.getD 2 [] ≠ [] then toDouble (values.getD 2 []) else none
      { well with measurements := well.measurements ++
          [{ measured_depth_m := d, inclination_deg := i, azimuth_deg := azim }] }
    | _, _ => well
  else well

/-- The `results` branch of the loop body of `parseWsFile`. -/
def wsResultsRow (values : List QString) (well : WellData) : WellData :=
  if values.length ≥ 7 then
    let p0 : ProcessedPoint :=
      { measured_depth_m := toDoubleD (values.getD 0 [])
        inclination_deg := toDoubleD (values.getD 1 [])
        azimuth_deg := if values.getD 2 [] ≠ [] then some (toDoubleD (values.getD 2 [])) else none
        applied_azimuth_deg := toDoubleD (values.getD 3 [])
        north_m := toDoubleD (values.getD 4 [])
        east_m := toDoubleD (values.getD 5 [])
        tvd_m := toDoubleD (values.getD 6 []) }
    let p1 : ProcessedPoint :=
      if values.length ≥ 11 then
        { p0 with
          dogleg_angle_deg := toDoubleD (values.getD 7 [])
          intensity_10m := toDoubleD (values.getD 8 [])
          intensity_L := toDoubleD (values.getD 9 []) }
      else p0
    let p2 : ProcessedPoint :=
      if values.length ≥ 15 then
        { p1 with
          mistake_x := toDoubleD (values.getD 10 [])
          mistake_y := toDoubleD (values.getD 11 [])
          mistake_z := toDoubleD (values.getD 12 [])
          mistake_absg := toDoubleD (values.getD 13 []) }
      else p1
    { well with results := well.results ++ [p2] }
  else well

/-- The `metadata` / `well` branch of the loop body of `parseWsFile`. -/
def wsMetadataRow (values : List QString) (well : WellData) : WellData :=
  if values.length ≥ 2 then
    let key := toLower (values.getD 0 [])
    let value := values.getD 1 []
    if key = "well_name".toList ∨ key = "name".toList then
      { well with metadata := { well.metadata with well_name := value } }
    else if key = "field".toList ∨ key = "field_name".toList then
      { well with metadata := { well.metadata with field_name := value } }
    else if key = "cluster".toList ∨ key = "well_pad".toList then
      { well with metadata := { well.metadata with well_pad := value } }
    else if key = "uwi".toList then
      { well with metadata := { well.metadata with uwi := value } }
    else well
  else well

/-- One pass of the `while` loop of `parseWsFile` over the line just read. -/
def wsLine (st : WsState) (raw : QString) : WsState :=
  let line := trimmed raw
  if line = [] ∨ startsWith line '#' ∨ startsWith line ';' then st
  else if startsWith line '[' ∧ endsWith line ']' then
    { st with current_section := toLower (mid line 1 (line.length - 2)), headers := [] }
  else if st.headers = [] ∧ st.current_section ≠ [] then
    { st with headers := split '\t' line }
  else
    let values := split '\t' line
    if st.current_section = "intervals".toList then
      { st with well := wsIntervalsRow values st.well }
    else if st.current_section = "results".toList then
      { st with well := wsResultsRow values st.well }
    else if st.current_section = "metadata".toList ∨ st.current_section = "well".toList then
      { st with well := wsMetadataRow values st.well }
    else st

/-- The running maxima of the summary loop of `parseWsFile`:
`(max_incl, max_int, max_int_depth)`. -/
def wsMaxStep (acc : ℚ × ℚ × ℚ) (pt : ProcessedPoint) : ℚ × ℚ × ℚ :=
  let max_incl := if pt.inclination_deg > acc.1 then pt.inclination_deg else acc.1
  if pt.intensity_10m > acc.2.1 then (max_incl, pt.intensity_10m, pt.measured_depth_m)
  else (max_incl, acc.2.1, acc.2.2)

/-- The summary block and the well-name default at the end of `parseWsFile`. -/
def wsFinish (path : QString) (well : WellData) : WellData :=
  let w1 : WellData :=
    match well.results.getLast? with
    | some last =>
      let m := well.results.foldl wsMaxStep (0, 0, 0)
      { well with
        max_inclination_deg := m.1
        max_intensity_10m := m.2.1
        max_intensity_10m_depth := m.2.2
        total_depth := last.measured_depth_m }
    | none =>
      match well.measurements.getLast? with
      | some last => { well with total_depth := last.measured_depth_m }
      | none => well
  if w1.metadata.well_name = [] then
    { w1 with metadata := { w1.metadata with well_name := baseName path } }
  else w1

/-- The state `parseWsFile` starts its loop in. -/
def wsInit (path : QString) : WsState :=
  { well := { source_file_path := path, source_format := "ws".toList } }

/-- Model of `FileIO::parseWsFile`; `file` is the text of the file at `path`,
or `none` when it cannot be opened. -/
def parseWsFile (file : Option QString) (path : QString) : WellLoadResult :=
  match file with
  | none => { error_message := "Не удалось открыть файл: ".toList ++ path }
  | some text =>
    let st := (readLines text).foldl wsLine (wsInit path)
    { success := true, well := some (wsFinish path st.well) }

/-- An optional azimuth as `writeWsFile` prints it: two decimals when it has a
value, nothing otherwise. -/
def wsOptNumber (azimuth_deg : Option ℚ) : QString :=
  match azimuth_deg with
  | some a => number_f a 2
  | none => []

/-- One measurement row as `writeWsFile` prints it. -/
def wsWriteMeasured (pt : MeasuredPoint) : QString :=
  number_f pt.measured_depth_m 2 ++ ['\t'] ++
  number_f pt.inclination_deg 2 ++ ['\t'] ++
  wsOptNumber pt.azimuth_deg ++ ['\n']

/-- One results row as `writeWsFile` prints it. -/
def wsWriteProcessed (pt : ProcessedPoint) : QString :=
  number_f pt.measured_depth_m 2 ++ ['\t'] ++
  number_f pt.inclination_deg 2 ++ ['\t'] ++
  wsOptNumber pt.azimuth_deg ++ ['\t'] ++
  number_f pt.applied_azimuth_deg 2 ++ ['\t'] ++
  number_f pt.north_m 2 ++ ['\t'] ++
  number_f pt.east_m 2 ++ ['\t'] ++
  number_f pt.tvd_m 2 ++ ['\t'] ++
  number_f pt.dogleg_angle_deg 3 ++ ['\t'] ++
  number_f pt.intensity_10m 2 ++ ['\t'] ++
  number_f pt.intensity_L 2 ++ ['\t'] ++
  number_f pt.mistake_x 3 ++ ['\t'] ++
  number_f pt.mistake_y 3 ++ ['\t'] ++
  number_f pt.mistake_z 3 ++ ['\t'] ++
  number_f pt.mistake_absg 3 ++ ['\n']

/-- The `[metadata]` block of `writeWsFile`. -/
def wsWriteMetadata (m : WellMetadata) : QString :=
  "[metadata]\n".toList ++
  ("well_name\t".toList ++ m.well_name ++ ['\n']) ++
  (if m.field_name ≠ [] then "field_name\t".toList ++ m.field_name ++ ['\n'] else []) ++
  (if m.well_pad ≠ [] then "well_pad\t".toList ++ m.well_pad ++ ['\n'] else []) ++
  (if m.uwi ≠ [] then "uwi\t".toList ++ m.uwi ++ ['\n'] else []) ++
  ['\n']

/-- The `[intervals]` block of `writeWsFile`. -/
def wsWriteIntervals (ms : List MeasuredPoint) : QString :=
  if ms ≠ [] then
    "[intervals]\n".toList ++
    "Глубина_м\tУгол_град\tАзимут_град\n".toList ++
    (ms.map wsWriteMeasured).flatten ++ ['\n']
  else []

/-- The `[results]` block of `writeWsFile`. -/
def wsWriteResults (rs : List ProcessedPoint) : QString :=
  if rs ≠ [] then
    "[results]\n".toList ++
    ("Глубина_м\tУгол_град\tАзимут_град\tПрив_азимут\tСевер_м\tВосток_м\tTVD_м\t".toList ++
     "Доглег_град\tИнт10_град\tИнтL_град\tОшX_м\tОшY_м\tОшZ_м\tОшR_м\n".toList) ++
    (rs.map wsWriteProcessed).flatten
  else []

/-- Model of `FileIO::writeWsFile`: the text written when the file opens for writing. -/
def writeWsFile (well : WellData) : QString :=
  wsWriteMetadata well.metadata ++ wsWriteIntervals well.measurements ++
    wsWriteResults well.results

/-! ### Vocabulary of the statements about written files -/

/-- The text has no line feed in it. -/
def NoLineBreak (s : QString) : Prop := ∀ c ∈ s, c ≠ '\n'

instance (s : QString) : Decidable (NoLineBreak s) := by
  unfold NoLineBreak
  infer_instance

/-- The ten fields of a results point that `writeWsFile` prints and
`parseWsFile` reads back from a fourteen-column row: depth, inclination,
azimuth, applied azimuth, north, east, tvd, dogleg and the two intensities. -/
def ProcessedPoint.core (p : ProcessedPoint) :
    ℚ × ℚ × Option ℚ × ℚ × ℚ × ℚ × ℚ × ℚ × ℚ × ℚ :=
  (p.measured_depth_m, p.inclination_deg, p.azimuth_deg, p.applied_azimuth_deg, p.north_m,
   p.east_m, p.tvd_m, p.dogleg_angle_deg, p.intensity_10m, p.intensity_L)

/-- The values of a results point have no more decimals than `writeWsFile`
prints for them: three for the dogleg, two for the other fields of `core`. -/
def ProcessedPoint.AtWriterPrecision (p : ProcessedPoint) : Prop :=
  HasDecimals 2 p.measured_depth_m ∧ HasDecimals 2 p.inclination_deg ∧
  (∀ a ∈ p.azimuth_deg, HasDecimals 2 a) ∧ HasDecimals 2 p.applied_azimuth_deg ∧
  HasDecimals 2 p.north_m ∧ HasDecimals 2 p.east_m ∧ HasDecimals 2 p.tvd_m ∧
  HasDecimals 3 p.dogleg_angle_deg ∧ HasDecimals 2 p.intensity_10m ∧
  HasDecimals 2 p.intensity_L

instance (p : ProcessedPoint) : Decidable p.AtWriterPrecision := by
  unfold ProcessedPoint.AtWriterPrecision
  infer_instance

/-- The values of a results point have no more decimals than the specification
states for the writer: two for depth, angles and offsets, three for the dogleg, both
intensities and the four error fields. -/
def ProcessedPoint.AtStatedPrecision (p : ProcessedPoint) : Prop :=
  HasDecimals 2 p.measured_depth_m ∧ HasDecimals 2 p.inclination_deg ∧
  (∀ a ∈ p.azimuth_deg, HasDecimals 2 a) ∧ HasDecimals 2 p.applied_azimuth_deg ∧
  HasDecimals 2 p.north_m ∧ HasDecimals 2 p.east_m ∧ HasDecimals 2 p.tvd_m ∧
  HasDecimals 3 p.dogleg_angle_deg ∧ HasDecimals 3 p.intensity_10m ∧
  HasDecimals 3 p.intensity_L ∧ HasDecimals 3 p.mistake_x ∧ HasDecimals 3 p.mistake_y ∧
  HasDecimals 3 p.mistake_z ∧ HasDecimals 3 p.mistake_absg

instance (p : ProcessedPoint) : Decidable p.AtStatedPrecision := by
  unfold ProcessedPoint.AtStatedPrecision
  infer_instance

/-- The values of a measurement have at most two decimals. -/
def MeasuredPoint.TwoDecimals (p : MeasuredPoint) : Prop :=
  HasDecimals 2 p.measured_depth_m ∧ HasDecimals 2 p.inclination_deg ∧
  (∀ a ∈ p.azimuth_deg, HasDecimals 2 a)

instance (p : MeasuredPoint) : Decidable p.TwoDecimals := by
  unfold MeasuredPoint.TwoDecimals
  infer_instance

/-- The text is not empty, holds no tab and no line feed and has no whitespace at
either end. -/
def PlainText (s : QString) : Prop :=
  s ≠ [] ∧ (∀ c ∈ s, c ≠ '\t' ∧ c ≠ '\n') ∧ trimmed s = s

instance (s : QString) : Decidable (PlainText s) := by
  unfold PlainText
  infer_instance

/-! ## Delimited text files (`FileIO::parseCsvMeasurements`) -/

/-- The loop variables of `parseCsvMeasurements`; a column that was not found is `-1`. -/
structure CsvState where
  first_line : Bool := true
  depth_col : Int := -1
  incl_col : Int := -1
  azim_col : Int := -1
  well : WellData := {}
  deriving DecidableEq

/-- The delimiter choice made for every line: semicolon, else tab, else comma. -/
def csvSplit (line : QString) : List QString :=
  if containsChar line ';' then split ';' line
  else if containsChar line '\t' then split '\t' line
  else split ',' line

/-- The header scan over the cells of the first line, from cell index `i` on;
`cols` is `(depth_col, incl_col, azim_col)`. -/
def csvHeaderCols : List QString → Nat → Int × Int × Int → Int × Int × Int
  | [], _, cols => cols
  | v :: vs, i, (d, n, a) =>
    let h := trimmed (toLower v)
    if contains h "глубина".toList ∨ contains h "depth".toList ∨ h = "md".toList then
      csvHeaderCols vs (i + 1) ((i : Int), n, a)
    else if contains h "угол".toList ∨ contains h "incl".toList ∨ contains h "angle".toList then
      csvHeaderCols vs (i + 1) (d, (i : Int), a)
    else if contains h "азимут".toList ∨ contains h "azim".toList then
      csvHeaderCols vs (i + 1) (d, n, (i : Int))
    else csvHeaderCols vs (i + 1) (d, n, a)

/-- The row part of the loop body of `parseCsvMeasurements`: the point that is
appended for the cells `values`, or `none` when the row is skipped. -/
def csvRow (depth_col incl_col azim_col : Int) (values : List QString) : Option MeasuredPoint :=
  if depth_col < 0 ∨ incl_col < 0 ∨ depth_col ≥ values.length ∨ incl_col ≥ values.length then none
  else
    match toDouble (trimmed (values.getD depth_col.toNat [])),
          toDouble (trimmed (values.getD incl_col.toNat [])) with
    | some d, some i =>
      let azim : Option ℚ :=
        if azim_col ≥ 0 ∧ azim_col < values.length ∧
            trimmed (values.getD azim_col.toNat []) ≠ [] then
          toDouble (trimmed (values.getD azim_col.toNat []))
        else none
      some { measured_depth_m := d, inclination_deg := i, azimuth_deg := azim }
    | _, _ => none

/-- Appends the point of a row, if the row yields one. -/
def csvAppend (st : CsvState) (values : List QString) : CsvState :=
  match csvRow st.depth_col st.incl_col st.azim_col values with
  | some p => { st with well := { st.well with measurements := st.well.measurements ++ [p] } }
  | none => st

/-- One pass of the `while` loop of `parseCsvMeasurements` over the line just read. -/
def csvLine (st : CsvState) (raw : QString) : CsvState :=
  let line := trimmed raw
  if line = [] ∨ startsWith line '#' then st
  else
    let values := csvSplit line
    if st.first_line then
      let cols := csvHeaderCols values 0 (st.depth_col, st.incl_col, st.azim_col)
      let st1 : CsvState :=
        { st with first_line := false, depth_col := cols.1, incl_col := cols.2.1,
                  azim_col := cols.2.2 }
      if cols.1 < 0 ∨ cols.2.1 < 0 then
        if values.length ≥ 2 then
          let st2 : CsvState :=
            { st1 with depth_col := 0, incl_col := 1,
                       azim_col := if values.length ≥ 3 then 2 else -1 }
          match toDouble (values.getD 0 []), toDouble (values.getD 1 []) with
          | some _, some _ => csvAppend st2 values
          | _, _ => st2
        else csvAppend st1 values
      else st1
    else csvAppend st values

/-- The state `parseCsvMeasurements` starts its loop in. -/
def csvInit (path : QString) : CsvState :=
  { well := { source_file_path := path, source_format := "csv".toList,
              metadata := { well_name := baseName path } } }

/-- Model of `FileIO::parseCsvMeasurements`; `file` is the text of the file at
`path`, or `none` when it cannot be opened. -/
def parseCsvMeasurements (file : Option QString) (path : QString) : WellLoadResult :=
  match file with
  | none => { error_message := "Не удалось открыть файл: ".toList ++ path }
  | some text =>
    let st := (readLines text).foldl csvLine (csvInit path)
    match st.well.measurements.getLast? with
    | none =>
      { error_message := "Не удалось прочитать данные из файла".toList, well := some st.well }
    | some last =>
      { success := true, well := some { st.well with total_depth := last.measured_depth_m } }

/-! ## Format detection and dispatch (`FileIO::detectFormat`, `FileIO::loadWell`) -/

/-- Enumeration `FileFormat`. -/
inductive FileFormat where
  | kUnknown | kCsv | kLas | kZak | kWs
  deriving DecidableEq, Repr

/-- Model of `QFileInfo(path).suffix()`: the file name's text after its last dot. -/
def suffix (path : QString) : QString :=
  let name := fileName path
  if containsChar name '.' then ((split '.' name).getLast?).getD [] else []

/-- Model of `FileIO::detectFormat`. -/
def detectFormat (path : QString) : FileFormat :=
  let ext := toLower (suffix path)
  if ext = "csv".toList then FileFormat.kCsv
  else if ext = "las".toList then FileFormat.kLas
  else if ext = "zak".toList then FileFormat.kZak
  else if ext = "ws".toList ∨ ext = "txt".toList then FileFormat.kWs
  else FileFormat.kUnknown

/-- Model of `FileIO::formatToString`. -/
def formatToString : FileFormat → QString
  | FileFormat.kCsv => "csv".toList
  | FileFormat.kLas => "las".toList
  | FileFormat.kZak => "zak".toList
  | FileFormat.kWs => "ws".toList
  | FileFormat.kUnknown => "unknown".toList

/-- Model of `FileIO::stringToFormat`. -/
def stringToFormat (str : QString) : FileFormat :=
  let lower := toLower str
  if lower = "csv".toList then FileFormat.kCsv
  else if lower = "las".toList then FileFormat.kLas
  else if lower = "zak".toList then FileFormat.kZak
  else if lower = "ws".toList then FileFormat.kWs
  else FileFormat.kUnknown

/-- Model of `FileIO::loadWell`; `file` is the text of the file at `path`. -/
def loadWell (file : Option QString) (path : QString) (format : FileFormat) : WellLoadResult :=
  let format := if format = FileFormat.kUnknown then detectFormat path else format
  if format = FileFormat.kUnknown then
    { error_message := "Неизвестный формат файла: ".toList ++ path }
  else if format = FileFormat.kWs then parseWsFile file path
  else if format = FileFormat.kCsv then parseCsvMeasurements file path
  else
    { error_message := "Для формата ".toList ++ formatToString format ++
        " требуется конвертация через inclproc".toList }

/-! ## Angle helpers (`utils/angle_utils.h`) -/

/-- Rounding toward zero, as the quotient inside `std::fmod`. -/
def truncQ (q : ℚ) : ℤ := if 0 ≤ q then ⌊q⌋ else ⌈q⌉

/-- Model of `std::fmod`: the remainder of the division truncated toward zero. -/
def fmod (x y : ℚ) : ℚ := x - y * (truncQ (x / y) : ℚ)

/-- The number of halvings that bring `n` below 2, at most `fuel`; with `fuel ≥ n`
this is the position of the highest set bit of `n`. -/
def log2Aux : Nat → Nat → Nat
  | 0, _ => 0
  | fuel + 1, n => if n < 2 then 0 else log2Aux fuel (n / 2) + 1

/-- The power `2 ^ e` for a whole exponent of either sign. -/
def pow2 (e : Int) : ℚ := if 0 ≤ e then (2 : ℚ) ^ e.toNat else 1 / (2 : ℚ) ^ (-e).toNat

/-- The greatest `e` with `2 ^ e ≤ q`, for a positive `q`: the difference of the bit
positions of numerator and denominator, or one less. -/
def floorLog2 (q : ℚ) : Int :=
  let e0 : Int := (log2Aux q.num.natAbs q.num.natAbs : Int) - (log2Aux q.den q.den : Int)
  if pow2 e0 ≤ q then e0 else e0 - 1

/-- Rounding to the nearest whole number, a tie going to the even one. -/
def roundHalfEven (q : ℚ) : Int :=
  if q - (⌊q⌋ : ℚ) < 1 / 2 then ⌊q⌋
  else if q - (⌊q⌋ : ℚ) > 1 / 2 then ⌊q⌋ + 1
  else if ⌊q⌋ % 2 = 0 then ⌊q⌋
  else ⌊q⌋ + 1

/-- The `double` that an arithmetic result `x` is stored as: the nearest number with
a 53-bit significand, a tie going to the even significand (the default rounding of
IEEE 754 binary64). The exponent is not bounded above, so results of magnitude
`2 ^ 1024` and more, which the format turns into infinities, are kept; below
`2 ^ -1022` the spacing is that of the subnormal numbers. -/
def roundDouble (x : ℚ) : ℚ :=
  if x = 0 then 0
  else
    let e : Int := max (floorLog2 |x|) (-1022)
    (roundHalfEven (x / pow2 (e - 52)) : ℚ) * pow2 (e - 52)

/-- Model of `normalize_angle_360` on doubles: the argument is a `double`, given by
its exact value; `std::fmod` is exact, and the sum `deg + 360.0` is rounded to the
nearest `double`. -/
def normalize_angle_360 (deg : ℚ) : ℚ :=
  let deg := fmod deg 360
  if deg < 0 then roundDouble (deg + 360) else deg

/-- Model of `normalize_angle_180` on doubles: the two sums and the difference are
rounded to the nearest `double`, `std::fmod` is exact. -/
def normalize_angle_180 (deg : ℚ) : ℚ :=
  let deg := fmod (roundDouble (deg + 180)) 360
  let deg := if deg < 0 then roundDouble (deg + 360) else deg
  roundDouble (deg - 180)

/-- Model of `deg_from_degmin`. -/
def deg_from_degmin (degmin_value : ℚ) : ℚ :=
  let deg : ℚ := (⌊degmin_value⌋ : ℤ)
  let min : ℚ := (degmin_value - deg) * 100
  deg + min / 60

/-- Model of `deg_to_degmin`. -/
def deg_to_degmin (decimal_deg : ℚ) : ℚ :=
  let deg : ℚ := (⌊decimal_deg⌋ : ℤ)
  let min : ℚ := (decimal_deg - deg) * 60
  deg + min / 100

/-! ## Colours and enumerations as text -/

/-- The lower-case hexadecimal digit of a value below 16. -/
def hexDigit (n : Nat) : Char :=
  if n < 10 then Char.ofNat (48 + n) else Char.ofNat (87 + n)

/-- Value of a hexadecimal digit of either case. -/
def hexVal (c : Char) : Option Nat :=
  let n := c.toNat
  if 48 ≤ n ∧ n ≤ 57 then some (n - 48)
  else if 97 ≤ n ∧ n ≤ 102 then some (n - 87)
  else if 65 ≤ n ∧ n ≤ 70 then some (n - 55)
  else none

/-- Two hexadecimal digits of one colour component. -/
def hexByte (x : Fin 256) : QString := [hexDigit (x.val / 16), hexDigit (x.val % 16)]

/-- The component written by two hexadecimal digits. -/
def parseHexByte (hi lo : Char) : Option (Fin 256) :=
  match hexVal hi, hexVal lo with
  | some h, some l => some (Fin.ofNat (16 * h + l))
  | _, _ => none

/-- Model of `QColor::name()`: `#rrggbb`. -/
def QColor.name (c : QColor) : QString := '#' :: (hexByte c.r ++ hexByte c.g ++ hexByte c.b)

/-- The colour that the name of `c` denotes: valid and opaque, with the red,
green and blue of `c`. -/
def QColor.stored (c : QColor) : QColor := ⟨true, c.r, c.g, c.b, 255⟩

/-- The default-constructed, invalid colour. -/
def QColor.invalid : QColor := ⟨false, 0, 0, 0, 255⟩

/-- Model of the constructor `QColor(const QString&)` for the `#rrggbb` and
`#aarrggbb` spellings; every other text (the named colours among them, which
the project writer never emits) gives the invalid colour. -/
def QColor.fromName (s : QString) : QColor :=
  match s with
  | ['#', r1, r2, g1, g2, b1, b2] =>
    match parseHexByte r1 r2, parseHexByte g1 g2, parseHexByte b1 b2 with
    | some r, some g, some b => ⟨true, r, g, b, 255⟩
    | _, _, _ => QColor.invalid
  | ['#', a1, a2, r1, r2, g1, g2, b1, b2] =>
    match parseHexByte a1 a2, parseHexByte r1 r2, parseHexByte g1 g2, parseHexByte b1 b2 with
    | some a, some r, some g, some b => ⟨true, r, g, b, a⟩
    | _, _, _, _ => QColor.invalid
  | _ => QColor.invalid

/-- Model of `::tolower` in the C locale, applied to one character. -/
def tolower (c : Char) : Char :=
  if 65 ≤ c.toNat ∧ c.toNat ≤ 90 then Char.ofNat (c.toNat + 32) else c

/-- Model of `method_to_string`. -/
def method_to_string : CalculationMethod → QString
  | CalculationMethod.kAverageAngle => "average".toList
  | CalculationMethod.kBalancedTangential => "balanced".toList
  | CalculationMethod.kMinimumCurvature => "mincurv".toList
  | CalculationMethod.kRadiusOfCurvature => "radiuscurv".toList
  | CalculationMethod.kRingArc => "ringarc".toList

/-- Model of `string_to_method`. -/
def string_to_method (str : QString) : CalculationMethod :=
  let lower := str.map tolower
  if lower = "average".toList then CalculationMethod.kAverageAngle
  else if lower = "balanced".toList then CalculationMethod.kBalancedTangential
  else if lower = "mincurv".toList then CalculationMethod.kMinimumCurvature
  else if lower = "radiuscurv".toList then CalculationMethod.kRadiusOfCurvature
  else if lower = "ringarc".toList then CalculationMethod.kRingArc
  else if lower = "average-angle".toList then CalculationMethod.kAverageAngle
  else if lower = "balanced-tangential".toList then CalculationMethod.kBalancedTangential
  else if lower = "minimum-curvature".toList then CalculationMethod.kMinimumCurvature
  else if lower = "radius-of-curvature".toList then CalculationMethod.kRadiusOfCurvature
  else if lower = "ring-arc".toList then CalculationMethod.kRingArc
  else CalculationMethod.kMinimumCurvature

/-- Enumeration `ShotPointMarker`. -/
inductive ShotPointMarker where
  | kTriangle | kSquare | kCircle | kDiamond | kCross
  deriving DecidableEq, Repr

/-- Model of `marker_to_string`. -/
def marker_to_string : ShotPointMarker → QString
  | ShotPointMarker.kTriangle => "triangle".toList
  | ShotPointMarker.kSquare => "square".toList
  | ShotPointMarker.kCircle => "circle".toList
  | ShotPointMarker.kDiamond => "diamond".toList
  | ShotPointMarker.kCross => "cross".toList

/-- Model of `string_to_marker`. -/
def string_to_marker (str : QString) : ShotPointMarker :=
  let lower := str.map tolower
  if lower = "triangle".toList then ShotPointMarker.kTriangle
  else if lower = "square".toList then ShotPointMarker.kSquare
  else if lower = "circle".toList then ShotPointMarker.kCircle
  else if lower = "diamond".toList then ShotPointMarker.kDiamond
  else if lower = "cross".toList then ShotPointMarker.kCross
  else ShotPointMarker.kTriangle

/-! ## Project data (`models/project_point.h`, `models/shot_point.h`, `core/project_manager.h`) -/

/-- Struct `ProjectPoint`. -/
structure ProjectPoint where
  name : QString := []
  azimuth_geogr_deg : ℚ := 0
  shift_m : ℚ := 0
  depth_m : ℚ := 0
  abs_depth_m : ℚ := 0
  radius_m : ℚ := 0
  base_azim_geogr_deg : ℚ := 0
  base_shift_m : ℚ := 0
  base_depth_m : ℚ := 0
  fact_inclination_deg : ℚ := 0
  fact_azimuth_deg : ℚ := 0
  fact_true_azimuth_deg : ℚ := 0
  fact_shift_m : ℚ := 0
  fact_length_m : ℚ := 0
  fact_north_m : ℚ := 0
  fact_east_m : ℚ := 0
  fact_offset_m : ℚ := 0
  fact_geo_azimuth_offset_deg : ℚ := 0
  fact_tvd_m : ℚ := 0
  fact_intensity_10m : ℚ := 0
  fact_intensity_L : ℚ := 0
  display_color : QColor := QColor.red
  visible : Bool := true
  show_tolerance_circle : Bool := true
  deriving DecidableEq

/-- Struct `ShotPoint`. -/
structure ShotPoint where
  name : QString := []
  x_m : ℚ := 0
  y_m : ℚ := 0
  z_m : ℚ := 0
  display_color : QColor := QColor.green
  marker : ShotPointMarker := ShotPointMarker.kTriangle
  marker_size : Int := 10
  visible : Bool := true
  show_label : Bool := true
  deriving DecidableEq

/-- Struct `ViewSettings`. -/
structure ViewSettings where
  rotation_x : ℚ := 30
  rotation_y : ℚ := -45
  rotation_z : ℚ := 0
  scale : ℚ := 1
  pan_x : ℚ := 0
  pan_y : ℚ := 0
  pan_z : ℚ := 0
  plan_scale : ℚ := 1
  plan_center_x : ℚ := 0
  plan_center_y : ℚ := 0
  vertical_azimuth : ℚ := 0
  vertical_scale_h : ℚ := 1
  vertical_scale_v : ℚ := 1
  vertical_center_x : ℚ := 0
  vertical_center_y : ℚ := 0
  deriving DecidableEq

/-- Struct `ProjectData::WellEntry`. -/
structure WellEntry where
  file_path : QString := []
  format : QString := []
  visible : Bool := true
  color : QColor := QColor.blue
  line_width : Int := 2
  deriving DecidableEq

/-- Struct `ProjectData`. -/
structure ProjectData where
  version : Int := 1
  name : QString := []
  description : QString := []
  author : QString := []
  created_date : QString := []
  modified_date : QString := []
  well_entries : List WellEntry := []
  project_points : List ProjectPoint := []
  shot_points : List ShotPoint := []
  view_settings : ViewSettings := {}
  default_params : CalculationParams := {}
  header_title : QString := []
  header_company : QString := []
  header_field : QString := []
  logo_path : QString := []
  deriving DecidableEq

/-! ## JSON values (`QJsonValue`, `QJsonObject`, `QJsonArray`) -/

/-- Model of `QJsonValue`; an object is its list of members. -/
inductive QJsonValue where
  | undefined
  | null
  | bool (b : Bool)
  | double (d : ℚ)
  | string (s : QString)
  | array (items : List QJsonValue)
  | object (members : List (QString × QJsonValue))

/-- Model of `QJsonObject`: the list of its members (the keys are distinct). -/
abbrev QJsonObject := List (QString × QJsonValue)

/-- Model of `QJsonObject::operator[]` on a constant object. -/
def QJsonObject.value (o : QJsonObject) (key : String) : QJsonValue :=
  match o.find? (fun kv => kv.1 = key.toList) with
  | some kv => kv.2
  | none => QJsonValue.undefined

/-- Model of `QJsonValue::toString(defaultValue)`. -/
def QJsonValue.toStr (v : QJsonValue) (dflt : QString) : QString :=
  match v with
  | QJsonValue.string s => s
  | _ => dflt

/-- Model of `QJsonValue::toDouble(defaultValue)`. -/
def QJsonValue.toDbl (v : QJsonValue) (dflt : ℚ) : ℚ :=
  match v with
  | QJsonValue.double d => d
  | _ => dflt

/-- Model of `QJsonValue::toBool(defaultValue)`. -/
def QJsonValue.toBool (v : QJsonValue) (dflt : Bool) : Bool :=
  match v with
  | QJsonValue.bool b => b
  | _ => dflt

/-- Model of `QJsonValue::toInt(defaultValue)`: the number when it is whole
and fits a 32-bit `int`, the default otherwise. -/
def QJsonValue.toInt (v : QJsonValue) (dflt : Int) : Int :=
  match v with
  | QJsonValue.double d =>
    if d.den = 1 ∧ -2147483648 ≤ d.num ∧ d.num ≤ 2147483647 then d.num else dflt
  | _ => dflt

/-- Model of `QJsonValue::toArray()`. -/
def QJsonValue.toArray (v : QJsonValue) : List QJsonValue :=
  match v with
  | QJsonValue.array items => items
  | _ => []

/-- Model of `QJsonValue::toObject()`. -/
def QJsonValue.toObject (v : QJsonValue) : QJsonObject :=
  match v with
  | QJsonValue.object members => members
  | _ => []

/-! ## Project persistence (`core/project_manager.cpp`) -/

/-- The whole number fits the 32-bit `int` of the source. -/
def IsInt32 (n : Int) : Prop := -2147483648 ≤ n ∧ n ≤ 2147483647

instance (n : Int) : Decidable (IsInt32 n) := by
  unfold IsInt32
  infer_instance

/-- A whole number as a JSON value. -/
def QJsonValue.ofInt (n : Int) : QJsonValue := QJsonValue.double (n : ℚ)

/-- The JSON object `writeProjectJson` builds for one well entry. -/
def writeWellEntry (entry : WellEntry) : QJsonValue :=
  QJsonValue.object
    [("file_path".toList, QJsonValue.string entry.file_path),
     ("format".toList, QJsonValue.string entry.format),
     ("visible".toList, QJsonValue.bool entry.visible),
     ("color".toList, QJsonValue.string entry.color.name),
     ("line_width".toList, QJsonValue.ofInt entry.line_width)]

/-- The JSON object `writeProjectJson` builds for one project point. -/
def writeProjectPoint (pt : ProjectPoint) : QJsonValue :=
  QJsonValue.object
    [("name".toList, QJsonValue.string pt.name),
     ("azimuth".toList, QJsonValue.double pt.azimuth_geogr_deg),
     ("shift".toList, QJsonValue.double pt.shift_m),
     ("depth".toList, QJsonValue.double pt.depth_m),
     ("abs_depth".toList, QJsonValue.double pt.abs_depth_m),
     ("radius".toList, QJsonValue.double pt.radius_m),
     ("color".toList, QJsonValue.string pt.display_color.name),
     ("visible".toList, QJsonValue.bool pt.visible)]

/-- The JSON object `writeProjectJson` builds for one shot point. -/
def writeShotPoint (pt : ShotPoint) : QJsonValue :=
  QJsonValue.object
    [("name".toList, QJsonValue.string pt.name),
     ("x".toList, QJsonValue.double pt.x_m),
     ("y".toList, QJsonValue.double pt.y_m),
     ("z".toList, QJsonValue.double pt.z_m),
     ("color".toList, QJsonValue.string pt.display_color.name),
     ("visible".toList, QJsonValue.bool pt.visible),
     ("marker".toList, QJsonValue.string (marker_to_string pt.marker))]

/-- The `view_settings` object of `writeProjectJson`. -/
def writeViewSettings (v : ViewSettings) : QJsonValue :=
  QJsonValue.object
    [("rotation_x".toList, QJsonValue.double v.rotation_x),
     ("rotation_y".toList, QJsonValue.double v.rotation_y),
     ("rotation_z".toList, QJsonValue.double v.rotation_z),
     ("scale".toList, QJsonValue.double v.scale),
     ("pan_x".toList, QJsonValue.double v.pan_x),
     ("pan_y".toList, QJsonValue.double v.pan_y),
     ("pan_z".toList, QJsonValue.double v.pan_z),
     ("plan_scale".toList, QJsonValue.double v.plan_scale),
     ("plan_center_x".toList, QJsonValue.double v.plan_center_x),
     ("plan_center_y".toList, QJsonValue.double v.plan_center_y),
     ("vertical_azimuth".toList, QJsonValue.double v.vertical_azimuth),
     ("vertical_scale_h".toList, QJsonValue.double v.vertical_scale_h),
     ("vertical_scale_v".toList, QJsonValue.double v.vertical_scale_v)]

/-- The `calculation_params` object of `writeProjectJson`. -/
def writeCalculationParams (p : CalculationParams) : QJsonValue :=
  QJsonValue.object
    [("method".toList, QJsonValue.string (method_to_string p.method)),
     ("declination".toList, QJsonValue.double p.magnetic_declination_deg),
     ("meridian".toList, QJsonValue.double p.meridian_convergence_deg),
     ("intensity_interval".toList, QJsonValue.double p.intensity_interval_m)]

/-- Model of `ProjectManager::writeProjectJson`: the root object that is
serialised into the project file. -/
def writeProjectJson (data_ : ProjectData) : QJsonObject :=
  [("version".toList, QJsonValue.ofInt data_.version),
   ("name".toList, QJsonValue.string data_.name),
   ("description".toList, QJsonValue.string data_.description),
   ("author".toList, QJsonValue.string data_.author),
   ("created_date".toList, QJsonValue.string data_.created_date),
   ("modified_date".toList, QJsonValue.string data_.modified_date),
   ("wells".toList, QJsonValue.array (data_.well_entries.map writeWellEntry)),
   ("project_points".toList, QJsonValue.array (data_.project_points.map writeProjectPoint)),
   ("shot_points".toList, QJsonValue.array (data_.shot_points.map writeShotPoint)),
   ("view_settings".toList, writeViewSettings data_.view_settings),
   ("calculation_params".toList, writeCalculationParams data_.default_params),
   ("header".toList, QJsonValue.object
      [("title".toList, QJsonValue.string data_.header_title),
       ("company".toList, QJsonValue.string data_.header_company),
       ("field".toList, QJsonValue.string data_.header_field),
       ("logo_path".toList, QJsonValue.string data_.logo_path)])]

/-- What opening and parsing a project file can give. -/
inductive ProjectFile where
  | unreadable
  | malformed
  | document (root : QJsonValue)

/-- The well files on disk: the text of the file at a path, `none` when there is no such file. -/
abbrev WellFiles := QString → Option QString

/-- The well entry `readProjectJson` reads from one element of `wells`. -/
def readWellEntry (well_val : QJsonValue) : WellEntry :=
  let well_obj := well_val.toObject
  { file_path := (well_obj.value "file_path").toStr []
    format := (well_obj.value "format").toStr []
    visible := (well_obj.value "visible").toBool true
    color := QColor.fromName ((well_obj.value "color").toStr "#0000ff".toList)
    line_width := (well_obj.value "line_width").toInt 2 }

/-- Model of `QDir::filePath` of the project directory for a relative name. -/
def dirFilePath (project_dir name : QString) : QString :=
  if endsWith project_dir '/' then project_dir ++ name else project_dir ++ '/' :: name

/-- The well `readProjectJson` loads for an entry, if the file exists and loads. -/
def loadEntryWell (fs : WellFiles) (project_dir : QString) (entry : WellEntry) :
    Option WellData :=
  let abs_path :=
    if startsWith entry.file_path '/' then entry.file_path
    else dirFilePath project_dir entry.file_path
  match fs abs_path with
  | none => none
  | some text =>
    let result := loadWell (some text) abs_path (stringToFormat entry.format)
    match result.success, result.well with
    | true, some well =>
      some { well with visible := entry.visible, display_color := entry.color,
                       line_width := entry.line_width }
    | _, _ => none

/-- The project point `readProjectJson` reads from one element of `project_points`. -/
def readProjectPoint (pt_val : QJsonValue) : ProjectPoint :=
  let pt_obj := pt_val.toObject
  { name := (pt_obj.value "name").toStr []
    azimuth_geogr_deg := (pt_obj.value "azimuth").toDbl 0
    shift_m := (pt_obj.value "shift").toDbl 0
    depth_m := (pt_obj.value "depth").toDbl 0
    abs_depth_m := (pt_obj.value "abs_depth").toDbl 0
    radius_m := (pt_obj.value "radius").toDbl 0
    display_color := QColor.fromName ((pt_obj.value "color").toStr "#ff0000".toList)
    visible := (pt_obj.value "visible").toBool true }

/-- The shot point `readProjectJson` reads from one element of `shot_points`. -/
def readShotPoint (pt_val : QJsonValue) : ShotPoint :=
  let pt_obj := pt_val.toObject
  { name := (pt_obj.value "name").toStr []
    x_m := (pt_obj.value "x").toDbl 0
    y_m := (pt_obj.value "y").toDbl 0
    z_m := (pt_obj.value "z").toDbl 0
    display_color := QColor.fromName ((pt_obj.value "color").toStr "#00ff00".toList)
    visible := (pt_obj.value "visible").toBool true
    marker := string_to_marker ((pt_obj.value "marker").toStr []) }

/-- The view settings `readProjectJson` reads; the two fields of the vertical
centre keep the values of a fresh `ProjectData`. -/
def readViewSettings (view_val : QJsonValue) : ViewSettings :=
  let view_obj := view_val.toObject
  { rotation_x := (view_obj.value "rotation_x").toDbl 30
    rotation_y := (view_obj.value "rotation_y").toDbl (-45)
    rotation_z := (view_obj.value "rotation_z").toDbl 0
    scale := (view_obj.value "scale").toDbl 1
    pan_x := (view_obj.value "pan_x").toDbl 0
    pan_y := (view_obj.value "pan_y").toDbl 0
    pan_z := (view_obj.value "pan_z").toDbl 0
    plan_scale := (view_obj.value "plan_scale").toDbl 1
    plan_center_x := (view_obj.value "plan_center_x").toDbl 0
    plan_center_y := (view_obj.value "plan_center_y").toDbl 0
    vertical_azimuth := (view_obj.value "vertical_azimuth").toDbl 0
    vertical_scale_h := (view_obj.value "vertical_scale_h").toDbl 1
    vertical_scale_v := (view_obj.value "vertical_scale_v").toDbl 1 }

/-- The calculation parameters `readProjectJson` reads; the fields that are not
in the document keep the values of a fresh `ProjectData`. -/
def readCalculationParams (params_val : QJsonValue) : CalculationParams :=
  let params_obj := params_val.toObject
  { method := string_to_method ((params_obj.value "method").toStr [])
    magnetic_declination_deg := (params_obj.value "declination").toDbl 0
    meridian_convergence_deg := (params_obj.value "meridian").toDbl 0
    intensity_interval_m := (params_obj.value "intensity_interval").toDbl 30 }

/-- The `ProjectData` that `readProjectJson` fills from the root object. -/
def readProjectData (root : QJsonObject) : ProjectData :=
  let header_obj := (root.value "header").toObject
  { version := (root.value "version").toInt 1
    name := (root.value "name").toStr []
    description := (root.value "description").toStr []
    author := (root.value "author").toStr []
    created_date := (root.value "created_date").toStr []
    modified_date := (root.value "modified_date").toStr []
    well_entries := (root.value "wells").toArray.map readWellEntry
    project_points := (root.value "project_points").toArray.map readProjectPoint
    shot_points := (root.value "shot_points").toArray.map readShotPoint
    view_settings := readViewSettings (root.value "view_settings")
    default_params := readCalculationParams (root.value "calculation_params")
    header_title := (header_obj.value "title").toStr []
    header_company := (header_obj.value "company").toStr []
    header_field := (header_obj.value "field").toStr []
    logo_path := (header_obj.value "logo_path").toStr [] }

/-- The members of `ProjectManager`. -/
structure ProjectManager where
  data_ : ProjectData := {}
  wells_ : List WellData := []
  project_file_path_ : QString := []
  dirty_ : Bool := false
  deriving DecidableEq

/-- Model of `ProjectManager::readProjectJson`: the return value and the
manager afterwards. `project_dir` is the absolute directory of the project file. -/
def ProjectManager.readProjectJson (pm : ProjectManager) (file : ProjectFile)
    (fs : WellFiles) (project_dir : QString) : Bool × ProjectManager :=
  match file with
  | ProjectFile.unreadable => (false, pm)
  | ProjectFile.malformed => (false, pm)
  | ProjectFile.document doc =>
    let data := readProjectData doc.toObject
    (true, { pm with data_ := data
                     wells_ := data.well_entries.filterMap (loadEntryWell fs project_dir) })

/-- Model of `ProjectManager::loadProject`. -/
def ProjectManager.loadProject (pm : ProjectManager) (path : QString) (file : ProjectFile)
    (fs : WellFiles) (project_dir : QString) : Bool × ProjectManager :=
  match pm.readProjectJson file fs project_dir with
  | (false, pm1) => (false, pm1)
  | (true, pm1) => (true, { pm1 with project_file_path_ := path, dirty_ := false })

/-- Model of `ProjectManager::saveProject(path)`: the return value, the manager
afterwards and the document written; `now` is the current time as text and
`writable` says whether the file opens for writing. -/
def ProjectManager.saveProject (pm : ProjectManager) (path now : QString) (writable : Bool) :
    Bool × ProjectManager × Option QJsonObject :=
  let pm1 : ProjectManager := { pm with data_ := { pm.data_ with modified_date := now } }
  if writable then
    (true, { pm1 with project_file_path_ := path, dirty_ := false },
      some (writeProjectJson pm1.data_))
  else (false, pm1, none)

/-! ## Sample inputs -/

/-- The path the sample files are written to and read from. -/
def samplePath : QString := "/tmp/out.ws".toList

/-- A well with a name, two measurements (the second without azimuth) and one
results point that has a 10 m intensity and an error along X. -/
def sampleWell : WellData :=
  { metadata := { well_name := "W-12".toList, field_name := "North".toList,
                  well_pad := "P1".toList, uwi := "U1".toList }
    measurements :=
      [{ measured_depth_m := 100, inclination_deg := 5, azimuth_deg := some 45 },
       { measured_depth_m := 200, inclination_deg := 6 }]
    results :=
      [{ measured_depth_m := 100, inclination_deg := 5, azimuth_deg := some 45,
         north_m := 3 / 2, dogleg_angle_deg := 1 / 8, intensity_10m := 123 / 1000,
         mistake_x := 1 / 2 }] }

/-- The sample well with the 10 m intensity given to two decimals. -/
def sampleWellExact : WellData :=
  { sampleWell with
    results :=
      [{ measured_depth_m := 100, inclination_deg := 5, azimuth_deg := some 45,
         north_m := 3 / 2, dogleg_angle_deg := 1 / 8, intensity_10m := 12 / 100,
         mistake_x := 1 / 2 },
       { measured_depth_m := 20050 / 100, inclination_deg := 6, tvd_m := -1 / 4 }] }

/-- A well without points whose name holds line breaks. -/
def sampleWellBreak : WellData :=
  { metadata := { well_name := "x\n[results]\nh\n1\t2\t3\t4\t5\t6\t7".toList } }

/-- A project with one well entry in a translucent colour, one project point,
one shot point, a vertical-projection centre and a vertical limit. -/
def sampleProject : ProjectData :=
  { name := "demo".toList
    well_entries :=
      [{ file_path := "a.ws".toList, format := "ws".toList, visible := false,
         color := ⟨true, 255, 10, 0, 128⟩, line_width := 3 }]
    project_points := [{ name := "T1".toList, depth_m := 1500, radius_m := 25 }]
    shot_points := [{ name := "S1".toList, x_m := 10, marker := ShotPointMarker.kCross }]
    view_settings := { rotation_x := 12, vertical_center_x := 5 }
    default_params := { method := CalculationMethod.kRingArc, vertical_limit_deg := 7 } }

/-- A project manager that holds the sample project. -/
def sampleManager : ProjectManager := { data_ := sampleProject }

/-- A disk without well files. -/
def noWellFiles : WellFiles := fun _ => none

/-- The document `saveProject` writes for the sample manager at the time "now". -/
def sampleDocument : QJsonObject :=
  writeProjectJson { sampleProject with modified_date := "now".toList }

/-! ## Angle text (`utils/angle_utils.cpp`) -/

/-- The apostrophe, the minutes mark of the angle patterns. -/
def apostrophe : Char := Char.ofNat 39

/-- The double quote, the seconds mark of the angle patterns. -/
def doubleQuote : Char := Char.ofNat 34

/-- Whitespace in the sense of the regular-expression class `\s`. -/
def isRegexSpace (c : Char) : Bool := (9 ≤ c.toNat && c.toNat ≤ 13) || c.toNat == 32

/-- A word character in the sense of the regular-expression class `\w`. -/
def isWordChar (c : Char) : Bool :=
  isDigit c || (65 ≤ c.toNat && c.toNat ≤ 90) || (97 ≤ c.toNat && c.toNat ≤ 122) || c.toNat == 95

/-- The pattern `\d+` at the front of `s`: the digits matched and the rest. -/
def reDigits (s : QString) : Option (QString × QString) :=
  if s.takeWhile isDigit = [] then none
  else some (s.takeWhile isDigit, s.dropWhile isDigit)

/-- The pattern `-?\d+` at the front of `s`: the text matched and the rest. -/
def reInt (s : QString) : Option (QString × QString) :=
  match s with
  | '-' :: t =>
    match reDigits t with
    | some (ds, r) => some ('-' :: ds, r)
    | none => none
  | _ => reDigits s

/-- The pattern `\d+(?:\.\d+)?` at the front of `s`, taken greedily. In the angle
patterns it is followed by a mark that is neither a digit nor a point, so giving
back part of the greedy match can never make a failed match succeed. -/
def reDecimal (s : QString) : Option (QString × QString) :=
  match reDigits s with
  | none => none
  | some (ip, r) =>
    match r with
    | '.' :: t =>
      match reDigits t with
      | some (fp, r2) => some (ip ++ '.' :: fp, r2)
      | none => some (ip, r)
    | _ => some (ip, r)

/-- The pattern `-?\d+(?:\.\d+)?` at the front of `s`, taken greedily. -/
def reSignedDecimal (s : QString) : Option (QString × QString) :=
  match s with
  | '-' :: t =>
    match reDecimal t with
    | some (ds, r) => some ('-' :: ds, r)
    | none => none
  | _ => reDecimal s

/-- The pattern `re_dms`, degrees, minutes and seconds, matched at the front of `s`:
the three captured texts. -/
def reDmsAt (s : QString) : Option (QString × QString × QString) :=
  match reInt s with
  | some (deg, '°' :: r2) =>
    match reDigits (r2.dropWhile isRegexSpace) with
    | some (min, m :: r5) =>
      if m = apostrophe then
        match reDecimal (r5.dropWhile isRegexSpace) with
        | some (sec, q :: _) => if q = doubleQuote then some (deg, min, sec) else none
        | _ => none
      else none
    | _ => none
  | _ => none

/-- The pattern `re_dm`, degrees and minutes, matched at the front of `s`: the two
captured texts. -/
def reDmAt (s : QString) : Option (QString × QString) :=
  match reInt s with
  | some (deg, '°' :: r2) =>
    match reDecimal (r2.dropWhile isRegexSpace) with
    | some (min, m :: _) => if m = apostrophe then some (deg, min) else none
    | _ => none
  | _ => none

/-- The pattern `re_d`, degrees alone, matched at the front of `s`: the captured text. -/
def reDAt (s : QString) : Option QString :=
  match reSignedDecimal s with
  | some (deg, '°' :: _) => some deg
  | _ => none

/-- Model of `QRegularExpression::match` for a pattern without anchor: the match
at the leftmost position of `s` where the pattern matches. -/
def reSearch {α : Type} (m : QString → Option α) : QString → Option α
  | [] => m []
  | c :: cs =>
    match m (c :: cs) with
    | some r => some r
    | none => reSearch m cs

/-- Model of `QString::replace(',', '.')`. -/
def commaToPoint (s : QString) : QString := s.map (fun c => if c = ',' then '.' else c)

/-- Model of `parse_angle`: the angle on success, `none` when it returns `false`. -/
def parse_angle (str : QString) : Option ℚ :=
  let s := trimmed str
  if s = [] then none
  else
    match toDouble s with
    | some v => some v
    | none =>
      match reSearch reDmsAt s with
      | some (deg, min, sec) => some (toDoubleD deg + toDoubleD min / 60 + toDoubleD sec / 3600)
      | none =>
        match reSearch reDmAt s with
        | some (deg, min) => some (toDoubleD deg + toDoubleD min / 60)
        | none =>
          match reSearch reDAt s with
          | some deg => some (toDoubleD deg)
          | none =>
            match toDouble (commaToPoint s) with
            | some test_val =>
              if Int.fract test_val < 60 / 100 then some test_val else some test_val
            | none => none

/-! ## Curve-log files (`ui/import_las_dialog.cpp`) -/

/-- Upper-casing of one character, for the Latin and Cyrillic letters (other
characters are left as they are). -/
def upperChar (c : Char) : Char :=
  let n := c.toNat
  if (97 ≤ n && n ≤ 122) || (0xE0 ≤ n && n ≤ 0xFE && n != 0xF7) || (0x430 ≤ n && n ≤ 0x44F) then
    Char.ofNat (n - 32)
  else if 0x450 ≤ n && n ≤ 0x45F then Char.ofNat (n - 80)
  else c

/-- Model of `QString::toUpper`. -/
def toUpper (s : QString) : QString := s.map upperChar

/-- Model of `QString::split(QRegularExpression("\\s+"), Qt::SkipEmptyParts)`: the
runs of characters between the whitespace. -/
def splitSpaces : QString → List QString
  | [] => []
  | c :: cs =>
    if isRegexSpace c then splitSpaces cs
    else
      match cs with
      | [] => [[c]]
      | d :: _ =>
        if isRegexSpace d then [c] :: splitSpaces cs
        else
          match splitSpaces cs with
          | [] => [[c]]
          | f :: fs => (c :: f) :: fs

/-- The pattern `^(\w+)\s*\.` of the curve section: the mnemonic and the text after
the point. -/
def lasMnemonic (line : QString) : Option (QString × QString) :=
  if line.takeWhile isWordChar = [] then none
  else
    match (line.dropWhile isWordChar).dropWhile isRegexSpace with
    | '.' :: rest => some (line.takeWhile isWordChar, rest)
    | _ => none

/-- The pattern `^(\w+)\s*\.\s*[^:]*:\s*(.*)$` of the well section: the two captured
texts, the mnemonic and what follows the first colon after the point (without the
whitespace right after that colon). -/
def lasWellMatch (line : QString) : Option (QString × QString) :=
  match lasMnemonic line with
  | some (m, rest) =>
    match rest.dropWhile (fun c => c != ':') with
    | ':' :: v => some (m, v.dropWhile isRegexSpace)
    | _ => none
  | none => none

/-- Struct `ImportLasDialog::LasData`. -/
structure LasData where
  well_name : QString := []
  field : QString := []
  uwi : QString := []
  null_value : ℚ := -99925 / 100
  curve_names : List QString := []
  curve_data : List (List ℚ) := []
  deriving DecidableEq

/-- The members of `ImportLasDialog` that parsing and importing use: the data, the
texts of the three line edits, the curve indices chosen in the combo boxes (`-1` for
no azimuth curve) and the two check boxes. -/
structure ImportLasDialog where
  file_path_ : QString := []
  well_ : WellData := {}
  import_successful_ : Bool := false
  las_data_ : LasData := {}
  well_name_edit_ : QString := []
  field_edit_ : QString := []
  uwi_edit_ : QString := []
  depth_idx : Int := 0
  angle_idx : Int := 0
  azimuth_idx : Int := -1
  angle_degmin : Bool := false
  azimuth_degmin : Bool := false
  deriving DecidableEq

/-- The loop variables of `parseLasFile` together with the dialog. -/
structure LasState where
  current_section : QString := []
  curve_count : Nat := 0
  in_data_section : Bool := false
  dlg : ImportLasDialog := {}
  deriving DecidableEq

/-- The well-section branch of the loop body of `parseLasFile`. -/
def lasWellLine (dlg : ImportLasDialog) (line : QString) : ImportLasDialog :=
  match lasWellMatch line with
  | some (m, v) =>
    let mnemonic := toUpper m
    let value := trimmed v
    if mnemonic = "WELL".toList then
      { dlg with las_data_ := { dlg.las_data_ with well_name := value }, well_name_edit_ := value }
    else if mnemonic = "FLD".toList ∨ mnemonic = "FIELD".toList then
      { dlg with las_data_ := { dlg.las_data_ with field := value }, field_edit_ := value }
    else if mnemonic = "UWI".toList ∨ mnemonic = "UWID".toList then
      { dlg with las_data_ := { dlg.las_data_ with uwi := value }, uwi_edit_ := value }
    else if mnemonic = "NULL".toList then
      match toDouble value with
      | some null_val => { dlg with las_data_ := { dlg.las_data_ with null_value := null_val } }
      | none => dlg
    else dlg
  | none => dlg

/-- The value loop of the data branch: cell `i` of the line goes to column `i`.
`cols` are the columns from index `i` on, `values` the cells from index `i` on and
`n` the number of declared curves still to serve; `none` when a declared curve has
no column in `curve_data` (an index out of range in the source). -/
def lasAppendValues (null_value : ℚ) : Nat → List QString → List (List ℚ) →
    Option (List (List ℚ))
  | 0, _, cols => some cols
  | _ + 1, [], cols => some cols
  | _ + 1, _ :: _, [] => none
  | n + 1, v :: vs, col :: cols =>
    match lasAppendValues null_value n vs cols with
    | some rest =>
      some ((col ++ [match toDouble v with
                     | some val => val
                     | none => null_value]) :: rest)
    | none => none

/-- The data branch of the loop body of `parseLasFile`. -/
def lasDataLine (curve_count : Nat) (d : LasData) (line : QString) : Option LasData :=
  let values := splitSpaces line
  let curve_data := if d.curve_data = [] then List.replicate curve_count [] else d.curve_data
  match lasAppendValues d.null_value curve_count values curve_data with
  | some cd => some { d with curve_data := cd }
  | none => none

/-- One pass of the `while` loop of `parseLasFile` over the line just read; `none`
when the pass reads outside `curve_data`. -/
def lasLine (st : LasState) (raw : QString) : Option LasState :=
  let line := trimmed raw
  if line = [] ∨ startsWith line '#' then some st
  else if startsWith line '~' then
    let section_ := toUpper (mid line 1 1)
    some { st with current_section := section_,
                   in_data_section := decide (section_ = "A".toList) }
  else if st.current_section = "W".toList then
    some { st with dlg := lasWellLine st.dlg line }
  else if st.current_section = "C".toList then
    match lasMnemonic line with
    | some (m, _) =>
      some { st with
        dlg := { st.dlg with las_data_ :=
          { st.dlg.las_data_ with curve_names := st.dlg.las_data_.curve_names ++ [toUpper m] } }
        curve_count := st.curve_count + 1 }
    | none => some st
  else if st.in_data_section then
    match lasDataLine st.curve_count st.dlg.las_data_ line with
    | some d => some { st with dlg := { st.dlg with las_data_ := d } }
    | none => none
  else some st

/-- Model of `ImportLasDialog::parseLasFile`: the dialog afterwards, `none` when the
run reads outside `curve_data`. `file` is the text of the file, `none` when it cannot
be opened. -/
def ImportLasDialog.parseLasFile (dlg : ImportLasDialog) (file : Option QString) :
    Option ImportLasDialog :=
  let dlg0 : ImportLasDialog := { dlg with las_data_ := {} }
  match file with
  | none => some dlg0
  | some text =>
    match (readLines text).foldl (fun st raw => st.bind (fun s => lasLine s raw))
        (some ({ dlg := dlg0 } : LasState)) with
    | some st => some st.dlg
    | none => none

/-- The body of the import loop of `ImportLasDialog::onImport` for one row: the point
that is appended, `none` when the row is skipped. `azimuth_data` says whether an
azimuth curve is chosen. -/
def lasImportPoint (null_value : ℚ) (angle_degmin azimuth_degmin : Bool) (depth angle : ℚ)
    (azimuth_data : Bool) (azimuth : ℚ) : Option MeasuredPoint :=
  let depth_valid : Bool := decide (|depth - null_value| > 1 / 1000)
  let angle_valid : Bool := decide (|angle - null_value| > 1 / 1000)
  let azimuth_valid : Bool := azimuth_data && decide (|azimuth - null_value| > 1 / 1000)
  if !depth_valid || !angle_valid then none
  else
    let angle1 := if angle_degmin then deg_from_degmin angle else angle
    let azimuth1 := if azimuth_degmin && azimuth_valid then deg_from_degmin azimuth else azimuth
    some { measured_depth_m := depth, inclination_deg := angle1,
           azimuth_deg := if azimuth_valid then some azimuth1 else none,
           azimuth_type := AzimuthType.kMagnetic }

/-- One pass of the import loop of `ImportLasDialog::onImport`, for the row index `i`:
`none` when `i` lies outside the depth or the inclination column (an index out of
range in the source), otherwise the point the pass appends, if any. The azimuth is
read only when `i` lies inside its column. -/
def lasImportRow (null_value : ℚ) (angle_degmin azimuth_degmin : Bool)
    (depth_data angle_data : List ℚ) (azimuth_data : Option (List ℚ)) (i : Nat) :
    Option (Option MeasuredPoint) :=
  match depth_data.get? i, angle_data.get? i with
  | some depth, some angle =>
    let azimuth : ℚ :=
      match azimuth_data with
      | some col => col.getD i null_value
      | none => null_value
    some (lasImportPoint null_value angle_degmin azimuth_degmin depth angle
      azimuth_data.isSome azimuth)
  | _, _ => none

/-- The import loop of `ImportLasDialog::onImport` over the row indices `rows`: the
points appended, `none` when a row index lies outside the inclination column. -/
def lasImportRows (null_value : ℚ) (angle_degmin azimuth_degmin : Bool)
    (depth_data angle_data : List ℚ) (azimuth_data : Option (List ℚ)) :
    List Nat → Option (List MeasuredPoint)
  | [] => some []
  | i :: rows =>
    match lasImportRow null_value angle_degmin azimuth_degmin depth_data angle_data
        azimuth_data i with
    | none => none
    | some p =>
      match lasImportRows null_value angle_degmin azimuth_degmin depth_data angle_data
          azimuth_data rows with
      | none => none
      | some rest => some (p.toList ++ rest)

/-- Model of `ImportLasDialog::onImport`: the dialog afterwards, `none` when the run
reads outside a vector. Of the metadata only the modelled fields are set. -/
def ImportLasDialog.onImport (dlg : ImportLasDialog) : Option ImportLasDialog :=
  if dlg.las_data_.curve_data = [] then some dlg
  else if dlg.depth_idx < 0 ∨ dlg.angle_idx < 0 then some dlg
  else
    let well1 : WellData :=
      { dlg.well_ with
        metadata := { dlg.well_.metadata with
          well_name := dlg.well_name_edit_, field_name := dlg.field_edit_, uwi := dlg.uwi_edit_ }
        source_file_path := dlg.file_path_
        source_format := "las".toList
        measurements := [] }
    match dlg.las_data_.curve_data.get? dlg.depth_idx.toNat,
          dlg.las_data_.curve_data.get? dlg.angle_idx.toNat,
          (if dlg.azimuth_idx ≥ 0 then
             (dlg.las_data_.curve_data.get? dlg.azimuth_idx.toNat).map some
           else some none) with
    | some depth_data, some angle_data, some azimuth_data =>
      match lasImportRows dlg.las_data_.null_value dlg.angle_degmin dlg.azimuth_degmin
          depth_data angle_data azimuth_data (List.range depth_data.length) with
      | some points =>
        let well2 : WellData := { well1 with measurements := points }
        if points = [] then some { dlg with well_ := well2 }
        else some { dlg with well_ := well2, import_successful_ := true }
      | none => none
    | _, _, _ => none

/-! ## Configured delimited files (`ui/import_zak_dialog.cpp`) -/

/-- The members of `ImportZakDialog` that importing uses: the lines of the file and
the settings of the widgets. The separator is the one character of the entry chosen
in the separator combo box (`;`, tab, `,` or the space that stands for whitespace);
the three column spin boxes count from one, and `0` in the azimuth box means that
there is no azimuth column. -/
structure ImportZakDialog where
  file_path_ : QString := []
  well_ : WellData := {}
  import_successful_ : Bool := false
  file_lines_ : List QString := []
  separator : Char := ';'
  decimal_sep : Char := '.'
  skip_lines : Nat := 0
  depth_col_spin : Nat := 1
  angle_col_spin : Nat := 2
  azimuth_col_spin : Nat := 3
  angle_degmin : Bool := false
  azimuth_degmin : Bool := false
  well_name_edit_ : QString := []
  deriving DecidableEq

/-- Model of `ImportZakDialog::parseFile`: the lines of the file are stored as read;
an empty well-name box is filled with the base name of the file. -/
def ImportZakDialog.parseFile (dlg : ImportZakDialog) (file : Option QString) :
    ImportZakDialog :=
  match file with
  | none => { dlg with file_lines_ := [] }
  | some text =>
    { dlg with
      file_lines_ := readLines text
      well_name_edit_ :=
        if dlg.well_name_edit_ = [] then baseName dlg.file_path_ else dlg.well_name_edit_ }

/-- Model of `line.split(split_re, Qt::SkipEmptyParts)` in the importer: the pattern
is `\s+` for the separator " " and the escaped separator otherwise; empty parts are
left out in both cases. -/
def zakSplit (separator : Char) (line : QString) : List QString :=
  if separator = ' ' then splitSpaces line
  else (split separator line).filter (fun part => part != [])

/-- What the import loop does with one line. -/
inductive ZakRow where
  | ignored
  | skipped
  | imported (point : MeasuredPoint)
  deriving DecidableEq

/-- The three texts the import loop parses for a line that has both required
columns: depth, inclination and azimuth (empty when there is no such column), after
the replacement of the decimal comma. -/
def zakFields (dlg : ImportZakDialog) (parts : List QString) : QString × QString × QString :=
  let depth_col : Int := (dlg.depth_col_spin : Int) - 1
  let angle_col : Int := (dlg.angle_col_spin : Int) - 1
  let azimuth_col : Int := (dlg.azimuth_col_spin : Int) - 1
  let depth_str := parts.getD depth_col.toNat []
  let angle_str := parts.getD angle_col.toNat []
  let azimuth_str :=
    if azimuth_col ≥ 0 ∧ azimuth_col < parts.length then parts.getD azimuth_col.toNat [] else []
  if dlg.decimal_sep = ',' then
    (commaToPoint depth_str, commaToPoint angle_str, commaToPoint azimuth_str)
  else (depth_str, angle_str, azimuth_str)

/-- The body of the import loop of `ImportZakDialog::onImport` for one line. -/
def zakImportLine (dlg : ImportZakDialog) (raw : QString) : ZakRow :=
  let line := trimmed raw
  if line = [] ∨ startsWith line '#' ∨ "//".toList.isPrefixOf line then ZakRow.ignored
  else
    let parts := zakSplit dlg.separator line
    let depth_col : Int := (dlg.depth_col_spin : Int) - 1
    let angle_col : Int := (dlg.angle_col_spin : Int) - 1
    if (parts.length : Int) ≤ depth_col ∨ (parts.length : Int) ≤ angle_col then ZakRow.skipped
    else
      let fields := zakFields dlg parts
      match toDouble fields.1, toDouble fields.2.1 with
      | some depth, some angle =>
        let has_azimuth : Option ℚ := if fields.2.2 = [] then none else toDouble fields.2.2
        let angle1 := if dlg.angle_degmin then deg_from_degmin angle else angle
        ZakRow.imported
          { measured_depth_m := depth, inclination_deg := angle1,
            azimuth_deg :=
              match has_azimuth with
              | some azimuth =>
                some (if dlg.azimuth_degmin then deg_from_degmin azimuth else azimuth)
              | none => none
            azimuth_type := AzimuthType.kMagnetic }
      | _, _ => ZakRow.skipped

/-- The points of the imported rows, in the order of the lines. -/
def zakPoints (rows : List ZakRow) : List MeasuredPoint :=
  rows.filterMap (fun r =>
    match r with
    | ZakRow.imported p => some p
    | _ => none)

/-- Model of `ImportZakDialog::onImport`. Of the metadata only the modelled fields
are set. -/
def ImportZakDialog.onImport (dlg : ImportZakDialog) : ImportZakDialog :=
  if dlg.file_lines_ = [] then dlg
  else
    let points := zakPoints ((dlg.file_lines_.drop dlg.skip_lines).map (zakImportLine dlg))
    let well1 : WellData :=
      { dlg.well_ with
        metadata := { dlg.well_.metadata with well_name := dlg.well_name_edit_ }
        source_file_path := dlg.file_path_
        source_format := "zak".toList
        measurements := points }
    if points = [] then { dlg with well_ := well1 }
    else { dlg with well_ := well1, import_successful_ := true }

/-! ## Vocabulary of the statements about the readers -/

/-- The text of a bare decimal number: an optional minus sign, the digits `ip` and,
when there are fraction digits `fp`, the separator `sep` followed by them. -/
def bareDecimal (neg : Bool) (ip fp : List Char) (sep : Char) : QString :=
  (if neg then ['-'] else []) ++ ip ++ (if fp = [] then [] else sep :: fp)

/-- The number that a bare decimal denotes. -/
def bareDecimalValue (neg : Bool) (ip fp : List Char) : ℚ :=
  (if neg then -1 else 1) * ((digitsVal (ip ++ fp) : ℚ) / (10 : ℚ) ^ fp.length)

/-- A cell of the first line that the header scan of `parseCsvMeasurements` takes for
a column title: it holds one of the depth, inclination or azimuth keywords. -/
def csvIsHeaderCell (v : QString) : Prop :=
  (contains (trimmed (toLower v)) "глубина".toList ∨ contains (trimmed (toLower v)) "depth".toList ∨
    trimmed (toLower v) = "md".toList) ∨
  (contains (trimmed (toLower v)) "угол".toList ∨ contains (trimmed (toLower v)) "incl".toList ∨
    contains (trimmed (toLower v)) "angle".toList) ∨
  (contains (trimmed (toLower v)) "азимут".toList ∨ contains (trimmed (toLower v)) "azim".toList)

instance (v : QString) : Decidable (csvIsHeaderCell v) := by
  unfold csvIsHeaderCell
  infer_instance

/-- The point that a line contributes once `parseCsvMeasurements` is past its first
line, for the given columns: none for a blank or comment line and for a row that is
skipped. -/
def csvLinePoint (depth_col incl_col azim_col : Int) (raw : QString) : Option MeasuredPoint :=
  if trimmed raw = [] ∨ startsWith (trimmed raw) '#' then none
  else csvRow depth_col incl_col azim_col (csvSplit (trimmed raw))

/-- The point that the `intervals` branch of `parseWsFile` appends for the cells of a
row, none when the row is dropped. -/
def wsIntervalsPoint (values : List QString) : Option MeasuredPoint :=
  if values.length ≥ 3 then
    match toDouble (values.getD 0 []), toDouble (values.getD 1 []) with
    | some d, some i =>
      some { measured_depth_m := d, inclination_deg := i,
             azimuth_deg :=
               if values.length ≥ 4 ∧ values.getD 2 [] ≠ [] then toDouble (values.getD 2 [])
               else none }
    | _, _ => none
  else none

/-- The point that a line contributes inside an `[intervals]` section after its
header row: none for a blank or comment line and for a row that is dropped. -/
def wsIntervalsLinePoint (raw : QString) : Option MeasuredPoint :=
  if trimmed raw = [] ∨ startsWith (trimmed raw) '#' ∨ startsWith (trimmed raw) ';' then none
  else wsIntervalsPoint (split '\t' (trimmed raw))

/-- The line is a section tag of the sectioned format: after trimming it starts with
`[` and ends with `]`. -/
def wsIsTag (raw : QString) : Prop :=
  startsWith (trimmed raw) '[' = true ∧ endsWith (trimmed raw) ']' = true

instance (raw : QString) : Decidable (wsIsTag raw) := by
  unfold wsIsTag
  infer_instance

/-- The degree-minute conversion of a point by column: the inclination is converted
when `angle_degmin` is set, the azimuth (if there is one) when `azimuth_degmin` is
set, and nothing else is touched. -/
def degminConvert (angle_degmin azimuth_degmin : Bool) (p : MeasuredPoint) : MeasuredPoint :=
  { p with
    inclination_deg := if angle_degmin then deg_from_degmin p.inclination_deg else p.inclination_deg
    azimuth_deg := p.azimuth_deg.map (fun a => if azimuth_degmin then deg_from_degmin a else a) }

/-- The field of index `k` (from zero) among the fields that are not empty. -/
def nthNonEmpty : Nat → List QString → Option QString
  | _, [] => none
  | k, f :: fs =>
    if f = [] then nthNonEmpty k fs
    else
      match k with
      | 0 => some f
      | k + 1 => nthNonEmpty k fs

/-- The replacement of the decimal comma that the import loop of `ImportZakDialog`
applies to a cell before parsing it. -/
def zakDecimal (dlg : ImportZakDialog) (s : QString) : QString :=
  if dlg.decimal_sep = ',' then commaToPoint s else s

/-- The line is one that the import loop of `ImportZakDialog` passes over without
counting it: blank, or a comment that starts with `#` or `//`. -/
def zakIsIgnored (raw : QString) : Prop :=
  trimmed raw = [] ∨ startsWith (trimmed raw) '#' = true ∨
    "//".toList.isPrefixOf (trimmed raw) = true

instance (raw : QString) : Decidable (zakIsIgnored raw) := by
  unfold zakIsIgnored
  infer_instance

/-! ## Sample inputs of the readers and importers -/

/-- A delimited file without header whose two lines use different delimiters. -/
def sampleCsvMixed : QString := "10,5\n20;6\n".toList

/-- A delimited file with a header and three rows at the depths 100, 50 and 50. -/
def sampleCsvDepths : QString := "Depth;Angle\n100;1\n50;2\n50;3\n".toList

/-- A sectioned file with three interval rows at the depths 100, 50 and 50. -/
def sampleWsDepths : QString :=
  "[intervals]\nDepth\tAngle\tAzimuth\n100\t1\t0\n50\t2\t0\n50\t3\t0\n".toList

/-- A sectioned file with the results points (100, 5°, 0, 0, 0, 100) and
(500, 30°, 0, 0, 0, 480): depth, inclination, no azimuth, applied azimuth, north,
east and vertical depth. -/
def sampleWsResults : QString :=
  "[results]\nMD\tIncl\tAz\tAzA\tN\tE\tTVD\n100\t5\t\t0\t0\t0\t100\n500\t30\t\t0\t0\t0\t480\n".toList

/-- A curve-log file with two declared curves whose second data line holds one
value only. -/
def sampleLasShort : QString := "~C\nDEPT.M : d\nINCL.DEG : i\n~A\n100 5\n200\n".toList

/-- A well-section line with a description between the unit and the value. -/
def sampleLasWellLine : QString := "WELL . : name of well : W-12".toList

/-- A curve-log file whose well section is that one line. -/
def sampleLasWellFile : QString := "~Well\n".toList ++ sampleLasWellLine ++ "\n".toList

/-- A curve-log dialog with one row (depth 100, inclination 45.30, azimuth 45.30) and
all three curves chosen. -/
def sampleLasDialog : ImportLasDialog :=
  { las_data_ := { curve_data := [[100], [4530 / 100], [4530 / 100]] },
    depth_idx := 0, angle_idx := 1, azimuth_idx := 2 }

/-- A delimiter-configured dialog (separator `;`, columns 1, 2 and 3) with the one
line `100;45.30;45.30`. -/
def sampleZakDialog : ImportZakDialog := { file_lines_ := ["100;45.30;45.30".toList] }

/-- A line whose second field is empty. -/
def sampleZakLine : QString := "100;;5.5".toList

/-! ## Project manager: wells (`ProjectManager::newProject`, `addWell`, `removeWell`) -/

/-- Model of `ProjectManager::setDirty`. -/
def ProjectManager.setDirty (pm : ProjectManager) (dirty : Bool) : ProjectManager :=
  if pm.dirty_ ≠ dirty then { pm with dirty_ := dirty } else pm

/-- Model of `ProjectManager::newProject`; `now` is the current time as text. -/
def ProjectManager.newProject (_pm : ProjectManager) (now : QString) : ProjectManager :=
  { data_ := { created_date := now, modified_date := now }
    wells_ := []
    project_file_path_ := []
    dirty_ := false }

/-- Model of `ProjectManager::addWell`. -/
def ProjectManager.addWell (pm : ProjectManager) (well : WellData) : ProjectManager :=
  let entry : WellEntry :=
    { file_path := well.source_file_path
      format := well.source_format
      visible := well.visible
      color := well.display_color
      line_width := well.line_width }
  let pm1 : ProjectManager :=
    { pm with
      wells_ := pm.wells_ ++ [well]
      data_ := { pm.data_ with well_entries := pm.data_.well_entries ++ [entry] } }
  pm1.setDirty true

/-- Model of `ProjectManager::removeWell`. -/
def ProjectManager.removeWell (pm : ProjectManager) (index : Int) : ProjectManager :=
  if index < 0 ∨ index ≥ pm.wells_.length then pm
  else
    let pm1 : ProjectManager := { pm with wells_ := pm.wells_.eraseIdx index.toNat }
    let pm2 : ProjectManager :=
      if index < pm1.data_.well_entries.length then
        { pm1 with data_ := { pm1.data_ with
            well_entries := pm1.data_.well_entries.eraseIdx index.toNat } }
      else pm1
    pm2.setDirty true

/-! ## Vocabulary of the statements about the summary and the project -/

/-- The line is one that the loop of `parseWsFile` passes over: blank, or a comment
that starts with `#` or `;` after the leading whitespace. -/
def wsIsSkipped (raw : QString) : Prop :=
  trimmed raw = [] ∨ startsWith (trimmed raw) '#' = true ∨ startsWith (trimmed raw) ';' = true

instance (raw : QString) : Decidable (wsIsSkipped raw) := by
  unfold wsIsSkipped
  infer_instance

/-- The path at which `readProjectJson` looks for the file of a well entry: the
entry's own path when that is absolute, otherwise the path inside the directory of
the project file. -/
def entryAbsPath (project_dir : QString) (entry : WellEntry) : QString :=
  if startsWith entry.file_path '/' then entry.file_path
  else dirFilePath project_dir entry.file_path

/-- The well with the three display fields that `readProjectJson` copies from the
entry. -/
def withEntryDisplay (entry : WellEntry) (well : WellData) : WellData :=
  { well with visible := entry.visible, display_color := entry.color,
              line_width := entry.line_width }

/-- The well that `parseWsFile` returns for the text of a file: the well of the loop
after the summary block. -/
def wsParsedWell (text path : QString) : WellData :=
  wsFinish path ((readLines text).foldl wsLine (wsInit path)).well

/-- The format that `detectFormat` gives for a lower-cased extension. -/
def formatOfExtension (ext : QString) : FileFormat :=
  if ext = "csv".toList then FileFormat.kCsv
  else if ext = "las".toList then FileFormat.kLas
  else if ext = "zak".toList then FileFormat.kZak
  else if ext = "ws".toList ∨ ext = "txt".toList then FileFormat.kWs
  else FileFormat.kUnknown

/-! ## Sample inputs of the summary and the project manager -/

/-- A sectioned file with two results points whose inclinations are -5 and -3. -/
def sampleWsNegative : QString :=
  "[results]\nMD\tIncl\tAz\tAzA\tN\tE\tTVD\n100\t-5\t\t0\t0\t0\t100\n200\t-3\t\t0\t0\t0\t200\n".toList

/-- A sectioned file with three results points at the depths 100, 200 and 300 whose
10 m intensities are 1.5, 2.5 and 2.5 (eleven columns: the seven of the point, the
dogleg, the two intensities and one more). -/
def sampleWsIntensity : QString :=
  ("[results]\nMD\tIncl\tAz\tAzA\tN\tE\tTVD\tDL\tI10\tIL\tX\n" ++
   "100\t5\t\t0\t0\t0\t100\t0\t1.5\t0\t0\n" ++
   "200\t6\t\t0\t0\t0\t200\t0\t2.5\t0\t0\n" ++
   "300\t7\t\t0\t0\t0\t300\t0\t2.5\t0\t0\n").toList

/-- A sectioned file with a comment line right after the section tag. -/
def sampleWsComment : QString :=
  "[intervals]\n  # survey of May\nDepth\tAngle\tAzimuth\n100\t1\t0\n".toList

/-- The same file without the comment line. -/
def sampleWsPlain : QString := "[intervals]\nDepth\tAngle\tAzimuth\n100\t1\t0\n".toList

/-- The entry of the well file `a.ws`, which is not on the sample disk. -/
def sampleEntryA : WellEntry := { file_path := "a.ws".toList, format := "ws".toList }

/-- The entry of the well file `b.ws`, which is on the sample disk. -/
def sampleEntryB : WellEntry := { file_path := "b.ws".toList, format := "ws".toList }

/-- The entry of the curve-log file `c.las`, which is on the sample disk. -/
def sampleEntryC : WellEntry := { file_path := "c.las".toList, format := "las".toList }

/-- A project document with the entries of `a.ws` and `b.ws`, in this order. -/
def sampleMissingDocument : QJsonValue :=
  QJsonValue.object (writeProjectJson { well_entries := [sampleEntryA, sampleEntryB] })

/-- A project document with the one entry of `c.las`. -/
def sampleLasDocument : QJsonValue :=
  QJsonValue.object (writeProjectJson { well_entries := [sampleEntryC] })

/-- The sample disk: the directory `/p` holds `b.ws` and `c.las` and no other file. -/
def sampleDisk : WellFiles := fun p =>
  if p = "/p/b.ws".toList then some sampleWsDepths
  else if p = "/p/c.las".toList then some sampleLasShort
  else none

/-- The manager after loading the document with the entries of `a.ws` and `b.ws`
from `/p/x.inclproj` on the sample disk. -/
def sampleLoadedManager : ProjectManager :=
  (({} : ProjectManager).loadProject "/p/x.inclproj".toList
    (ProjectFile.document sampleMissingDocument) sampleDisk "/p".toList).2

/-! ## Sample inputs of the angle helpers -/

/-- The `double` written `-1e-20`, by its exact value. -/
def sampleTinyAngle : ℚ := -(6646139978924579 / 2 ^ 119)

/-- The `double` written `-180.00000000000003`, the next one below -180, by its exact
value. -/
def sampleBelowMinus180 : ℚ := -(180 + 1 / 2 ^ 45)


/-! # Lemmas -/

/-! ## Lemmas on the string primitives -/

theorem dropWhile_append_keep (p : Char → Bool) (a : List Char) (c : Char) (hc : p c = false) :
    ∃ a', (a ++ [c]).dropWhile p = a' ++ [c] := by
  induction a with
  | nil => exact ⟨[], by simp [List.dropWhile, hc]⟩
  | cons x xs ih =>
    by_cases hx : p x = true
    · obtain ⟨a', ha⟩ := ih
      exact ⟨a', by simpa [List.dropWhile, hx] using ha⟩
    · exact ⟨x :: xs, by simp [List.dropWhile, hx]⟩

theorem trimmed_head (c : Char) (t : List Char) (hc : isSpace c = false) :
    ∃ t', trimmed (c :: t) = c :: t' := by
  unfold trimmed
  have h1 : (c :: t).dropWhile isSpace = c :: t := by simp [List.dropWhile, hc]
  rw [h1, List.reverse_cons]
  obtain ⟨a', ha⟩ := dropWhile_append_keep isSpace t.reverse c hc
  rw [ha]
  exact ⟨a'.reverse, by simp⟩

theorem trimmed_eq_self (s : List Char) (h : ∀ c ∈ s, isSpace c = false) : trimmed s = s := by
  unfold trimmed
  have h1 : s.dropWhile isSpace = s := by
    cases s with
    | nil => rfl
    | cons x xs => simp [List.dropWhile, h x (List.mem_cons_self _ _)]
  rw [h1]
  have h2 : s.reverse.dropWhile isSpace = s.reverse := by
    cases hs : s.reverse with
    | nil => rfl
    | cons x xs =>
      have hx : x ∈ s := by
        have : x ∈ s.reverse := by rw [hs]; exact List.mem_cons_self _ _
        exact List.mem_reverse.mp this
      simp [List.dropWhile, h x hx]
  rw [h2, List.reverse_reverse]

theorem split_ne_nil (sep : Char) (s : List Char) : split sep s ≠ [] := by
  cases s with
  | nil => simp [split]
  | cons c cs =>
    unfold split
    split_ifs
    · simp
    · split <;> simp

theorem split_no_sep (sep : Char) (s : List Char) (h : ∀ c ∈ s, c ≠ sep) : split sep s = [s] := by
  induction s with
  | nil => rfl
  | cons c cs ih =>
    have hc : c ≠ sep := h c (List.mem_cons_self _ _)
    have ih' := ih (fun d hd => h d (List.mem_cons_of_mem _ hd))
    simp [split, hc, ih']

theorem split_field (sep : Char) (f rest : List Char) (h : ∀ c ∈ f, c ≠ sep) :
    split sep (f ++ sep :: rest) = f :: split sep rest := by
  induction f with
  | nil => simp [split]
  | cons c cs ih =>
    have hc : c ≠ sep := h c (List.mem_cons_self _ _)
    have ih' := ih (fun d hd => h d (List.mem_cons_of_mem _ hd))
    simp [split, hc, ih']

theorem readLines_line (l rest : List Char) (h : ∀ c ∈ l, c ≠ '\n') :
    readLines (l ++ '\n' :: rest) = l :: readLines rest := by
  induction l with
  | nil => simp [readLines]
  | cons c cs ih =>
    have hc : c ≠ '\n' := h c (List.mem_cons_self _ _)
    have ih' := ih (fun d hd => h d (List.mem_cons_of_mem _ hd))
    simp [readLines, hc, ih']
/-! ## Lemmas on numbers as text -/

theorem digitChar_toNat : ∀ d, d < 10 → (digitChar d).toNat = 48 + d := by decide

theorem digitChar_isDigit : ∀ d, d < 10 → isDigit (digitChar d) = true := by decide

theorem digitsVal_foldl (l : List Char) (acc : Nat) :
    l.foldl (fun a c => 10 * a + (c.toNat - 48)) acc = acc * 10 ^ l.length + digitsVal l := by
  induction l generalizing acc with
  | nil => simp [digitsVal]
  | cons c cs ih =>
    simp only [List.foldl_cons, digitsVal, List.length_cons]
    rw [ih, ih (10 * 0 + (c.toNat - 48))]
    ring

theorem digitsVal_append (a b : List Char) :
    digitsVal (a ++ b) = digitsVal a * 10 ^ b.length + digitsVal b := by
  unfold digitsVal
  rw [List.foldl_append, digitsVal_foldl]
  rfl

theorem digitsVal_cons_digit (d : Nat) (hd : d < 10) (l : List Char) :
    digitsVal (digitChar d :: l) = d * 10 ^ l.length + digitsVal l := by
  have h := digitsVal_append [digitChar d] l
  simp only [List.singleton_append] at h
  rw [h]
  simp [digitsVal, digitChar_toNat d hd]

theorem natDigitsAux_spec (fuel : Nat) : ∀ (n : Nat) (acc : List Char), n < fuel →
    (∀ c ∈ acc, isDigit c = true) →
    (∀ c ∈ natDigitsAux fuel n acc, isDigit c = true) ∧
    natDigitsAux fuel n acc ≠ [] ∧
    digitsVal (natDigitsAux fuel n acc) = n * 10 ^ acc.length + digitsVal acc := by
  induction fuel with
  | zero => intro n acc h; omega
  | succ f ih =>
    intro n acc hn hacc
    unfold natDigitsAux
    split_ifs with h10
    · refine ⟨?_, by simp, digitsVal_cons_digit n h10 acc⟩
      intro c hc
      rcases List.mem_cons.mp hc with rfl | hc
      · exact digitChar_isDigit n h10
      · exact hacc c hc
    · have hlt : n / 10 < f := by omega
      have hm : n % 10 < 10 := Nat.mod_lt _ (by norm_num)
      have hacc' : ∀ c ∈ digitChar (n % 10) :: acc, isDigit c = true := by
        intro c hc
        rcases List.mem_cons.mp hc with rfl | hc
        · exact digitChar_isDigit _ hm
        · exact hacc c hc
      obtain ⟨h1, h2, h3⟩ := ih (n / 10) (digitChar (n % 10) :: acc) hlt hacc'
      refine ⟨h1, h2, ?_⟩
      rw [h3, digitsVal_cons_digit _ hm, List.length_cons, pow_succ]
      have e : n * 10 ^ acc.length = (10 * (n / 10) + n % 10) * 10 ^ acc.length := by
        rw [Nat.div_add_mod n 10]
      rw [e]
      ring

theorem natDigits_spec (n : Nat) :
    (∀ c ∈ natDigits n, isDigit c = true) ∧ natDigits n ≠ [] ∧ digitsVal (natDigits n) = n := by
  have h := natDigitsAux_spec (n + 1) n [] (by omega) (by simp)
  simpa [natDigits, digitsVal] using h

theorem fracDigits_spec (k : Nat) : ∀ v : Nat,
    (∀ c ∈ fracDigits k v, isDigit c = true) ∧ (fracDigits k v).length = k ∧
    digitsVal (fracDigits k v) = v % 10 ^ k := by
  induction k with
  | zero => intro v; simp [fracDigits, digitsVal, Nat.mod_one]
  | succ k ih =>
    intro v
    obtain ⟨h1, h2, h3⟩ := ih (v / 10)
    have hm : v % 10 < 10 := Nat.mod_lt _ (by norm_num)
    refine ⟨?_, by simp [fracDigits, h2], ?_⟩
    · intro c hc
      simp only [fracDigits, List.mem_append, List.mem_singleton] at hc
      rcases hc with hc | rfl
      · exact h1 c hc
      · exact digitChar_isDigit _ hm
    · simp only [fracDigits]
      rw [digitsVal_append, h3]
      have h4 : digitsVal [digitChar (v % 10)] = v % 10 := by
        simp [digitsVal, digitChar_toNat _ hm]
      rw [h4]
      simp only [List.length_singleton, pow_one]
      rw [pow_succ, mul_comm (10 ^ k) 10, Nat.mod_mul]
      ring
theorem takeWhile_digits_stop (p : Char → Bool) (D : List Char) (x : Char) (F : List Char)
    (hD : ∀ c ∈ D, p c = true) (hx : p x = false) :
    (D ++ x :: F).takeWhile p = D ∧ (D ++ x :: F).dropWhile p = x :: F := by
  induction D with
  | nil => simp [List.takeWhile, List.dropWhile, hx]
  | cons d ds ih =>
    have hd : p d = true := hD d (List.mem_cons_self _ _)
    have ih' := ih (fun c hc => hD c (List.mem_cons_of_mem _ hc))
    simp [List.takeWhile, List.dropWhile, hd, ih'.1, ih'.2]

theorem takeWhile_all (p : Char → Bool) (F : List Char) (hF : ∀ c ∈ F, p c = true) :
    F.takeWhile p = F ∧ F.dropWhile p = [] := by
  induction F with
  | nil => simp
  | cons d ds ih =>
    have hd : p d = true := hF d (List.mem_cons_self _ _)
    have ih' := ih (fun c hc => hF c (List.mem_cons_of_mem _ hc))
    simp [List.takeWhile, List.dropWhile, hd, ih'.1, ih'.2]

theorem toDoubleMag_fixed (neg : Bool) (D F : List Char) (hD : ∀ c ∈ D, isDigit c = true)
    (hF : ∀ c ∈ F, isDigit c = true) (hne : D ≠ []) :
    toDoubleMag neg (D ++ '.' :: F) =
      some ((if neg then -1 else 1) * ((digitsVal (D ++ F) : ℚ) / (10 : ℚ) ^ F.length)) := by
  have h1 := takeWhile_digits_stop isDigit D '.' F hD (by decide)
  have h2 := takeWhile_all isDigit F hF
  simp [toDoubleMag, h1.1, h1.2, h2.1, h2.2, hne]

theorem takeSign_digit (c : Char) (t : List Char) (hc : isDigit c = true) :
    takeSign (c :: t) = (false, c :: t) := by
  have h1 : c ≠ '-' := by rintro rfl; exact absurd hc (by decide)
  have h2 : c ≠ '+' := by rintro rfl; exact absurd hc (by decide)
  unfold takeSign
  split
  · simp_all
  · simp_all
  · rfl

theorem isDigit_not_space (c : Char) (hc : isDigit c = true) : isSpace c = false := by
  simp only [isDigit, Bool.and_eq_true, decide_eq_true_eq] at hc
  simp only [isSpace, Bool.or_eq_false_iff, Bool.and_eq_false_imp, decide_eq_true_eq,
    decide_eq_false_iff_not, beq_eq_false_iff_ne, ne_eq]
  omega
/-- Characters that `number_f` can print. -/
theorem number_f_chars (x : ℚ) (k : Nat) :
    ∀ c ∈ number_f x k, isDigit c = true ∨ c = '-' ∨ c = '.' := by
  intro c hc
  simp only [number_f, List.mem_append] at hc
  rcases hc with (hc | hc) | hc
  · split_ifs at hc
    · simp at hc; exact Or.inr (Or.inl hc)
    · simp at hc
  · exact Or.inl ((natDigits_spec _).1 c hc)
  · split_ifs at hc
    · simp at hc
    · rcases List.mem_cons.mp hc with rfl | hc
      · exact Or.inr (Or.inr rfl)
      · exact Or.inl ((fracDigits_spec k _).1 c hc)

theorem numChar_props (c : Char) (h : isDigit c = true ∨ c = '-' ∨ c = '.') :
    isSpace c = false ∧ c ≠ '\t' ∧ c ≠ '\n' ∧ c ≠ '[' ∧ c ≠ '#' ∧ c ≠ ';' := by
  rcases h with h | rfl | rfl
  · refine ⟨isDigit_not_space c h, ?_, ?_, ?_, ?_, ?_⟩ <;>
      (rintro rfl; exact absurd h (by decide))
  · decide
  · decide

theorem number_f_head (x : ℚ) (k : Nat) :
    ∃ c t, number_f x k = c :: t ∧ (isDigit c = true ∨ c = '-' ∨ c = '.') := by
  have hne : number_f x k ≠ [] := by
    intro h
    simp only [number_f, List.append_eq_nil] at h
    exact (natDigits_spec _).2.1 h.1.2
  obtain ⟨c, t, hct⟩ := List.exists_cons_of_ne_nil hne
  exact ⟨c, t, hct, number_f_chars x k c (by rw [hct]; exact List.mem_cons_self _ _)⟩

theorem hasDecimals_scaled (x : ℚ) (k : Nat) (hx : HasDecimals k x) :
    ((⌊|x| * (10 : ℚ) ^ k + 1 / 2⌋.toNat : ℕ) : ℚ) = |x| * (10 : ℚ) ^ k := by
  have h10 : (0 : ℚ) < (10 : ℚ) ^ k := by positivity
  have hm : x * (10 : ℚ) ^ k = ((x * (10 : ℚ) ^ k).num : ℚ) := by
    conv_lhs => rw [← Rat.num_div_den (x * (10 : ℚ) ^ k)]
    rw [hx]; simp
  set m := (x * (10 : ℚ) ^ k).num
  have habs : |x| * (10 : ℚ) ^ k = ((m.natAbs : ℕ) : ℚ) := by
    have h1 : |x| * (10 : ℚ) ^ k = |x * (10 : ℚ) ^ k| := by rw [abs_mul, abs_of_pos h10]
    rw [h1, hm, Nat.cast_natAbs, Int.cast_abs]
  rw [habs]
  have hfl : ⌊((m.natAbs : ℕ) : ℚ) + 1 / 2⌋ = (m.natAbs : ℤ) := by
    rw [Int.floor_eq_iff]
    constructor <;> simp only [Int.cast_natCast] <;> linarith
  rw [hfl, Int.toNat_natCast]

theorem toDouble_number_f (x : ℚ) (k : Nat) (hk : 0 < k) (hx : HasDecimals k x) :
    toDouble (number_f x k) = some x := by
  have hN := hasDecimals_scaled x k hx
  have htrim : trimmed (number_f x k) = number_f x k :=
    trimmed_eq_self _ (fun c hc => (numChar_props c (number_f_chars x k c hc)).1)
  unfold toDouble
  rw [htrim]
  set N := ⌊|x| * (10 : ℚ) ^ k + 1 / 2⌋.toNat with hNdef
  obtain ⟨hD, hDne, hDv⟩ := natDigits_spec (N / 10 ^ k)
  obtain ⟨hF, hFl, hFv⟩ := fracDigits_spec k (N % 10 ^ k)
  have hk0 : k ≠ 0 := by omega
  have hbody : number_f x k = (if x < 0 then ['-'] else []) ++
      (natDigits (N / 10 ^ k) ++ '.' :: fracDigits k (N % 10 ^ k)) := by
    simp [number_f, hk0, hNdef]
  have hval : (digitsVal (natDigits (N / 10 ^ k) ++ fracDigits k (N % 10 ^ k)) : ℚ) =
      |x| * (10 : ℚ) ^ k := by
    rw [digitsVal_append, hDv, hFv, hFl, Nat.mod_mod, Nat.div_add_mod' N (10 ^ k), hN]
  have h10 : (10 : ℚ) ^ k ≠ 0 := by positivity
  obtain ⟨d0, D', hDcons⟩ := List.exists_cons_of_ne_nil hDne
  have hd0 : isDigit d0 = true := hD d0 (by rw [hDcons]; exact List.mem_cons_self _ _)
  by_cases hneg : x < 0
  · have hs : takeSign (number_f x k) =
        (true, natDigits (N / 10 ^ k) ++ '.' :: fracDigits k (N % 10 ^ k)) := by
      rw [hbody]; simp [hneg, takeSign]
    rw [hs]
    simp only []
    rw [toDoubleMag_fixed true _ _ hD hF hDne, hval, hFl]
    simp only [if_true]
    rw [mul_div_assoc, div_self h10, abs_of_neg hneg]
    simp
  · have hs : takeSign (number_f x k) =
        (false, natDigits (N / 10 ^ k) ++ '.' :: fracDigits k (N % 10 ^ k)) := by
      rw [hbody]; simp only [hneg, if_false, List.nil_append]
      rw [hDcons, List.cons_append]
      exact takeSign_digit d0 _ hd0
    rw [hs]
    simp only []
    rw [toDoubleMag_fixed false _ _ hD hF hDne, hval, hFl]
    rw [mul_div_assoc, div_self h10, abs_of_nonneg (not_lt.mp hneg)]
    simp
theorem trimmed_of_ends (s : List Char) (h1 : ∀ c ∈ s.head?, isSpace c = false)
    (h2 : ∀ c ∈ s.getLast?, isSpace c = false) : trimmed s = s := by
  unfold trimmed
  have e1 : s.dropWhile isSpace = s := by
    cases s with
    | nil => rfl
    | cons x xs => simp [List.dropWhile, h1 x (by simp)]
  rw [e1]
  have e2 : s.reverse.dropWhile isSpace = s.reverse := by
    cases hs : s.reverse with
    | nil => rfl
    | cons x xs =>
      have hx : s.getLast? = some x := by
        have : s = (x :: xs).reverse := by rw [← hs, List.reverse_reverse]
        rw [this]; simp
      simp [List.dropWhile, h2 x (by rw [hx]; simp)]
  rw [e2, List.reverse_reverse]

theorem wsIntervalsRow_results (v : List QString) (w : WellData) :
    (wsIntervalsRow v w).results = w.results := by
  unfold wsIntervalsRow
  split_ifs
  · split <;> simp
  · split <;> simp
  · rfl

theorem wsMetadataRow_results (v : List QString) (w : WellData) :
    (wsMetadataRow v w).results = w.results := by
  unfold wsMetadataRow
  dsimp only
  split_ifs <;> rfl

theorem wsFinish_results (path : QString) (w : WellData) :
    (wsFinish path w).results = w.results := by
  unfold wsFinish
  dsimp only
  split_ifs <;> split <;> (try split) <;> rfl

theorem wsLine_metadata_tag (st : WsState) :
    wsLine st "[metadata]".toList = { st with current_section := "metadata".toList, headers := [] } := by
  rfl

theorem wsLine_intervals_tag (st : WsState) :
    wsLine st "[intervals]".toList = { st with current_section := "intervals".toList, headers := [] } := by
  rfl

theorem wsLine_results_tag (st : WsState) :
    wsLine st "[results]".toList = { st with current_section := "results".toList, headers := [] } := by
  rfl

theorem wsLine_empty (st : WsState) : wsLine st [] = st := by
  rfl

/-- A line that starts with a character other than whitespace and `[` leaves the
results and the section as they are, unless the section is `results`. -/
theorem wsLine_other (st : WsState) (c : Char) (t : List Char) (hc : isSpace c = false)
    (hb : c ≠ '[') (hs : st.current_section ≠ "results".toList) :
    (wsLine st (c :: t)).well.results = st.well.results ∧
    (wsLine st (c :: t)).current_section = st.current_section := by
  obtain ⟨t', ht⟩ := trimmed_head c t hc
  unfold wsLine
  simp only [ht]
  have h1 : startsWith (c :: t') '[' = false := by simp [startsWith, hb]
  simp only [h1]
  split_ifs <;> simp_all [wsIntervalsRow_results, wsMetadataRow_results]
theorem foldl_line (st : WsState) (l rest : List Char) (h : ∀ c ∈ l, c ≠ '\n') :
    (readLines (l ++ '\n' :: rest)).foldl wsLine st =
      (readLines rest).foldl wsLine (wsLine st l) := by
  rw [readLines_line l rest h, List.foldl_cons]

/-- Reading one more line that starts with a character other than whitespace and
`[`, outside the results section, keeps the results. -/
theorem run_other (st : WsState) (c : Char) (t rest : List Char) (hc : isSpace c = false)
    (hb : c ≠ '[') (hnl : ∀ d ∈ c :: t, d ≠ '\n')
    (hs : st.current_section ≠ "results".toList) :
    ∃ st', (readLines ((c :: t) ++ '\n' :: rest)).foldl wsLine st =
        (readLines rest).foldl wsLine st' ∧
      st'.well.results = st.well.results ∧ st'.current_section ≠ "results".toList := by
  refine ⟨wsLine st (c :: t), foldl_line st _ rest hnl, (wsLine_other st c t hc hb hs).1, ?_⟩
  rw [(wsLine_other st c t hc hb hs).2]
  exact hs

theorem wsOptNumber_chars (o : Option ℚ) :
    ∀ c ∈ wsOptNumber o, isDigit c = true ∨ c = '-' ∨ c = '.' := by
  cases o with
  | none => simp [wsOptNumber]
  | some a => exact number_f_chars a 2

theorem run_optional (key v : List Char) (st : WsState) (rest : List Char) (k : Char)
    (kt : List Char) (hkey : key = k :: kt) (hk : isSpace k = false) (hb : k ≠ '[')
    (hkn : ∀ d ∈ key, d ≠ '\n') (hv : NoLineBreak v)
    (hs : st.current_section ≠ "results".toList) :
    ∃ st', (readLines ((if v ≠ [] then key ++ v ++ ['\n'] else []) ++ rest)).foldl wsLine st =
        (readLines rest).foldl wsLine st' ∧
      st'.well.results = st.well.results ∧ st'.current_section ≠ "results".toList := by
  by_cases h : v = []
  · exact ⟨st, by simp [h], rfl, hs⟩
  · have hnl : ∀ d ∈ k :: (kt ++ v), d ≠ '\n' := by
      intro d hd
      rw [← List.cons_append, ← hkey] at hd
      rcases List.mem_append.mp hd with hd | hd
      · exact hkn d hd
      · exact hv d hd
    obtain ⟨st', h1, h2, h3⟩ := run_other st k (kt ++ v) rest hk hb hnl hs
    refine ⟨st', ?_, h2, h3⟩
    rw [← h1]
    simp [h, hkey]

theorem run_metadata (m : WellMetadata) (st : WsState) (rest : List Char)
    (h1 : NoLineBreak m.well_name) (h2 : NoLineBreak m.field_name)
    (h3 : NoLineBreak m.well_pad) (h4 : NoLineBreak m.uwi) :
    ∃ st', (readLines (wsWriteMetadata m ++ rest)).foldl wsLine st =
        (readLines rest).foldl wsLine st' ∧
      st'.well.results = st.well.results ∧ st'.current_section ≠ "results".toList := by
  have e : wsWriteMetadata m ++ rest =
      "[metadata]".toList ++ '\n' :: (('w' :: ("ell_name\t".toList ++ m.well_name)) ++ '\n' ::
        ((if m.field_name ≠ [] then "field_name\t".toList ++ m.field_name ++ ['\n'] else []) ++
        ((if m.well_pad ≠ [] then "well_pad\t".toList ++ m.well_pad ++ ['\n'] else []) ++
        ((if m.uwi ≠ [] then "uwi\t".toList ++ m.uwi ++ ['\n'] else []) ++
        ([] ++ '\n' :: rest))))) := by
    simp [wsWriteMetadata]
  rw [e, foldl_line st _ _ (by decide), wsLine_metadata_tag]
  have hw : ∀ d ∈ 'w' :: ("ell_name\t".toList ++ m.well_name), d ≠ '\n' := by
    intro d hd
    rcases List.mem_cons.mp hd with rfl | hd
    · decide
    · rcases List.mem_append.mp hd with hd | hd
      · exact (by decide : ∀ d ∈ "ell_name\t".toList, d ≠ '\n') d hd
      · exact h1 d hd
  obtain ⟨s1, a1, b1, c1⟩ := run_other
    { st with current_section := "metadata".toList, headers := [] } 'w'
    ("ell_name\t".toList ++ m.well_name) 
    ((if m.field_name ≠ [] then "field_name\t".toList ++ m.field_name ++ ['\n'] else []) ++
        ((if m.well_pad ≠ [] then "well_pad\t".toList ++ m.well_pad ++ ['\n'] else []) ++
        ((if m.uwi ≠ [] then "uwi\t".toList ++ m.uwi ++ ['\n'] else []) ++
        ([] ++ '\n' :: rest)))) (by decide) (by decide) hw
    (by show "metadata".toList ≠ "results".toList; decide)
  rw [a1]
  obtain ⟨s2, a2, b2, c2⟩ := run_optional "field_name\t".toList m.field_name s1
    ((if m.well_pad ≠ [] then "well_pad\t".toList ++ m.well_pad ++ ['\n'] else []) ++
        ((if m.uwi ≠ [] then "uwi\t".toList ++ m.uwi ++ ['\n'] else []) ++
        ([] ++ '\n' :: rest))) 'f' "ield_name\t".toList rfl (by decide) (by decide) (by decide) h2 c1
  rw [a2]
  obtain ⟨s3, a3, b3, c3⟩ := run_optional "well_pad\t".toList m.well_pad s2
    ((if m.uwi ≠ [] then "uwi\t".toList ++ m.uwi ++ ['\n'] else []) ++
        ([] ++ '\n' :: rest)) 'w' "ell_pad\t".toList rfl (by decide) (by decide) (by decide) h3 c2
  rw [a3]
  obtain ⟨s4, a4, b4, c4⟩ := run_optional "uwi\t".toList m.uwi s3
    ([] ++ '\n' :: rest) 'u' "wi\t".toList rfl (by decide) (by decide) (by decide) h4 c3
  rw [a4, foldl_line s4 [] rest (by simp), wsLine_empty]
  exact ⟨s4, rfl, by rw [b4, b3, b2, b1], c4⟩
theorem run_measured_rows (ms : List MeasuredPoint) : ∀ (st : WsState) (rest : List Char),
    st.current_section ≠ "results".toList →
    ∃ st', (readLines ((ms.map wsWriteMeasured).flatten ++ rest)).foldl wsLine st =
        (readLines rest).foldl wsLine st' ∧
      st'.well.results = st.well.results ∧ st'.current_section ≠ "results".toList := by
  induction ms with
  | nil => intro st rest hs; exact ⟨st, by simp, rfl, hs⟩
  | cons pt ps ih =>
    intro st rest hs
    obtain ⟨c, t, hct, hcn⟩ := number_f_head pt.measured_depth_m 2
    have hline : wsWriteMeasured pt =
        (c :: (t ++ '\t' :: (number_f pt.inclination_deg 2 ++
          '\t' :: wsOptNumber pt.azimuth_deg))) ++ ['\n'] := by
      simp [wsWriteMeasured, hct]
    have hnl : ∀ d ∈ c :: (t ++ '\t' :: (number_f pt.inclination_deg 2 ++
          '\t' :: wsOptNumber pt.azimuth_deg)), d ≠ '\n' := by
      intro d hd
      rw [← List.cons_append, ← hct] at hd
      simp only [List.mem_append, List.mem_cons] at hd
      rcases hd with hd | rfl | hd | rfl | hd
      · exact (numChar_props d (number_f_chars _ _ d hd)).2.2.1
      · decide
      · exact (numChar_props d (number_f_chars _ _ d hd)).2.2.1
      · decide
      · exact (numChar_props d (wsOptNumber_chars _ d hd)).2.2.1
    obtain ⟨s1, a1, b1, c1⟩ := run_other st c _ ((ps.map wsWriteMeasured).flatten ++ rest)
      (numChar_props c hcn).1 (numChar_props c hcn).2.2.2.1 hnl hs
    obtain ⟨s2, a2, b2, c2⟩ := ih s1 rest c1
    refine ⟨s2, ?_, by rw [b2, b1], c2⟩
    rw [← a2, ← a1]
    simp [hline]

theorem run_intervals (ms : List MeasuredPoint) (st : WsState) (rest : List Char)
    (hs : st.current_section ≠ "results".toList) :
    ∃ st', (readLines (wsWriteIntervals ms ++ rest)).foldl wsLine st =
        (readLines rest).foldl wsLine st' ∧
      st'.well.results = st.well.results ∧ st'.current_section ≠ "results".toList := by
  by_cases h : ms = []
  · exact ⟨st, by simp [wsWriteIntervals, h], rfl, hs⟩
  · have e : wsWriteIntervals ms ++ rest =
        "[intervals]".toList ++ '\n' ::
          (('Г' :: "лубина_м\tУгол_град\tАзимут_град".toList) ++ '\n' ::
            ((ms.map wsWriteMeasured).flatten ++ ([] ++ '\n' :: rest))) := by
      simp [wsWriteIntervals, h]
    rw [e, foldl_line st _ _ (by decide), wsLine_intervals_tag]
    obtain ⟨s1, a1, b1, c1⟩ := run_other
      { st with current_section := "intervals".toList, headers := [] } 'Г'
      "лубина_м\tУгол_град\tАзимут_град".toList
      ((ms.map wsWriteMeasured).flatten ++ ([] ++ '\n' :: rest)) (by decide) (by decide)
      (by decide) (by show "intervals".toList ≠ "results".toList; decide)
    rw [a1]
    obtain ⟨s2, a2, b2, c2⟩ := run_measured_rows ms s1 ([] ++ '\n' :: rest) c1
    rw [a2, foldl_line s2 [] rest (by simp), wsLine_empty]
    exact ⟨s2, rfl, by rw [b2, b1], c2⟩
theorem toDoubleD_number_f (x : ℚ) (k : Nat) (hk : 0 < k) (hx : HasDecimals k x) :
    toDoubleD (number_f x k) = x := by
  simp [toDoubleD, toDouble_number_f x k hk hx]

theorem number_f_no_tab (x : ℚ) (k : Nat) : ∀ c ∈ number_f x k, c ≠ '\t' :=
  fun c hc => (numChar_props c (number_f_chars x k c hc)).2.1

theorem wsOptNumber_no_tab (o : Option ℚ) : ∀ c ∈ wsOptNumber o, c ≠ '\t' :=
  fun c hc => (numChar_props c (wsOptNumber_chars o c hc)).2.1

theorem number_f_ne_nil (x : ℚ) (k : Nat) : number_f x k ≠ [] := by
  obtain ⟨c, t, h, _⟩ := number_f_head x k
  simp [h]

/-- The fourteen cells of a results row, as `split` finds them. -/
theorem split_results_row (f0 f1 f2 f3 f4 f5 f6 f7 f8 f9 f10 f11 f12 f13 : List Char)
    (h0 : ∀ c ∈ f0, c ≠ '\t') (h1 : ∀ c ∈ f1, c ≠ '\t') (h2 : ∀ c ∈ f2, c ≠ '\t')
    (h3 : ∀ c ∈ f3, c ≠ '\t') (h4 : ∀ c ∈ f4, c ≠ '\t') (h5 : ∀ c ∈ f5, c ≠ '\t')
    (h6 : ∀ c ∈ f6, c ≠ '\t') (h7 : ∀ c ∈ f7, c ≠ '\t') (h8 : ∀ c ∈ f8, c ≠ '\t')
    (h9 : ∀ c ∈ f9, c ≠ '\t') (h10 : ∀ c ∈ f10, c ≠ '\t') (h11 : ∀ c ∈ f11, c ≠ '\t')
    (h12 : ∀ c ∈ f12, c ≠ '\t') (h13 : ∀ c ∈ f13, c ≠ '\t') :
    split '\t' (f0 ++ '\t' :: (f1 ++ '\t' :: (f2 ++ '\t' :: (f3 ++ '\t' :: (f4 ++ '\t' ::
      (f5 ++ '\t' :: (f6 ++ '\t' :: (f7 ++ '\t' :: (f8 ++ '\t' :: (f9 ++ '\t' :: (f10 ++ '\t' ::
      (f11 ++ '\t' :: (f12 ++ '\t' :: f13))))))))))))) =
      [f0, f1, f2, f3, f4, f5, f6, f7, f8, f9, f10, f11, f12, f13] := by
  rw [split_field _ _ _ h0, split_field _ _ _ h1, split_field _ _ _ h2, split_field _ _ _ h3,
    split_field _ _ _ h4, split_field _ _ _ h5, split_field _ _ _ h6, split_field _ _ _ h7,
    split_field _ _ _ h8, split_field _ _ _ h9, split_field _ _ _ h10, split_field _ _ _ h11,
    split_field _ _ _ h12, split_no_sep _ _ h13]

theorem wsResultsRow_written (pt : ProcessedPoint) (hp : pt.AtWriterPrecision) (w : WellData) :
    ∃ p', wsResultsRow
      [number_f pt.measured_depth_m 2, number_f pt.inclination_deg 2,
       wsOptNumber pt.azimuth_deg, number_f pt.applied_azimuth_deg 2, number_f pt.north_m 2,
       number_f pt.east_m 2, number_f pt.tvd_m 2, number_f pt.dogleg_angle_deg 3,
       number_f pt.intensity_10m 2, number_f pt.intensity_L 2, number_f pt.mistake_x 3,
       number_f pt.mistake_y 3, number_f pt.mistake_z 3, number_f pt.mistake_absg 3] w =
      { w with results := w.results ++ [p'] } ∧ p'.core = pt.core := by
  obtain ⟨a0, a1, a2, a3, a4, a5, a6, a7, a8, a9⟩ := hp
  refine ⟨_, by simp only [wsResultsRow, List.length_cons, List.length_nil]; rfl, ?_⟩
  have haz : (if wsOptNumber pt.azimuth_deg ≠ [] then
      some (toDoubleD (wsOptNumber pt.azimuth_deg)) else none) = pt.azimuth_deg := by
    cases h : pt.azimuth_deg with
    | none => simp [wsOptNumber]
    | some a =>
      have ha : HasDecimals 2 a := a2 a (by simp [h])
      simp [wsOptNumber, number_f_ne_nil, toDoubleD_number_f a 2 (by norm_num) ha]
  simp only [ProcessedPoint.core, List.getD_cons_zero, List.getD_cons_succ, ge_iff_le,
    List.length_cons, List.length_nil]
  simp only [haz, toDoubleD_number_f _ 2 (by norm_num) a0, toDoubleD_number_f _ 2 (by norm_num) a1,
    toDoubleD_number_f _ 2 (by norm_num) a3, toDoubleD_number_f _ 2 (by norm_num) a4,
    toDoubleD_number_f _ 2 (by norm_num) a5, toDoubleD_number_f _ 2 (by norm_num) a6,
    toDoubleD_number_f _ 3 (by norm_num) a7, toDoubleD_number_f _ 2 (by norm_num) a8,
    toDoubleD_number_f _ 2 (by norm_num) a9]
  rfl
theorem getLast?_tab_append (f rest : List Char) (h : rest ≠ []) :
    (f ++ '\t' :: rest).getLast? = rest.getLast? := by
  obtain ⟨x, xs, rfl⟩ := List.exists_cons_of_ne_nil h
  rw [List.getLast?_append, List.getLast?_cons_cons]
  cases hl : (x :: xs).getLast? with
  | none => simp at hl
  | some v => rfl

/-- Reading one results row that `writeWsFile` printed, inside the results
section and after its header row, appends a point with the same ten fields. -/
theorem run_results_row (pt : ProcessedPoint) (hp : pt.AtWriterPrecision) (w : WellData)
    (hdrs : List QString) (hh : hdrs ≠ []) (rest : List Char) :
    ∃ p', (readLines (wsWriteProcessed pt ++ rest)).foldl wsLine
          ⟨"results".toList, hdrs, w⟩ =
        (readLines rest).foldl wsLine
          ⟨"results".toList, hdrs, { w with results := w.results ++ [p'] }⟩ ∧
      p'.core = pt.core := by
  obtain ⟨c, t, hct, hcn⟩ := number_f_head pt.measured_depth_m 2
  obtain ⟨p', hrow, hcore⟩ := wsResultsRow_written pt hp w
  refine ⟨p', ?_, hcore⟩
  set line : List Char := number_f pt.measured_depth_m 2 ++ '\t' ::
    (number_f pt.inclination_deg 2 ++ '\t' :: (wsOptNumber pt.azimuth_deg ++ '\t' ::
    (number_f pt.applied_azimuth_deg 2 ++ '\t' :: (number_f pt.north_m 2 ++ '\t' ::
    (number_f pt.east_m 2 ++ '\t' :: (number_f pt.tvd_m 2 ++ '\t' ::
    (number_f pt.dogleg_angle_deg 3 ++ '\t' :: (number_f pt.intensity_10m 2 ++ '\t' ::
    (number_f pt.intensity_L 2 ++ '\t' :: (number_f pt.mistake_x 3 ++ '\t' ::
    (number_f pt.mistake_y 3 ++ '\t' :: (number_f pt.mistake_z 3 ++ '\t' ::
    number_f pt.mistake_absg 3)))))))))))) with hline
  have e : wsWriteProcessed pt ++ rest = line ++ '\n' :: rest := by
    simp [wsWriteProcessed, hline]
  have hsplit : split '\t' line = _ :=
    split_results_row _ _ _ _ _ _ _ _ _ _ _ _ _ _ (number_f_no_tab _ _) (number_f_no_tab _ _)
      (wsOptNumber_no_tab _) (number_f_no_tab _ _) (number_f_no_tab _ _) (number_f_no_tab _ _)
      (number_f_no_tab _ _) (number_f_no_tab _ _) (number_f_no_tab _ _) (number_f_no_tab _ _)
      (number_f_no_tab _ _) (number_f_no_tab _ _) (number_f_no_tab _ _) (number_f_no_tab _ _)
  have hnl : ∀ d ∈ line, d ≠ '\n' := by
    intro d hd
    have hnum : ∀ (x : ℚ) (k : Nat), d ∈ number_f x k → d ≠ '\n' :=
      fun x k h => (numChar_props d (number_f_chars x k d h)).2.2.1
    have hopt : d ∈ wsOptNumber pt.azimuth_deg → d ≠ '\n' :=
      fun h => (numChar_props d (wsOptNumber_chars _ d h)).2.2.1
    have htab : d = '\t' → d ≠ '\n' := by rintro rfl; decide
    simp only [hline, List.mem_append, List.mem_cons] at hd
    rcases hd with h | h | h | h | h | h | h | h | h | h | h | h | h | h | h | h | h | h | h |
      h | h | h | h | h | h | h | h
    all_goals first | exact hnum _ _ h | exact hopt h | exact htab h
  have hhead : line = c :: (t ++ (line.drop (number_f pt.measured_depth_m 2).length)) := by
    rw [hline, List.drop_left, hct]
    rfl
  have htrim : trimmed line = line := by
    apply trimmed_of_ends
    · intro d hd
      rw [hhead] at hd
      simp only [List.head?_cons, Option.mem_def, Option.some.injEq] at hd
      rw [← hd]
      exact (numChar_props c hcn).1
    · intro d hd
      have hlast : line.getLast? = (number_f pt.mistake_absg 3).getLast? := by
        rw [hline]
        iterate 12 rw [getLast?_tab_append _ _ (by simp)]
        rw [getLast?_tab_append _ _ (number_f_ne_nil _ _)]
      rw [hlast] at hd
      have hmem : d ∈ number_f pt.mistake_absg 3 := List.mem_of_mem_getLast? hd
      exact (numChar_props d (number_f_chars _ _ d hmem)).1
  have hstep : wsLine ⟨"results".toList, hdrs, w⟩ line =
      ⟨"results".toList, hdrs, { w with results := w.results ++ [p'] }⟩ := by
    have hc1 := (numChar_props c hcn).2.2.2
    unfold wsLine
    simp only [htrim]
    rw [hsplit, hrow]
    rw [hhead]
    simp [startsWith, hc1.1, hc1.2.1, hc1.2.2, hh]
  rw [e, foldl_line _ line rest hnl, hstep]
theorem run_processed_rows (rs : List ProcessedPoint) :
    (∀ p ∈ rs, p.AtWriterPrecision) → ∀ (w : WellData) (hdrs : List QString), hdrs ≠ [] →
    ∃ L : List ProcessedPoint,
      (readLines (rs.map wsWriteProcessed).flatten).foldl wsLine ⟨"results".toList, hdrs, w⟩ =
        ⟨"results".toList, hdrs, { w with results := w.results ++ L }⟩ ∧
      L.map ProcessedPoint.core = rs.map ProcessedPoint.core := by
  induction rs with
  | nil =>
    intro _ w hdrs _
    exact ⟨[], by simp [readLines], rfl⟩
  | cons pt ps ih =>
    intro hrs w hdrs hh
    obtain ⟨p', h1, h2⟩ := run_results_row pt (hrs pt (List.mem_cons_self _ _)) w hdrs hh
      (ps.map wsWriteProcessed).flatten
    obtain ⟨L, h3, h4⟩ := ih (fun p hp => hrs p (List.mem_cons_of_mem _ hp))
      { w with results := w.results ++ [p'] } hdrs hh
    refine ⟨p' :: L, ?_, by simp [h2, h4]⟩
    simp only [List.map_cons, List.flatten_cons]
    rw [h1, h3]
    simp

set_option maxRecDepth 100000 in
theorem wsLine_results_header (w : WellData) :
    wsLine ⟨"results".toList, [], w⟩
      ("Глубина_м\tУгол_град\tАзимут_град\tПрив_азимут\tСевер_м\tВосток_м\tTVD_м\t".toList ++
       "Доглег_град\tИнт10_град\tИнтL_град\tОшX_м\tОшY_м\tОшZ_м\tОшR_м".toList) =
    ⟨"results".toList, split '\t'
      ("Глубина_м\tУгол_град\tАзимут_град\tПрив_азимут\tСевер_м\tВосток_м\tTVD_м\t".toList ++
       "Доглег_град\tИнт10_град\tИнтL_град\tОшX_м\tОшY_м\tОшZ_м\tОшR_м".toList), w⟩ := by
  rfl

set_option maxRecDepth 100000 in
theorem run_results (rs : List ProcessedPoint) (hrs : ∀ p ∈ rs, p.AtWriterPrecision)
    (st : WsState) (hst : st.well.results = []) :
    ((readLines (wsWriteResults rs)).foldl wsLine st).well.results.map ProcessedPoint.core =
      rs.map ProcessedPoint.core := by
  by_cases h : rs = []
  · simp [wsWriteResults, h, readLines, hst]
  · have e : wsWriteResults rs = "[results]".toList ++ '\n' ::
        (("Глубина_м\tУгол_град\tАзимут_град\tПрив_азимут\tСевер_м\tВосток_м\tTVD_м\t".toList ++
          "Доглег_град\tИнт10_град\tИнтL_град\tОшX_м\tОшY_м\tОшZ_м\tОшR_м".toList) ++ '\n' ::
          (rs.map wsWriteProcessed).flatten) := by
      simp [wsWriteResults, h]
    rw [e, foldl_line st _ _ (by decide), wsLine_results_tag, foldl_line _ _ _ (by decide)]
    have hw := wsLine_results_header st.well
    rw [show ({ st with current_section := "results".toList, headers := [] } : WsState) =
      ⟨"results".toList, [], st.well⟩ from rfl, hw]
    obtain ⟨L, h1, h2⟩ := run_processed_rows rs hrs st.well _ (split_ne_nil '\t' _)
    rw [h1]
    simp [hst, h2]

/-! ## Lemmas on the project files -/

theorem parseHexByte_hexDigit :
    ∀ x : Fin 256, parseHexByte (hexDigit (x.val / 16)) (hexDigit (x.val % 16)) = some x := by
  decide!

theorem fromName_name (c : QColor) : QColor.fromName c.name = c.stored := by
  simp [QColor.fromName, QColor.name, hexByte, parseHexByte_hexDigit, QColor.stored]

theorem name_stored (c : QColor) : c.stored.name = c.name := rfl

theorem toInt_ofInt (n d : Int) (h : IsInt32 n) : (QJsonValue.ofInt n).toInt d = n := by
  obtain ⟨h1, h2⟩ := h
  simp [QJsonValue.ofInt, QJsonValue.toInt, h1, h2]

theorem string_to_method_to_string (m : CalculationMethod) :
    string_to_method (method_to_string m) = m := by
  cases m <;> decide

theorem string_to_marker_to_string (m : ShotPointMarker) :
    string_to_marker (marker_to_string m) = m := by
  cases m <;> decide

theorem readWellEntry_write (e : WellEntry) (h : IsInt32 e.line_width) :
    readWellEntry (writeWellEntry e) = { e with color := e.color.stored } := by
  simp [readWellEntry, writeWellEntry, QJsonObject.value, QJsonValue.toObject, QJsonValue.toStr,
    QJsonValue.toBool, toInt_ofInt _ _ h, fromName_name]

theorem readProjectPoint_write (p : ProjectPoint) :
    readProjectPoint (writeProjectPoint p) =
      { name := p.name, azimuth_geogr_deg := p.azimuth_geogr_deg, shift_m := p.shift_m,
        depth_m := p.depth_m, abs_depth_m := p.abs_depth_m, radius_m := p.radius_m,
        display_color := p.display_color.stored, visible := p.visible } := by
  simp [readProjectPoint, writeProjectPoint, QJsonObject.value, QJsonValue.toObject,
    QJsonValue.toStr, QJsonValue.toBool, QJsonValue.toDbl, fromName_name]

theorem readShotPoint_write (p : ShotPoint) :
    readShotPoint (writeShotPoint p) =
      { name := p.name, x_m := p.x_m, y_m := p.y_m, z_m := p.z_m,
        display_color := p.display_color.stored, visible := p.visible, marker := p.marker } := by
  simp [readShotPoint, writeShotPoint, QJsonObject.value, QJsonValue.toObject,
    QJsonValue.toStr, QJsonValue.toBool, QJsonValue.toDbl, fromName_name,
    string_to_marker_to_string]

theorem readViewSettings_write (v : ViewSettings) :
    readViewSettings (writeViewSettings v) =
      { v with vertical_center_x := 0, vertical_center_y := 0 } := by
  simp [readViewSettings, writeViewSettings, QJsonObject.value, QJsonValue.toObject,
    QJsonValue.toDbl]

theorem readCalculationParams_write (p : CalculationParams) :
    readCalculationParams (writeCalculationParams p) =
      { method := p.method, magnetic_declination_deg := p.magnetic_declination_deg,
        meridian_convergence_deg := p.meridian_convergence_deg,
        intensity_interval_m := p.intensity_interval_m } := by
  simp [readCalculationParams, writeCalculationParams, QJsonObject.value, QJsonValue.toObject,
    QJsonValue.toStr, QJsonValue.toDbl, string_to_method_to_string]
theorem readProjectData_write (d : ProjectData)
    (hw : ∀ e ∈ d.well_entries, IsInt32 e.line_width) :
    (readProjectData (writeProjectJson d)).well_entries =
        d.well_entries.map (fun e => { e with color := e.color.stored }) ∧
    (readProjectData (writeProjectJson d)).project_points =
        d.project_points.map (fun p =>
          ({ name := p.name, azimuth_geogr_deg := p.azimuth_geogr_deg, shift_m := p.shift_m,
             depth_m := p.depth_m, abs_depth_m := p.abs_depth_m, radius_m := p.radius_m,
             display_color := p.display_color.stored, visible := p.visible } : ProjectPoint)) ∧
    (readProjectData (writeProjectJson d)).shot_points =
        d.shot_points.map (fun p =>
          ({ name := p.name, x_m := p.x_m, y_m := p.y_m, z_m := p.z_m,
             display_color := p.display_color.stored, visible := p.visible,
             marker := p.marker } : ShotPoint)) ∧
    (readProjectData (writeProjectJson d)).view_settings =
        { d.view_settings with vertical_center_x := 0, vertical_center_y := 0 } ∧
    (readProjectData (writeProjectJson d)).default_params =
        { method := d.default_params.method,
          magnetic_declination_deg := d.default_params.magnetic_declination_deg,
          meridian_convergence_deg := d.default_params.meridian_convergence_deg,
          intensity_interval_m := d.default_params.intensity_interval_m } := by
  refine ⟨?_, ?_, ?_, ?_, ?_⟩
  · show (d.well_entries.map writeWellEntry).map readWellEntry = _
    rw [List.map_map]
    apply List.map_congr_left
    intro e he
    exact readWellEntry_write e (hw e he)
  · show (d.project_points.map writeProjectPoint).map readProjectPoint = _
    rw [List.map_map]
    apply List.map_congr_left
    intro p _
    exact readProjectPoint_write p
  · show (d.shot_points.map writeShotPoint).map readShotPoint = _
    rw [List.map_map]
    apply List.map_congr_left
    intro p _
    exact readShotPoint_write p
  · exact readViewSettings_write d.view_settings
  · exact readCalculationParams_write d.default_params


/-! ## Lemmas on the angle helpers -/

theorem floor_add_small (n : ℤ) (f : ℚ) (h0 : 0 ≤ f) (h1 : f < 1) : ⌊(n : ℚ) + f⌋ = n := by
  rw [Int.floor_eq_iff]
  constructor <;> linarith

theorem fmod_360_bounds (x : ℚ) :
    ∃ k : ℤ, fmod x 360 = x - 360 * (k : ℚ) ∧ -360 < fmod x 360 ∧ fmod x 360 < 360 := by
  refine ⟨truncQ (x / 360), rfl, ?_, ?_⟩
  · unfold fmod truncQ
    split_ifs with h
    · have := Int.floor_le (x / 360)
      have h2 : x / 360 * 360 = x := by field_simp
      nlinarith
    · have := Int.ceil_lt_add_one (x / 360)
      have h2 : x / 360 * 360 = x := by field_simp
      nlinarith
  · unfold fmod truncQ
    split_ifs with h
    · have := Int.lt_floor_add_one (x / 360)
      have h2 : x / 360 * 360 = x := by field_simp
      nlinarith
    · have := Int.le_ceil (x / 360)
      have h2 : x / 360 * 360 = x := by field_simp
      nlinarith

theorem wrap_unique (x y z : ℚ) (l u : ℚ) (hlu : u = l + 360)
    (hy : l ≤ y ∧ y < u) (hz : l ≤ z ∧ z < u)
    (ky : ∃ k : ℤ, x - y = 360 * (k : ℚ)) (kz : ∃ k : ℤ, x - z = 360 * (k : ℚ)) : y = z := by
  obtain ⟨a, ha⟩ := ky
  obtain ⟨b, hb⟩ := kz
  have hab : z - y = 360 * ((a - b : ℤ) : ℚ) := by push_cast; linarith
  have h1 : ((a - b : ℤ) : ℚ) < 1 := by linarith [hy.1, hz.2]
  have h2 : (-1 : ℚ) < ((a - b : ℤ) : ℚ) := by linarith [hy.2, hz.1]
  have h3 : a - b < 1 := by exact_mod_cast h1
  have h4 : -1 < a - b := by exact_mod_cast h2
  have h5 : a - b = 0 := by omega
  rw [h5] at hab
  simp at hab
  linarith

/-! ## Lemmas on the angle text -/

theorem reDigits_eq (s ds r : QString) (h : reDigits s = some (ds, r)) : s = ds ++ r := by
  unfold reDigits at h
  split_ifs at h
  simp only [Option.some.injEq, Prod.mk.injEq] at h
  rw [← h.1, ← h.2]
  exact (List.takeWhile_append_dropWhile _ _).symm

theorem reInt_eq (s d r : QString) (h : reInt s = some (d, r)) : s = d ++ r := by
  unfold reInt at h
  split at h
  · rename_i t
    split at h
    · rename_i x ds r' hd
      simp only [Option.some.injEq, Prod.mk.injEq] at h
      rw [← h.1, ← h.2, reDigits_eq t ds r' hd]
      rfl
    · exact absurd h (by simp)
  · exact reDigits_eq s d r h

theorem reDecimal_eq (s d r : QString) (h : reDecimal s = some (d, r)) : s = d ++ r := by
  unfold reDecimal at h
  split at h
  · exact absurd h (by simp)
  · rename_i ip r1 h1
    have e1 := reDigits_eq s ip r1 h1
    split at h
    · rename_i t
      split at h
      · rename_i fp r2 h2
        have e2 := reDigits_eq t fp r2 h2
        simp only [Option.some.injEq, Prod.mk.injEq] at h
        rw [← h.1, ← h.2, e1, e2]
        simp
      · simp only [Option.some.injEq, Prod.mk.injEq] at h
        rw [← h.1, ← h.2, e1]
    · simp only [Option.some.injEq, Prod.mk.injEq] at h
      rw [← h.1, ← h.2, e1]

theorem reSignedDecimal_eq (s d r : QString) (h : reSignedDecimal s = some (d, r)) :
    s = d ++ r := by
  unfold reSignedDecimal at h
  split at h
  · rename_i t
    split at h
    · rename_i x ds r' hd
      simp only [Option.some.injEq, Prod.mk.injEq] at h
      rw [← h.1, ← h.2, reDecimal_eq t ds r' hd]
      rfl
    · exact absurd h (by simp)
  · exact reDecimal_eq s d r h

theorem reDmsAt_degree (s : QString) (h : (reDmsAt s).isSome = true) : '°' ∈ s := by
  unfold reDmsAt at h
  split at h
  · rename_i deg r2 h1
    rw [reInt_eq s deg _ h1]
    simp
  · simp at h

theorem reDmAt_degree (s : QString) (h : (reDmAt s).isSome = true) : '°' ∈ s := by
  unfold reDmAt at h
  split at h
  · rename_i deg r2 h1
    rw [reInt_eq s deg _ h1]
    simp
  · simp at h

theorem reDAt_degree (s : QString) (h : (reDAt s).isSome = true) : '°' ∈ s := by
  unfold reDAt at h
  split at h
  · rename_i deg r2 h1
    rw [reSignedDecimal_eq s deg _ h1]
    simp
  · simp at h

theorem reSearch_none {α : Type} (m : QString → Option α) (x : Char)
    (hm : ∀ s, (m s).isSome = true → x ∈ s) : ∀ s, x ∉ s → reSearch m s = none := by
  intro s
  induction s with
  | nil =>
    intro hx
    unfold reSearch
    cases h : m [] with
    | none => rfl
    | some v => exact absurd (hm [] (by simp [h])) hx
  | cons c cs ih =>
    intro hx
    unfold reSearch
    cases h : m (c :: cs) with
    | none => exact ih (fun hc => hx (List.mem_cons_of_mem _ hc))
    | some v => exact absurd (hm (c :: cs) (by simp [h])) hx

theorem toDoubleMag_whole (neg : Bool) (D : List Char) (hD : ∀ c ∈ D, isDigit c = true)
    (hne : D ≠ []) :
    toDoubleMag neg D = some ((if neg then -1 else 1) * ((digitsVal D : ℚ) / (10 : ℚ) ^ 0)) := by
  have h2 := takeWhile_all isDigit D hD
  simp [toDoubleMag, h2.1, h2.2, hne]

theorem toDoubleMag_comma (neg : Bool) (D F : List Char) (hD : ∀ c ∈ D, isDigit c = true)
    (hne : D ≠ []) : toDoubleMag neg (D ++ ',' :: F) = none := by
  have h1 := takeWhile_digits_stop isDigit D ',' F hD (by decide)
  simp [toDoubleMag, h1.1, h1.2, hne]

theorem takeSign_bare (neg : Bool) (body : List Char) (c : Char) (t : List Char)
    (hb : body = c :: t) (hc : isDigit c = true) :
    takeSign ((if neg then ['-'] else []) ++ body) = (neg, body) := by
  cases neg with
  | true => simp [takeSign]
  | false =>
    simp only [Bool.false_eq_true, if_false, List.nil_append]
    rw [hb]
    exact takeSign_digit c t hc

theorem bareDecimal_chars (neg : Bool) (ip fp : List Char) (sep : Char)
    (hipd : ∀ c ∈ ip, isDigit c = true) (hfpd : ∀ c ∈ fp, isDigit c = true) :
    ∀ c ∈ bareDecimal neg ip fp sep, isDigit c = true ∨ c = '-' ∨ c = sep := by
  intro c hc
  simp only [bareDecimal, List.mem_append] at hc
  rcases hc with (hc | hc) | hc
  · split_ifs at hc
    · simp at hc; exact Or.inr (Or.inl hc)
    · simp at hc
  · exact Or.inl (hipd c hc)
  · split_ifs at hc
    · simp at hc
    · rcases List.mem_cons.mp hc with rfl | hc
      · exact Or.inr (Or.inr rfl)
      · exact Or.inl (hfpd c hc)

theorem commaToPoint_digits (l : List Char) (h : ∀ c ∈ l, isDigit c = true) :
    commaToPoint l = l := by
  unfold commaToPoint
  conv_rhs => rw [← List.map_id l]
  apply List.map_congr_left
  intro c hc
  have : c ≠ ',' := by rintro rfl; exact absurd (h _ hc) (by decide)
  simp [this]

theorem commaToPoint_bare (neg : Bool) (ip fp : List Char)
    (hipd : ∀ c ∈ ip, isDigit c = true) (hfpd : ∀ c ∈ fp, isDigit c = true) :
    commaToPoint (bareDecimal neg ip fp ',') = bareDecimal neg ip fp '.' := by
  have e1 := commaToPoint_digits ip hipd
  have e2 := commaToPoint_digits fp hfpd
  unfold commaToPoint at e1 e2 ⊢
  unfold bareDecimal
  cases neg <;> by_cases hf : fp = [] <;> simp [hf, e1, e2]

theorem toDoubleMag_bare (neg : Bool) (ip fp : List Char) (hip : ip ≠ [])
    (hipd : ∀ c ∈ ip, isDigit c = true) (hfpd : ∀ c ∈ fp, isDigit c = true) :
    toDoubleMag neg (ip ++ (if fp = [] then [] else '.' :: fp)) =
      some (bareDecimalValue neg ip fp) := by
  by_cases hf : fp = []
  · subst hf
    simp only [if_true, List.append_nil, bareDecimalValue, List.length_nil]
    exact toDoubleMag_whole neg ip hipd hip
  · simp only [hf, if_false, bareDecimalValue]
    exact toDoubleMag_fixed neg ip fp hipd hfpd hip

theorem toDouble_bare_point (neg : Bool) (ip fp : List Char) (hip : ip ≠ [])
    (hipd : ∀ c ∈ ip, isDigit c = true) (hfpd : ∀ c ∈ fp, isDigit c = true) :
    toDouble (bareDecimal neg ip fp '.') = some (bareDecimalValue neg ip fp) := by
  have htrim : trimmed (bareDecimal neg ip fp '.') = bareDecimal neg ip fp '.' :=
    trimmed_eq_self _ (fun c hc => (numChar_props c (bareDecimal_chars neg ip fp '.' hipd hfpd c hc)).1)
  obtain ⟨d0, t, hd0⟩ := List.exists_cons_of_ne_nil hip
  have hd : isDigit d0 = true := hipd d0 (by rw [hd0]; exact List.mem_cons_self _ _)
  unfold toDouble
  rw [htrim]
  have hs : takeSign (bareDecimal neg ip fp '.') =
      (neg, ip ++ (if fp = [] then [] else '.' :: fp)) := by
    unfold bareDecimal
    rw [List.append_assoc]
    exact takeSign_bare neg _ d0 (t ++ (if fp = [] then [] else '.' :: fp))
      (by rw [hd0]; rfl) hd
  rw [hs]
  exact toDoubleMag_bare neg ip fp hip hipd hfpd

theorem toDouble_bare_comma (neg : Bool) (ip fp : List Char) (hip : ip ≠ []) (hfp : fp ≠ [])
    (hipd : ∀ c ∈ ip, isDigit c = true) (hfpd : ∀ c ∈ fp, isDigit c = true) :
    toDouble (bareDecimal neg ip fp ',') = none := by
  have hch : ∀ c ∈ bareDecimal neg ip fp ',', isSpace c = false := by
    intro c hc
    rcases bareDecimal_chars neg ip fp ',' hipd hfpd c hc with h | rfl | rfl
    · exact isDigit_not_space c h
    · decide
    · decide
  obtain ⟨d0, t, hd0⟩ := List.exists_cons_of_ne_nil hip
  have hd : isDigit d0 = true := hipd d0 (by rw [hd0]; exact List.mem_cons_self _ _)
  unfold toDouble
  rw [trimmed_eq_self _ hch]
  have hs : takeSign (bareDecimal neg ip fp ',') = (neg, ip ++ ',' :: fp) := by
    unfold bareDecimal
    rw [List.append_assoc]
    simp only [hfp, if_false]
    exact takeSign_bare neg _ d0 (t ++ ',' :: fp) (by rw [hd0]; rfl) hd
  rw [hs]
  exact toDoubleMag_comma neg ip fp hipd hip

theorem bareDecimal_no_degree (neg : Bool) (ip fp : List Char) (sep : Char)
    (hsep : sep = '.' ∨ sep = ',')
    (hipd : ∀ c ∈ ip, isDigit c = true) (hfpd : ∀ c ∈ fp, isDigit c = true) :
    '°' ∉ bareDecimal neg ip fp sep := by
  intro hc
  rcases bareDecimal_chars neg ip fp sep hipd hfpd _ hc with h | h | h
  · exact absurd h (by decide)
  · exact absurd h (by decide)
  · rcases hsep with rfl | rfl <;> exact absurd h (by decide)

theorem bareDecimal_ne_nil (neg : Bool) (ip fp : List Char) (sep : Char) (hip : ip ≠ []) :
    bareDecimal neg ip fp sep ≠ [] := by
  intro h
  simp only [bareDecimal, List.append_eq_nil] at h
  exact hip h.1.2

/-! ## Lemmas on the delimited text files -/

theorem trimmed_trimmed (s : List Char) : trimmed (trimmed s) = trimmed s := by
  apply trimmed_of_ends
  · intro c hc
    -- the head of the trimmed text is the head of `s.dropWhile isSpace`
    unfold trimmed at hc
    set a := s.dropWhile isSpace with ha
    have hpre : ((a.reverse.dropWhile isSpace).reverse) <+: a := by
      have hsuf : a.reverse.dropWhile isSpace <:+ a.reverse := List.dropWhile_suffix _
      have := List.reverse_prefix.mpr hsuf
      simpa using this
    obtain ⟨r, hr⟩ := hpre
    cases hb : (a.reverse.dropWhile isSpace).reverse with
    | nil => rw [hb] at hc; simp at hc
    | cons x xs =>
      rw [hb] at hc hr
      simp only [List.head?_cons, Option.mem_def, Option.some.injEq] at hc
      subst hc
      have hhead : a.head? = some x := by rw [← hr]; rfl
      have := List.head?_dropWhile_not isSpace s
      rw [← ha, hhead] at this
      simpa using this
  · intro c hc
    unfold trimmed at hc
    rw [List.getLast?_reverse] at hc
    have := List.head?_dropWhile_not isSpace (s.dropWhile isSpace).reverse
    rw [Option.mem_def.mp hc] at this
    simpa using this

theorem toDouble_trimmed (s : List Char) : toDouble (trimmed s) = toDouble s := by
  unfold toDouble
  rw [trimmed_trimmed]

theorem csvHeaderCols_none (values : List QString) (h : ∀ v ∈ values, ¬csvIsHeaderCell v) :
    ∀ (i : Nat) (cols : Int × Int × Int), csvHeaderCols values i cols = cols := by
  induction values with
  | nil => intro i cols; rfl
  | cons v vs ih =>
    intro i cols
    obtain ⟨d, n, a⟩ := cols
    have hv := h v (List.mem_cons_self _ _)
    unfold csvIsHeaderCell at hv
    push_neg at hv
    obtain ⟨⟨h1, h2, h3⟩, ⟨h4, h5, h6⟩, h7, h8⟩ := hv
    unfold csvHeaderCols
    simp only [h1, h2, h3, h4, h5, h6, h7, h8, or_self, if_false, Bool.false_eq_true]
    exact ih (fun w hw => h w (List.mem_cons_of_mem _ hw)) (i + 1) (d, n, a)

theorem csvRow_first (values : List QString) (d i : ℚ) (h3 : values.length ≥ 2)
    (hd : toDouble (values.getD 0 []) = some d) (hi : toDouble (values.getD 1 []) = some i) :
    csvRow 0 1 (if values.length ≥ 3 then 2 else -1) values =
      some { measured_depth_m := d, inclination_deg := i,
             azimuth_deg :=
               if values.length ≥ 3 ∧ trimmed (values.getD 2 []) ≠ [] then
                 toDouble (trimmed (values.getD 2 []))
               else none } := by
  have hc : ¬((0 : Int) < 0 ∨ (1 : Int) < 0 ∨ (0 : Int) ≥ values.length ∨
      (1 : Int) ≥ values.length) := by
    push_neg
    refine ⟨by norm_num, by norm_num, ?_, ?_⟩ <;> omega
  unfold csvRow
  rw [if_neg hc]
  simp only [Int.toNat_zero, Int.toNat_one, toDouble_trimmed, hd, hi]
  by_cases h : values.length ≥ 3
  · have e : ((2 : Int) ≥ 0 ∧ (2 : Int) < values.length ∧
        trimmed (values.getD (2 : Int).toNat []) ≠ []) ↔
        (values.length ≥ 3 ∧ trimmed (values.getD 2 []) ≠ []) := by
      constructor
      · intro hh; exact ⟨h, hh.2.2⟩
      · intro hh; exact ⟨by norm_num, by omega, hh.2⟩
    simp only [h, if_true, e]
    rfl
  · have e1 : ¬((-1 : Int) ≥ 0 ∧ (-1 : Int) < values.length ∧
        trimmed (values.getD (-1 : Int).toNat []) ≠ []) := fun hh => absurd hh.1 (by norm_num)
    have e2 : ¬(values.length ≥ 3 ∧ trimmed (values.getD 2 []) ≠ []) := fun hh => h hh.1
    simp only [h, if_false, if_neg e1, if_neg e2]
    simp

theorem csvLine_rest (st : CsvState) (raw : QString) (hf : st.first_line = false) :
    csvLine st raw =
      match csvLinePoint st.depth_col st.incl_col st.azim_col raw with
      | some p => { st with well := { st.well with measurements := st.well.measurements ++ [p] } }
      | none => st := by
  obtain ⟨fl, dc, ic, ac, w⟩ := st
  simp only at hf
  subst hf
  unfold csvLine csvLinePoint
  by_cases hb : trimmed raw = [] ∨ startsWith (trimmed raw) '#' = true
  · simp only [if_pos hb]
  · simp only [if_neg hb, Bool.false_eq_true, if_false]
    rfl

theorem csvLine_rest_cols (st : CsvState) (raw : QString) (hf : st.first_line = false) :
    (csvLine st raw).first_line = false ∧ (csvLine st raw).depth_col = st.depth_col ∧
    (csvLine st raw).incl_col = st.incl_col ∧ (csvLine st raw).azim_col = st.azim_col ∧
    (csvLine st raw).well.measurements = st.well.measurements ++
      (csvLinePoint st.depth_col st.incl_col st.azim_col raw).toList := by
  rw [csvLine_rest st raw hf]
  cases csvLinePoint st.depth_col st.incl_col st.azim_col raw with
  | none => simp [hf]
  | some p => simp [hf]

theorem csv_rows_in_order (lines : List QString) : ∀ st : CsvState, st.first_line = false →
    (lines.foldl csvLine st).well.measurements =
      st.well.measurements ++
        lines.filterMap (csvLinePoint st.depth_col st.incl_col st.azim_col) := by
  induction lines with
  | nil => intro st _; simp
  | cons raw rest ih =>
    intro st hf
    obtain ⟨h1, h2, h3, h4, h5⟩ := csvLine_rest_cols st raw hf
    rw [List.foldl_cons, ih (csvLine st raw) h1, h2, h3, h4, h5, List.filterMap_cons]
    cases csvLinePoint st.depth_col st.incl_col st.azim_col raw with
    | none => simp
    | some p => simp

theorem wsIntervalsRow_point (values : List QString) (well : WellData) :
    wsIntervalsRow values well =
      match wsIntervalsPoint values with
      | some p => { well with measurements := well.measurements ++ [p] }
      | none => well := by
  unfold wsIntervalsRow wsIntervalsPoint
  by_cases h : values.length ≥ 3
  · simp only [if_pos h]
    cases toDouble (values.getD 0 []) <;> cases toDouble (values.getD 1 []) <;> rfl
  · simp only [if_neg h]

theorem wsLine_intervals (st : WsState) (raw : QString)
    (hs : st.current_section = "intervals".toList) (hh : st.headers ≠ [])
    (ht : ¬wsIsTag raw) :
    (wsLine st raw).current_section = st.current_section ∧
    (wsLine st raw).headers = st.headers ∧
    (wsLine st raw).well.measurements =
      st.well.measurements ++ (wsIntervalsLinePoint raw).toList := by
  unfold wsLine wsIntervalsLinePoint
  by_cases hb : trimmed raw = [] ∨ startsWith (trimmed raw) '#' = true ∨
      startsWith (trimmed raw) ';' = true
  · simp only [if_pos hb]
    simp
  · unfold wsIsTag at ht
    simp only [if_neg hb, if_neg ht, hs, hh]
    simp only [ne_eq, not_true_eq_false, false_and, if_false, if_true]
    rw [wsIntervalsRow_point]
    cases wsIntervalsPoint (split '\t' (trimmed raw)) with
    | none => simp [hs]
    | some p => simp [hs]

theorem ws_rows_in_order (lines : List QString) : ∀ st : WsState,
    st.current_section = "intervals".toList → st.headers ≠ [] → (∀ raw ∈ lines, ¬wsIsTag raw) →
    (lines.foldl wsLine st).well.measurements =
      st.well.measurements ++ lines.filterMap wsIntervalsLinePoint := by
  induction lines with
  | nil => intro st _ _ _; simp
  | cons raw rest ih =>
    intro st hs hh ht
    obtain ⟨h1, h2, h3⟩ := wsLine_intervals st raw hs hh (ht raw (List.mem_cons_self _ _))
    rw [List.foldl_cons, ih (wsLine st raw) (h1.trans hs) (by rw [h2]; exact hh)
      (fun r hr => ht r (List.mem_cons_of_mem _ hr)), h3, List.filterMap_cons]
    cases wsIntervalsLinePoint raw with
    | none => simp
    | some p => simp

theorem wsIntervalsRow_total_depth (v : List QString) (w : WellData) :
    (wsIntervalsRow v w).total_depth = w.total_depth := by
  unfold wsIntervalsRow
  split_ifs
  · split <;> simp
  · split <;> simp
  · rfl

theorem wsResultsRow_total_depth (v : List QString) (w : WellData) :
    (wsResultsRow v w).total_depth = w.total_depth := by
  unfold wsResultsRow
  dsimp only
  split_ifs <;> rfl

theorem wsMetadataRow_total_depth (v : List QString) (w : WellData) :
    (wsMetadataRow v w).total_depth = w.total_depth := by
  unfold wsMetadataRow
  dsimp only
  split_ifs <;> rfl

theorem wsLine_total_depth (st : WsState) (raw : QString) :
    (wsLine st raw).well.total_depth = st.well.total_depth := by
  unfold wsLine
  dsimp only
  split_ifs
  · rfl
  · rfl
  · rfl
  · exact wsIntervalsRow_total_depth _ _
  · exact wsResultsRow_total_depth _ _
  · exact wsMetadataRow_total_depth _ _
  · rfl

theorem ws_loop_total_depth (lines : List QString) : ∀ st : WsState,
    (lines.foldl wsLine st).well.total_depth = st.well.total_depth := by
  induction lines with
  | nil => intro st; rfl
  | cons raw rest ih =>
    intro st
    rw [List.foldl_cons, ih, wsLine_total_depth]

theorem wsFinish_measurements (path : QString) (w : WellData) :
    (wsFinish path w).measurements = w.measurements := by
  unfold wsFinish
  dsimp only
  split_ifs <;> split <;> (try split) <;> rfl

theorem wsFinish_total_depth (path : QString) (w : WellData) :
    (wsFinish path w).total_depth =
      match w.results.getLast? with
      | some last => last.measured_depth_m
      | none =>
        match w.measurements.getLast? with
        | some last => last.measured_depth_m
        | none => w.total_depth := by
  unfold wsFinish
  dsimp only
  split_ifs <;> split <;> (try split) <;> rfl

/-! ## Lemmas on the curve-log and configured-delimiter importers -/

theorem isRegexSpace_isSpace (c : Char) (h : isRegexSpace c = true) : isSpace c = true := by
  unfold isRegexSpace at h
  unfold isSpace
  simp only [Bool.or_eq_true, Bool.and_eq_true, decide_eq_true_eq, beq_iff_eq] at h ⊢
  rcases h with h | h
  · exact Or.inl (Or.inl (Or.inl (Or.inl (Or.inl (Or.inl (Or.inl (Or.inl (Or.inl (Or.inl h)))))))))
  · exact Or.inl (Or.inl (Or.inl (Or.inl (Or.inl (Or.inl (Or.inl (Or.inl (Or.inl (Or.inr h)))))))))

theorem dropWhile_regexSpace_space (s : List Char) :
    (s.dropWhile isRegexSpace).dropWhile isSpace = s.dropWhile isSpace := by
  induction s with
  | nil => rfl
  | cons c cs ih =>
    by_cases h : isRegexSpace c = true
    · rw [List.dropWhile_cons_of_pos h, ih, List.dropWhile_cons_of_pos (isRegexSpace_isSpace c h)]
    · rw [List.dropWhile_cons_of_neg h]

theorem trimmed_dropWhile_regexSpace (s : List Char) :
    trimmed (s.dropWhile isRegexSpace) = trimmed s := by
  unfold trimmed
  rw [dropWhile_regexSpace_space]

theorem isRegexSpace_not_word (c : Char) (h : isRegexSpace c = true) : isWordChar c = false := by
  unfold isRegexSpace at h
  unfold isWordChar isDigit
  simp only [Bool.or_eq_true, Bool.and_eq_true, decide_eq_true_eq, beq_iff_eq] at h
  simp only [Bool.or_eq_false_iff, Bool.and_eq_false_iff, decide_eq_false_iff_not, beq_eq_false_iff_ne,
    ne_eq]
  omega

theorem lasMnemonic_form (m ws rest : List Char) (hm : m ≠ []) (hmw : ∀ c ∈ m, isWordChar c = true)
    (hws : ∀ c ∈ ws, isRegexSpace c = true) :
    lasMnemonic (m ++ ws ++ '.' :: rest) = some (m, rest) := by
  have hsplit : (m ++ ws ++ '.' :: rest).takeWhile isWordChar = m ∧
      (m ++ ws ++ '.' :: rest).dropWhile isWordChar = ws ++ '.' :: rest := by
    cases ws with
    | nil =>
      simpa using takeWhile_digits_stop isWordChar m '.' rest hmw (by decide)
    | cons w ws' =>
      have := takeWhile_digits_stop isWordChar m w (ws' ++ '.' :: rest) hmw
        (isRegexSpace_not_word w (hws w (List.mem_cons_self _ _)))
      simpa using this
  have hdrop : (ws ++ '.' :: rest).dropWhile isRegexSpace = '.' :: rest :=
    (takeWhile_digits_stop isRegexSpace ws '.' rest hws (by decide)).2
  unfold lasMnemonic
  rw [hsplit.1, hsplit.2, hdrop, if_neg hm]
  rfl

theorem lasWellMatch_form (m ws unit rest : List Char) (hm : m ≠ [])
    (hmw : ∀ c ∈ m, isWordChar c = true) (hws : ∀ c ∈ ws, isRegexSpace c = true)
    (hu : ∀ c ∈ unit, c ≠ ':') :
    lasWellMatch (m ++ ws ++ '.' :: (unit ++ ':' :: rest)) =
      some (m, rest.dropWhile isRegexSpace) := by
  unfold lasWellMatch
  rw [lasMnemonic_form m ws _ hm hmw hws]
  have := (takeWhile_digits_stop (fun c => c != ':') unit ':' rest
    (fun c hc => by simpa using hu c hc) (by decide)).2
  simp only [this]

theorem nthNonEmpty_eq (l : List QString) : ∀ k : Nat,
    nthNonEmpty k l = (l.filter (fun part => part != [])).get? k := by
  induction l with
  | nil => intro k; rfl
  | cons f fs ih =>
    intro k
    unfold nthNonEmpty
    by_cases hf : f = []
    · rw [if_pos hf, ih]
      simp [hf]
    · rw [if_neg hf]
      have hfl : (f :: fs).filter (fun part => part != []) =
          f :: fs.filter (fun part => part != []) := by
        simp [List.filter_cons, hf]
      rw [hfl]
      cases k with
      | zero => rfl
      | succ k => simp [ih]

theorem zakImportLine_eq (dlg : ImportZakDialog) (raw : QString) (h1 : ¬zakIsIgnored raw)
    (h2 : ¬((zakSplit dlg.separator (trimmed raw)).length ≤ (dlg.depth_col_spin : Int) - 1 ∨
      ((zakSplit dlg.separator (trimmed raw)).length : Int) ≤ (dlg.angle_col_spin : Int) - 1)) :
    zakImportLine dlg raw =
      match toDouble (zakFields dlg (zakSplit dlg.separator (trimmed raw))).1,
            toDouble (zakFields dlg (zakSplit dlg.separator (trimmed raw))).2.1 with
      | some d, some a =>
        ZakRow.imported (degminConvert dlg.angle_degmin dlg.azimuth_degmin
          { measured_depth_m := d, inclination_deg := a,
            azimuth_deg :=
              if (zakFields dlg (zakSplit dlg.separator (trimmed raw))).2.2 = [] then none
              else toDouble (zakFields dlg (zakSplit dlg.separator (trimmed raw))).2.2,
            azimuth_type := AzimuthType.kMagnetic })
      | _, _ => ZakRow.skipped := by
  unfold zakIsIgnored at h1
  unfold zakImportLine
  dsimp only
  rw [if_neg h1, if_neg h2]
  generalize zakFields dlg (zakSplit dlg.separator (trimmed raw)) = fl
  cases toDouble fl.1 with
  | none => rfl
  | some d =>
    cases toDouble fl.2.1 with
    | none => rfl
    | some a =>
      dsimp only [degminConvert]
      by_cases hz : fl.2.2 = []
      · simp only [hz, if_true, Option.map_none']
      · simp only [hz, if_false]
        cases toDouble fl.2.2 <;> rfl

theorem zakImportLine_flags (dlg : ImportZakDialog) (raw : QString) :
    (match zakImportLine dlg raw with
      | ZakRow.imported p => some p
      | _ => none) =
    (match zakImportLine { dlg with angle_degmin := false, azimuth_degmin := false } raw with
      | ZakRow.imported p => some p
      | _ => none).map (degminConvert dlg.angle_degmin dlg.azimuth_degmin) := by
  by_cases h1 : zakIsIgnored raw
  · have e : ∀ d : ImportZakDialog, zakImportLine d raw = ZakRow.ignored := by
      intro d
      unfold zakIsIgnored at h1
      unfold zakImportLine
      dsimp only
      rw [if_pos h1]
    rw [e, e]
    rfl
  · by_cases h2 : ((zakSplit dlg.separator (trimmed raw)).length : Int) ≤ (dlg.depth_col_spin : Int) - 1 ∨
        ((zakSplit dlg.separator (trimmed raw)).length : Int) ≤ (dlg.angle_col_spin : Int) - 1
    · have e : ∀ d : ImportZakDialog, d.separator = dlg.separator →
          d.depth_col_spin = dlg.depth_col_spin → d.angle_col_spin = dlg.angle_col_spin →
          zakImportLine d raw = ZakRow.skipped := by
        intro d e1 e2 e3
        unfold zakIsIgnored at h1
        unfold zakImportLine
        dsimp only
        rw [if_neg h1, e1, e2, e3, if_pos h2]
      rw [e dlg rfl rfl rfl,
        e { dlg with angle_degmin := false, azimuth_degmin := false } rfl rfl rfl]
      rfl
    · rw [zakImportLine_eq dlg raw h1 h2,
        zakImportLine_eq { dlg with angle_degmin := false, azimuth_degmin := false } raw h1 h2]
      have hf : zakFields { dlg with angle_degmin := false, azimuth_degmin := false }
          (zakSplit dlg.separator (trimmed raw)) =
          zakFields dlg (zakSplit dlg.separator (trimmed raw)) := rfl
      dsimp only
      rw [hf]
      generalize zakFields dlg (zakSplit dlg.separator (trimmed raw)) = fl
      cases toDouble fl.1 with
      | none => rfl
      | some d =>
        cases toDouble fl.2.1 with
        | none => rfl
        | some a =>
          dsimp only [Option.map_some']
          congr 1
          congr 1
          unfold degminConvert
          cases fl.2.2 with
          | nil => simp
          | cons c t => cases toDouble (c :: t) <;> simp

theorem zakPoints_flags (dlg : ImportZakDialog) (lines : List QString) :
    zakPoints (lines.map (zakImportLine dlg)) =
      (zakPoints (lines.map
        (zakImportLine { dlg with angle_degmin := false, azimuth_degmin := false }))).map
        (degminConvert dlg.angle_degmin dlg.azimuth_degmin) := by
  unfold zakPoints
  induction lines with
  | nil => rfl
  | cons raw rest ih =>
    have h := zakImportLine_flags dlg raw
    simp only [List.map_cons, List.filterMap_cons]
    simp only [List.map_cons, List.filterMap_cons] at ih
    rw [ih]
    revert h
    cases zakImportLine dlg raw <;>
      cases zakImportLine { dlg with angle_degmin := false, azimuth_degmin := false } raw <;>
      simp

theorem lasImportPoint_flags (nv : ℚ) (a z : Bool) (depth angle : ℚ) (azd : Bool) (azimuth : ℚ) :
    lasImportPoint nv a z depth angle azd azimuth =
      (lasImportPoint nv false false depth angle azd azimuth).map (degminConvert a z) := by
  unfold lasImportPoint
  dsimp only
  generalize decide (|depth - nv| > 1 / 1000) = dv
  generalize decide (|angle - nv| > 1 / 1000) = av
  generalize decide (|azimuth - nv| > 1 / 1000) = zv
  cases dv <;> cases av <;> cases azd <;> cases zv <;> cases a <;> cases z <;>
    simp [degminConvert]

theorem lasImportRow_flags (nv : ℚ) (a z : Bool) (dd ad : List ℚ) (azd : Option (List ℚ))
    (i : Nat) :
    lasImportRow nv a z dd ad azd i =
      (lasImportRow nv false false dd ad azd i).map (Option.map (degminConvert a z)) := by
  unfold lasImportRow
  cases dd.get? i with
  | none => rfl
  | some depth =>
    cases ad.get? i with
    | none => rfl
    | some angle =>
      dsimp only [Option.map_some']
      rw [lasImportPoint_flags nv a z]

theorem lasImportRows_flags (nv : ℚ) (a z : Bool) (dd ad : List ℚ) (azd : Option (List ℚ))
    (rows : List Nat) :
    lasImportRows nv a z dd ad azd rows =
      (lasImportRows nv false false dd ad azd rows).map (List.map (degminConvert a z)) := by
  induction rows with
  | nil => rfl
  | cons i rows ih =>
    rw [lasImportRows, lasImportRows, ih, lasImportRow_flags nv a z]
    cases lasImportRow nv false false dd ad azd i with
    | none => rfl
    | some p =>
      cases lasImportRows nv false false dd ad azd rows with
      | none => rfl
      | some rest => cases p <;> simp

theorem csv_skip_lines (pre : List QString) (st : CsvState)
    (hpre : ∀ l ∈ pre, trimmed l = [] ∨ startsWith (trimmed l) '#' = true) :
    pre.foldl csvLine st = st := by
  induction pre with
  | nil => rfl
  | cons l rest ih =>
    have hl : csvLine st l = st := by
      unfold csvLine
      dsimp only
      rw [if_pos (hpre l (List.mem_cons_self _ _))]
    rw [List.foldl_cons, hl]
    exact ih (fun x hx => hpre x (List.mem_cons_of_mem _ hx))

theorem zakSplit_get? (sep : Char) (hsep : sep ≠ ' ') (line : QString) (k : Nat) :
    (zakSplit sep line).get? k = nthNonEmpty k (split sep line) := by
  unfold zakSplit
  rw [if_neg hsep, nthNonEmpty_eq]

theorem zakFields_cells (dlg : ImportZakDialog) (parts : List QString) :
    (zakFields dlg parts).1 = zakDecimal dlg (parts.getD (dlg.depth_col_spin - 1) []) ∧
    (zakFields dlg parts).2.1 = zakDecimal dlg (parts.getD (dlg.angle_col_spin - 1) []) := by
  have e1 : ((dlg.depth_col_spin : Int) - 1).toNat = dlg.depth_col_spin - 1 := by omega
  have e2 : ((dlg.angle_col_spin : Int) - 1).toNat = dlg.angle_col_spin - 1 := by omega
  unfold zakFields zakDecimal
  dsimp only
  rw [e1, e2]
  split_ifs <;> exact ⟨rfl, rfl⟩

theorem get?_getD (l : List QString) (k : Nat) (x : QString) (h : l.get? k = some x) :
    l.getD k [] = x := by
  rw [List.getD_eq_getElem?_getD, ← List.get?_eq_getElem?, h]
  rfl

theorem degminConvert_clear (p : MeasuredPoint) : degminConvert false false p = p := by
  cases p
  simp [degminConvert]

theorem lasWellLine_value (dlg : ImportLasDialog) (m ws unit rest : List Char) (hm : m ≠ [])
    (hmw : ∀ c ∈ m, isWordChar c = true) (hws : ∀ c ∈ ws, isRegexSpace c = true)
    (hu : ∀ c ∈ unit, c ≠ ':') :
    lasWellLine dlg (m ++ ws ++ '.' :: (unit ++ ':' :: rest)) =
      if toUpper m = "WELL".toList then
        { dlg with las_data_ := { dlg.las_data_ with well_name := trimmed rest },
                   well_name_edit_ := trimmed rest }
      else if toUpper m = "FLD".toList ∨ toUpper m = "FIELD".toList then
        { dlg with las_data_ := { dlg.las_data_ with field := trimmed rest },
                   field_edit_ := trimmed rest }
      else if toUpper m = "UWI".toList ∨ toUpper m = "UWID".toList then
        { dlg with las_data_ := { dlg.las_data_ with uwi := trimmed rest },
                   uwi_edit_ := trimmed rest }
      else if toUpper m = "NULL".toList then
        match toDouble (trimmed rest) with
        | some null_val => { dlg with las_data_ := { dlg.las_data_ with null_value := null_val } }
        | none => dlg
      else dlg := by
  unfold lasWellLine
  rw [lasWellMatch_form m ws unit rest hm hmw hws hu]
  dsimp only
  rw [trimmed_dropWhile_regexSpace]

/-! ## Lemmas on the summary of the sectioned reader -/

theorem wsMaxStep_inclination (rs : List ProcessedPoint) : ∀ acc : ℚ × ℚ × ℚ,
    acc.1 ≤ (rs.foldl wsMaxStep acc).1 ∧
    (∀ p ∈ rs, p.inclination_deg ≤ (rs.foldl wsMaxStep acc).1) ∧
    ((rs.foldl wsMaxStep acc).1 = acc.1 ∨
      ∃ p ∈ rs, p.inclination_deg = (rs.foldl wsMaxStep acc).1) := by
  induction rs with
  | nil => intro acc; simp
  | cons p rs ih =>
    intro acc
    obtain ⟨h1, h2, h3⟩ := ih (wsMaxStep acc p)
    have hs : (wsMaxStep acc p).1 = if p.inclination_deg > acc.1 then p.inclination_deg else acc.1 := by
      unfold wsMaxStep
      dsimp only
      split_ifs <;> rfl
    rw [List.foldl_cons]
    by_cases hgt : p.inclination_deg > acc.1
    · rw [if_pos hgt] at hs
      refine ⟨by linarith, ?_, ?_⟩
      · intro q hq
        rcases List.mem_cons.mp hq with rfl | hq
        · linarith
        · exact h2 q hq
      · right
        rcases h3 with h3 | ⟨q, hq, hq2⟩
        · exact ⟨p, List.mem_cons_self _ _, by rw [h3, hs]⟩
        · exact ⟨q, List.mem_cons_of_mem _ hq, hq2⟩
    · rw [if_neg hgt] at hs
      refine ⟨by linarith, ?_, ?_⟩
      · intro q hq
        rcases List.mem_cons.mp hq with rfl | hq
        · linarith
        · exact h2 q hq
      · rcases h3 with h3 | ⟨q, hq, hq2⟩
        · left; rw [h3, hs]
        · right; exact ⟨q, List.mem_cons_of_mem _ hq, hq2⟩

theorem wsMaxStep_intensity (rs : List ProcessedPoint) : ∀ acc : ℚ × ℚ × ℚ,
    ((rs.foldl wsMaxStep acc).2 = acc.2 ∧ ∀ p ∈ rs, p.intensity_10m ≤ acc.2.1) ∨
    (∃ pre p post, rs = pre ++ p :: post ∧ (∀ q ∈ pre, q.intensity_10m < p.intensity_10m) ∧
      (∀ q ∈ post, q.intensity_10m ≤ p.intensity_10m) ∧ acc.2.1 < p.intensity_10m ∧
      (rs.foldl wsMaxStep acc).2 = (p.intensity_10m, p.measured_depth_m)) := by
  induction rs with
  | nil => intro acc; left; simp
  | cons p rs ih =>
    intro acc
    rw [List.foldl_cons]
    by_cases hgt : p.intensity_10m > acc.2.1
    · have hs : (wsMaxStep acc p).2 = (p.intensity_10m, p.measured_depth_m) := by
        unfold wsMaxStep
        dsimp only
        rw [if_pos hgt]
      right
      rcases ih (wsMaxStep acc p) with ⟨e, hall⟩ | ⟨pre, q, post, hrs, hpre, hpost, hlt, e⟩
      · rw [hs] at e hall
        exact ⟨[], p, rs, rfl, by simp, hall, hgt, e⟩
      · rw [hs] at hlt
        refine ⟨p :: pre, q, post, by rw [hrs]; rfl, ?_, hpost, by linarith, e⟩
        intro x hx
        rcases List.mem_cons.mp hx with rfl | hx
        · exact hlt
        · exact hpre x hx
    · have hs : (wsMaxStep acc p).2 = acc.2 := by
        unfold wsMaxStep
        dsimp only
        rw [if_neg hgt]
      rcases ih (wsMaxStep acc p) with ⟨e, hall⟩ | ⟨pre, q, post, hrs, hpre, hpost, hlt, e⟩
      · left
        rw [hs] at e hall
        refine ⟨e, ?_⟩
        intro x hx
        rcases List.mem_cons.mp hx with rfl | hx
        · linarith
        · exact hall x hx
      · right
        rw [hs] at hlt
        refine ⟨p :: pre, q, post, by rw [hrs]; rfl, ?_, hpost, hlt, e⟩
        intro x hx
        rcases List.mem_cons.mp hx with rfl | hx
        · linarith
        · exact hpre x hx

theorem wsFinish_summary (path : QString) (w : WellData) (h : w.results ≠ []) :
    (wsFinish path w).max_inclination_deg = (w.results.foldl wsMaxStep (0, 0, 0)).1 ∧
    (wsFinish path w).max_intensity_10m = (w.results.foldl wsMaxStep (0, 0, 0)).2.1 ∧
    (wsFinish path w).max_intensity_10m_depth = (w.results.foldl wsMaxStep (0, 0, 0)).2.2 := by
  unfold wsFinish
  cases hl : w.results.getLast? with
  | none => exact absurd (List.getLast?_eq_none_iff.mp hl) h
  | some last =>
    dsimp only
    split_ifs <;> exact ⟨rfl, rfl, rfl⟩

/-! ## Lemmas on skipped lines -/

theorem readLines_ne_nil (c : Char) (cs : List Char) : readLines (c :: cs) ≠ [] := by
  unfold readLines
  split_ifs
  · simp
  · cases readLines cs <;> simp

theorem readLines_cons_feed (cs : List Char) : readLines ('\n' :: cs) = [] :: readLines cs := by
  simp [readLines]

theorem readLines_cons_char (c : Char) (cs : List Char) (hc : c ≠ '\n') :
    readLines (c :: cs) =
      match readLines cs with
      | [] => [[c]]
      | l :: ls => (c :: l) :: ls := by
  simp [readLines, hc]

theorem readLines_append (a x : List Char) :
    readLines (a ++ '\n' :: x) = readLines (a ++ ['\n']) ++ readLines x := by
  induction a with
  | nil => simp [readLines]
  | cons c cs ih =>
    by_cases hc : c = '\n'
    · subst hc
      rw [List.cons_append, List.cons_append, readLines_cons_feed, readLines_cons_feed, ih]
      rfl
    · rw [List.cons_append, List.cons_append, readLines_cons_char c _ hc,
        readLines_cons_char c _ hc, ih]
      cases hh : readLines (cs ++ ['\n']) with
      | nil =>
        cases cs with
        | nil => simp [readLines] at hh
        | cons d ds => exact absurd hh (readLines_ne_nil d _)
      | cons l ls => rfl

theorem wsLine_skipped (st : WsState) (raw : QString) (h : wsIsSkipped raw) :
    wsLine st raw = st := by
  unfold wsIsSkipped at h
  unfold wsLine
  dsimp only
  rw [if_pos h]

theorem ws_lines_insert (pre post : List QString) (l : QString) (st : WsState)
    (h : wsIsSkipped l) :
    (pre ++ l :: post).foldl wsLine st = (pre ++ post).foldl wsLine st := by
  rw [List.foldl_append, List.foldl_cons, wsLine_skipped _ l h, ← List.foldl_append]

theorem readLines_insert (a l b : List Char) (ha : a = [] ∨ a.getLast? = some '\n')
    (hl : ∀ c ∈ l, c ≠ '\n') :
    ∃ pre, readLines (a ++ b) = pre ++ readLines b ∧
      readLines (a ++ (l ++ '\n' :: b)) = pre ++ l :: readLines b := by
  rcases ha with rfl | ha
  · exact ⟨[], rfl, by simpa using readLines_line l b hl⟩
  · obtain ⟨a0, rfl⟩ : ∃ a0, a = a0 ++ ['\n'] := by
      rcases List.eq_nil_or_concat a with h | ⟨a0, c, h⟩
      · rw [h] at ha; simp at ha
      · rw [h] at ha
        simp at ha
        exact ⟨a0, by rw [h, ha]; simp⟩
    refine ⟨readLines (a0 ++ ['\n']), ?_, ?_⟩
    · rw [List.append_assoc, List.singleton_append, readLines_append]
    · rw [List.append_assoc, List.singleton_append, readLines_append, readLines_line l b hl]

/-! ## Lemmas on file names and formats -/

theorem split_cons_sep (sep : Char) (cs : List Char) :
    split sep (sep :: cs) = [] :: split sep cs := by
  simp [split]

theorem split_cons_char (sep c : Char) (cs : List Char) (hc : c ≠ sep) :
    split sep (c :: cs) =
      match split sep cs with
      | [] => [[c]]
      | f :: fs => (c :: f) :: fs := by
  simp [split, hc]

theorem split_append (sep : Char) (a b : List Char) :
    split sep (a ++ sep :: b) = split sep a ++ split sep b := by
  induction a with
  | nil => simp [split]
  | cons c cs ih =>
    by_cases hc : c = sep
    · subst hc
      rw [List.cons_append, split_cons_sep, split_cons_sep, ih]
      rfl
    · rw [List.cons_append, split_cons_char sep c _ hc, split_cons_char sep c _ hc, ih]
      cases hs : split sep cs with
      | nil => exact absurd hs (split_ne_nil sep cs)
      | cons f fs => rfl

theorem split_append_getLast? (sep : Char) (a b : List Char) (hb : ∀ c ∈ b, c ≠ sep) :
    (split sep (a ++ sep :: b)).getLast? = some b := by
  rw [split_append, split_no_sep sep b hb]
  simp

theorem fileName_plain (name : List Char) (h : ∀ c ∈ name, c ≠ '/') : fileName name = name := by
  unfold fileName
  rw [split_no_sep '/' name h]
  rfl

theorem fileName_dir (dir name : List Char) (h : ∀ c ∈ name, c ≠ '/') :
    fileName (dir ++ '/' :: name) = name := by
  unfold fileName
  rw [split_append_getLast? '/' dir name h]
  rfl

theorem containsChar_iff (s : List Char) (c : Char) : containsChar s c = true ↔ c ∈ s := by
  unfold containsChar
  induction s with
  | nil => simp
  | cons d ds ih =>
    rw [List.any_cons, Bool.or_eq_true, ih, List.mem_cons, beq_iff_eq]
    constructor
    · rintro (h | h)
      · exact Or.inl h.symm
      · exact Or.inr h
    · rintro (h | h)
      · exact Or.inl h.symm
      · exact Or.inr h

theorem suffix_of_fileName (path name ext : List Char) (hf : fileName path = name ++ '.' :: ext)
    (he : ∀ c ∈ ext, c ≠ '.') : suffix path = ext := by
  unfold suffix
  dsimp only
  rw [hf, if_pos ((containsChar_iff _ _).mpr (by simp)), split_append_getLast? '.' name ext he]
  rfl

theorem suffix_none (path : List Char) (hf : ∀ c ∈ fileName path, c ≠ '.') : suffix path = [] := by
  unfold suffix
  dsimp only
  rw [if_neg]
  intro h
  exact hf '.' ((containsChar_iff _ _).mp h) rfl

/-! ## Lemmas on the project manager -/

theorem loadWell_converted (file : Option QString) (path : QString) (format : FileFormat)
    (h : format = FileFormat.kLas ∨ format = FileFormat.kZak) :
    (loadWell file path format).success = false := by
  rcases h with rfl | rfl <;> rfl

theorem loadEntryWell_eq (fs : WellFiles) (project_dir : QString) (entry : WellEntry) :
    loadEntryWell fs project_dir entry =
      match fs (entryAbsPath project_dir entry) with
      | none => none
      | some text =>
        match (loadWell (some text) (entryAbsPath project_dir entry)
                (stringToFormat entry.format)).success,
              (loadWell (some text) (entryAbsPath project_dir entry)
                (stringToFormat entry.format)).well with
        | true, some well => some (withEntryDisplay entry well)
        | _, _ => none := by
  rfl

theorem loadEntryWell_missing (fs : WellFiles) (project_dir : QString) (entry : WellEntry)
    (h : fs (entryAbsPath project_dir entry) = none) :
    loadEntryWell fs project_dir entry = none := by
  rw [loadEntryWell_eq, h]

theorem loadEntryWell_converted (fs : WellFiles) (project_dir : QString) (entry : WellEntry)
    (h : stringToFormat entry.format = FileFormat.kLas ∨
      stringToFormat entry.format = FileFormat.kZak) :
    loadEntryWell fs project_dir entry = none := by
  rw [loadEntryWell_eq]
  cases fs (entryAbsPath project_dir entry) with
  | none => rfl
  | some text =>
    dsimp only
    rw [loadWell_converted _ _ _ h]

theorem loadEntryWell_ws (fs : WellFiles) (project_dir : QString) (entry : WellEntry)
    (text : QString) (hf : fs (entryAbsPath project_dir entry) = some text)
    (h : stringToFormat entry.format = FileFormat.kWs) :
    loadEntryWell fs project_dir entry =
      (parseWsFile (some text) (entryAbsPath project_dir entry)).well.map
        (withEntryDisplay entry) ∧
    (loadEntryWell fs project_dir entry).isSome = true := by
  rw [loadEntryWell_eq, hf, h]
  exact ⟨rfl, rfl⟩

theorem loadEntryWell_csv (fs : WellFiles) (project_dir : QString) (entry : WellEntry)
    (text : QString) (hf : fs (entryAbsPath project_dir entry) = some text)
    (h : stringToFormat entry.format = FileFormat.kCsv) :
    loadEntryWell fs project_dir entry =
      if (parseCsvMeasurements (some text) (entryAbsPath project_dir entry)).success = true then
        (parseCsvMeasurements (some text) (entryAbsPath project_dir entry)).well.map
          (withEntryDisplay entry)
      else none := by
  rw [loadEntryWell_eq, hf, h]
  have e : loadWell (some text) (entryAbsPath project_dir entry) FileFormat.kCsv =
      parseCsvMeasurements (some text) (entryAbsPath project_dir entry) := rfl
  dsimp only
  rw [e]
  cases hs : (parseCsvMeasurements (some text) (entryAbsPath project_dir entry)).success with
  | false => simp
  | true =>
    cases (parseCsvMeasurements (some text) (entryAbsPath project_dir entry)).well <;> simp

theorem loadProject_document (pm : ProjectManager) (path : QString) (doc : QJsonValue)
    (fs : WellFiles) (project_dir : QString) :
    pm.loadProject path (ProjectFile.document doc) fs project_dir =
      (true, { data_ := readProjectData doc.toObject
               wells_ := (readProjectData doc.toObject).well_entries.filterMap
                 (loadEntryWell fs project_dir)
               project_file_path_ := path
               dirty_ := false }) := by
  rfl

/-! ## Lemmas on the method names -/

theorem string_to_method_lower (s t : QString) (h : s.map tolower = t.map tolower) :
    string_to_method s = string_to_method t := by
  unfold string_to_method
  dsimp only
  rw [h]

/-! ## Lemmas on the import dialogs -/

theorem las_onImport_total_depth (dlg d : ImportLasDialog) (h : dlg.onImport = some d) :
    d.well_.total_depth = dlg.well_.total_depth := by
  unfold ImportLasDialog.onImport at h
  by_cases h1 : dlg.las_data_.curve_data = []
  · rw [if_pos h1] at h
    cases h
    rfl
  · rw [if_neg h1] at h
    by_cases h2 : dlg.depth_idx < 0 ∨ dlg.angle_idx < 0
    · rw [if_pos h2] at h
      cases h
      rfl
    · rw [if_neg h2] at h
      dsimp only at h
      split at h
      · split at h
        · split_ifs at h <;> (cases h; rfl)
        · exact absurd h (by simp)
      · exact absurd h (by simp)

theorem filterMap_all_some {α β : Type} (f : α → Option β) (l : List α)
    (h : ∀ x ∈ l, (f x).isSome = true) : l.map f = (l.filterMap f).map some := by
  induction l with
  | nil => rfl
  | cons x xs ih =>
    have hx := h x (List.mem_cons_self _ _)
    have ih' := ih (fun y hy => h y (List.mem_cons_of_mem _ hy))
    cases hfx : f x with
    | none => rw [hfx] at hx; exact absurd hx (by simp)
    | some v => simp [List.filterMap_cons, hfx, ih']


/-! # The claims -/

/-! ## Sectioned text files: writing and reading back -/

/-- C1 (defect in the code): the sample well has the measurements (100, 5, azimuth 45)
and (200, 6, no azimuth), all values within two decimals; from the file `writeWsFile` writes for it, `parseWsFile`
reads back the single measurement (100, 5, no azimuth): the row without azimuth is
dropped and the azimuth of the other row is lost. -/
theorem ws_measurements_roundtrip_sample :
    (∀ p ∈ sampleWell.measurements, p.TwoDecimals) ∧
    sampleWell.measurements =
      [{ measured_depth_m := 100, inclination_deg := 5, azimuth_deg := some 45 },
       { measured_depth_m := 200, inclination_deg := 6, azimuth_deg := none }] ∧
    (parseWsFile (some (writeWsFile sampleWell)) samplePath).well.map
        (fun w => w.measurements) =
      some [{ measured_depth_m := 100, inclination_deg := 5, azimuth_deg := none }] := by
  decide!

/-- C2 (as stated, refuted): the sample well's results point is within the stated
precision, with a 10 m intensity of 0.123 and an X error of 0.5, yet the point read back has
the intensity 0.12 and the X error 0; and a well without results whose name holds
line breaks reads back with a results point. -/
theorem ws_results_roundtrip_counterexample :
    (∀ p ∈ sampleWell.results, p.AtStatedPrecision) ∧
    sampleWell.results.map (fun p => (p.intensity_10m, p.mistake_x)) = [(123 / 1000, 1 / 2)] ∧
    (parseWsFile (some (writeWsFile sampleWell)) samplePath).well.map
        (fun w => w.results.map (fun p => (p.intensity_10m, p.mistake_x))) =
      some [(12 / 100, 0)] ∧
    sampleWellBreak.results = [] ∧
    (parseWsFile (some (writeWsFile sampleWellBreak)) samplePath).well.map
        (fun w => w.results.length) = some 1 := by
  decide!

/-- C2 (amended): for every well whose four written metadata texts hold no line
break and whose results values have at most two decimals (three for the dogleg),
`parseWsFile` succeeds on the file written by `writeWsFile` and returns as many
results points, each with the same depth, inclination, azimuth presence and value,
applied azimuth, north, east, tvd, dogleg, intensity_10m and intensity_L. -/
theorem ws_results_roundtrip (w : WellData) (path : QString)
    (h1 : NoLineBreak w.metadata.well_name) (h2 : NoLineBreak w.metadata.field_name)
    (h3 : NoLineBreak w.metadata.well_pad) (h4 : NoLineBreak w.metadata.uwi)
    (hres : ∀ p ∈ w.results, p.AtWriterPrecision) :
    ∃ w', parseWsFile (some (writeWsFile w)) path = { success := true, well := some w' } ∧
      w'.results.map ProcessedPoint.core = w.results.map ProcessedPoint.core := by
  refine ⟨_, rfl, ?_⟩
  rw [wsFinish_results]
  unfold writeWsFile
  rw [List.append_assoc]
  obtain ⟨s1, a1, b1, c1⟩ := run_metadata w.metadata (wsInit path)
    (wsWriteIntervals w.measurements ++ wsWriteResults w.results) h1 h2 h3 h4
  rw [a1]
  obtain ⟨s2, a2, b2, c2⟩ := run_intervals w.measurements s1 (wsWriteResults w.results) c1
  rw [a2]
  exact run_results w.results hres s2 (by rw [b2, b1]; rfl)

/-- Witness for C2 (amended): the theorem applied to the sample well with exact values. -/
theorem ws_results_roundtrip_witness :
    (NoLineBreak sampleWellExact.metadata.well_name ∧
     NoLineBreak sampleWellExact.metadata.field_name ∧
     NoLineBreak sampleWellExact.metadata.well_pad ∧
     NoLineBreak sampleWellExact.metadata.uwi ∧
     ∀ p ∈ sampleWellExact.results, p.AtWriterPrecision) ∧
    ∃ w', parseWsFile (some (writeWsFile sampleWellExact)) samplePath =
        { success := true, well := some w' } ∧
      w'.results.map ProcessedPoint.core = sampleWellExact.results.map ProcessedPoint.core :=
  ⟨⟨by decide, by decide, by decide, by decide, by decide!⟩,
   ws_results_roundtrip sampleWellExact samplePath (by decide) (by decide) (by decide)
     (by decide) (by decide!)⟩

/-- C3 (defect in the code): the sample well is named "W-12" and its four metadata
texts are plain; from the file
`writeWsFile` writes to `/tmp/out.ws`, `parseWsFile` reads back the name "out", the
base name of the file, because the `well_name` line is taken as the header row of the
metadata section; the field, the pad and the UWI are read back. -/
theorem ws_metadata_roundtrip_sample :
    (PlainText sampleWell.metadata.well_name ∧ PlainText sampleWell.metadata.field_name ∧
     PlainText sampleWell.metadata.well_pad ∧ PlainText sampleWell.metadata.uwi) ∧
    sampleWell.metadata =
      { well_name := "W-12".toList, field_name := "North".toList, well_pad := "P1".toList,
        uwi := "U1".toList } ∧
    (parseWsFile (some (writeWsFile sampleWell)) samplePath).well.map (fun w => w.metadata) =
      some { well_name := "out".toList, field_name := "North".toList,
             well_pad := "P1".toList, uwi := "U1".toList } := by
  decide!

/-- C7 (defect in the code): in an `[intervals]` section, after the header line, the
two-cell row `100<TAB>5` is not appended although both cells are numbers; the
three-cell rows `200<TAB>6<TAB>45` and `300<TAB>7<TAB>abc` are appended without
azimuth; only the four-cell row `400<TAB>8<TAB>90<TAB>x` gets its azimuth. -/
theorem ws_intervals_rows_sample :
    (parseWsFile
        (some ("[intervals]\nDepth\tAngle\tAzimuth\n".toList ++
          "100\t5\n200\t6\t45\n300\t7\tabc\n400\t8\t90\tx\n".toList))
        samplePath).well.map (fun w => w.measurements) =
      some [{ measured_depth_m := 200, inclination_deg := 6, azimuth_deg := none },
            { measured_depth_m := 300, inclination_deg := 7, azimuth_deg := none },
            { measured_depth_m := 400, inclination_deg := 8, azimuth_deg := some 90 }] := by
  decide!
/-! ## Project files: saving and loading -/

/-- C4 (as stated, refuted): the sample project has a vertical-projection centre
x = 5, a vertical limit of 7 degrees among its default calculation parameters and a
well entry whose colour has alpha 128; after `saveProject` and `loadProject` the
centre is 0, the vertical limit is the default 3 and the alpha is 255. -/
theorem project_roundtrip_counterexample :
    (sampleManager.saveProject samplePath "now".toList true).2.2 = some sampleDocument ∧
    (sampleProject.view_settings.vertical_center_x = 5 ∧
     sampleProject.default_params.vertical_limit_deg = 7 ∧
     sampleProject.well_entries.map (fun e => e.color.a) = [128]) ∧
    ((sampleManager.loadProject samplePath
        (ProjectFile.document (QJsonValue.object sampleDocument))
        noWellFiles []).2.data_.view_settings.vertical_center_x = 0 ∧
     (sampleManager.loadProject samplePath
        (ProjectFile.document (QJsonValue.object sampleDocument))
        noWellFiles []).2.data_.default_params.vertical_limit_deg = 3 ∧
     (sampleManager.loadProject samplePath
        (ProjectFile.document (QJsonValue.object sampleDocument))
        noWellFiles []).2.data_.well_entries.map (fun e => e.color.a) = [255]) := by
  refine ⟨rfl, ?_⟩
  decide!

/-- C4 (amended): for every project whose line widths fit an `int`, loading the
document written by `saveProject` succeeds and gives: the well entries in order with
their file path, format, visibility and line width and with the colour's red, green
and blue (the loaded colour is valid and opaque); the project points and shot points
with their stored attributes (name, the numbers, visibility, marker, and the colour in
the same way), every other attribute at its default; view settings that agree with
the saved ones in the 3D rotation, scale and pan, the plan scale and centre and the
vertical azimuth and scales (the vertical-projection centre is put aside); and default
calculation parameters that keep the method, declination, meridian convergence and
intensity interval and have every other field at its default. -/
theorem project_roundtrip_stored (pm0 : ProjectManager) (path0 now0 : QString)
    (hw : ∀ e ∈ pm0.data_.well_entries, IsInt32 e.line_width)
    (x : QJsonObject) (hx : (pm0.saveProject path0 now0 true).2.2 = some x)
    (pm : ProjectManager) (path : QString) (fs : WellFiles) (dir : QString) :
    ∃ pm1, pm.loadProject path (ProjectFile.document (QJsonValue.object x)) fs dir =
        (true, pm1) ∧
      pm1.data_.well_entries =
        pm0.data_.well_entries.map (fun e => { e with color := e.color.stored }) ∧
      pm1.data_.project_points =
        pm0.data_.project_points.map (fun p =>
          ({ name := p.name, azimuth_geogr_deg := p.azimuth_geogr_deg, shift_m := p.shift_m,
             depth_m := p.depth_m, abs_depth_m := p.abs_depth_m, radius_m := p.radius_m,
             display_color := p.display_color.stored, visible := p.visible } : ProjectPoint)) ∧
      pm1.data_.shot_points =
        pm0.data_.shot_points.map (fun p =>
          ({ name := p.name, x_m := p.x_m, y_m := p.y_m, z_m := p.z_m,
             display_color := p.display_color.stored, visible := p.visible,
             marker := p.marker } : ShotPoint)) ∧
      ({ pm1.data_.view_settings with vertical_center_x := 0, vertical_center_y := 0 } :
          ViewSettings) =
        { pm0.data_.view_settings with vertical_center_x := 0, vertical_center_y := 0 } ∧
      pm1.data_.default_params =
        { method := pm0.data_.default_params.method,
          magnetic_declination_deg := pm0.data_.default_params.magnetic_declination_deg,
          meridian_convergence_deg := pm0.data_.default_params.meridian_convergence_deg,
          intensity_interval_m := pm0.data_.default_params.intensity_interval_m } := by
  simp only [ProjectManager.saveProject, if_true, Option.some.injEq] at hx
  subst hx
  obtain ⟨h1, h2, h3, h4, h5⟩ :=
    readProjectData_write { pm0.data_ with modified_date := now0 } hw
  exact ⟨_, rfl, h1, h2, h3, congrArg
    (fun v : ViewSettings => { v with vertical_center_x := 0, vertical_center_y := 0 }) h4, h5⟩

/-- Witness for C4 (amended): the theorem applied to the sample project. -/
theorem project_roundtrip_stored_witness :
    (∀ e ∈ sampleManager.data_.well_entries, IsInt32 e.line_width) ∧
    (sampleManager.saveProject samplePath "now".toList true).2.2 = some sampleDocument ∧
    ∃ pm1, sampleManager.loadProject samplePath
        (ProjectFile.document (QJsonValue.object sampleDocument))
        noWellFiles [] = (true, pm1) ∧
      pm1.data_.well_entries =
        [{ file_path := "a.ws".toList, format := "ws".toList, visible := false,
           color := ⟨true, 255, 10, 0, 255⟩, line_width := 3 }] ∧
      pm1.data_.view_settings.rotation_x = 12 ∧
      pm1.data_.default_params = { method := CalculationMethod.kRingArc } := by
  refine ⟨by decide, rfl, ?_⟩
  obtain ⟨pm1, h0, h1, _, _, h4, h5⟩ := project_roundtrip_stored sampleManager samplePath
    "now".toList (by decide) sampleDocument rfl sampleManager samplePath noWellFiles []
  exact ⟨pm1, h0, h1, congrArg ViewSettings.rotation_x h4, h5⟩

/-- C5: for every document `x` written by `saveProject` (line widths fitting an
`int`), `loadProject` on `x` succeeds, whatever well files exist, and the document
that `saveProject` then writes has the same `wells`, `project_points`, `shot_points`,
`view_settings` and `calculation_params` as `x`. -/
theorem project_save_load_save (pm0 : ProjectManager) (path0 now0 : QString)
    (hw : ∀ e ∈ pm0.data_.well_entries, IsInt32 e.line_width)
    (x : QJsonObject) (hx : (pm0.saveProject path0 now0 true).2.2 = some x)
    (pm : ProjectManager) (path : QString) (fs : WellFiles) (dir path1 now1 : QString) :
    ∃ pm1 y, pm.loadProject path (ProjectFile.document (QJsonValue.object x)) fs dir =
        (true, pm1) ∧
      (pm1.saveProject path1 now1 true).2.2 = some y ∧
      y.value "wells" = x.value "wells" ∧
      y.value "project_points" = x.value "project_points" ∧
      y.value "shot_points" = x.value "shot_points" ∧
      y.value "view_settings" = x.value "view_settings" ∧
      y.value "calculation_params" = x.value "calculation_params" := by
  simp only [ProjectManager.saveProject, if_true, Option.some.injEq] at hx
  subst hx
  obtain ⟨h1, h2, h3, h4, h5⟩ :=
    readProjectData_write { pm0.data_ with modified_date := now0 } hw
  refine ⟨_, _, rfl, rfl, ?_, ?_, ?_, ?_, ?_⟩
  · exact (congrArg (fun l => QJsonValue.array (List.map writeWellEntry l)) h1).trans
      (by simp only [List.map_map]; rfl)
  · exact (congrArg (fun l => QJsonValue.array (List.map writeProjectPoint l)) h2).trans
      (by simp only [List.map_map]; rfl)
  · exact (congrArg (fun l => QJsonValue.array (List.map writeShotPoint l)) h3).trans
      (by simp only [List.map_map]; rfl)
  · exact (congrArg writeViewSettings h4).trans rfl
  · exact (congrArg writeCalculationParams h5).trans rfl

/-- Witness for C5: the theorem applied to the sample project, no well file existing. -/
theorem project_save_load_save_witness :
    (∀ e ∈ sampleManager.data_.well_entries, IsInt32 e.line_width) ∧
    (sampleManager.saveProject samplePath "now".toList true).2.2 = some sampleDocument ∧
    ∃ pm1 y, sampleManager.loadProject samplePath
        (ProjectFile.document (QJsonValue.object sampleDocument))
        noWellFiles [] = (true, pm1) ∧
      (pm1.saveProject samplePath "later".toList true).2.2 = some y ∧
      y.value "wells" = sampleDocument.value "wells" ∧
      y.value "view_settings" = sampleDocument.value "view_settings" := by
  refine ⟨by decide, rfl, ?_⟩
  obtain ⟨pm1, y, h0, h1, h2, _, _, h5, _⟩ := project_save_load_save sampleManager samplePath
    "now".toList (by decide) sampleDocument rfl sampleManager samplePath noWellFiles []
    samplePath "later".toList
  exact ⟨pm1, y, h0, h1, h2, h5⟩
/-! ## Delimited text files: the azimuth cell -/

/-- C6 (as stated, refuted): in a file with the header `Depth;Angle;Azimuth` the
accepted row `30;6;360` yields the azimuth 360, not 0 (the rows `20;5;0` and `40;7;`
yield a present 0 and an absent azimuth). -/
theorem csv_azimuth_360_counterexample :
    (parseCsvMeasurements (some "Depth;Angle;Azimuth\n20;5;0\n30;6;360\n40;7;\n".toList)
        "/tmp/in.csv".toList).well.map (fun w => w.measurements) =
      some [{ measured_depth_m := 20, inclination_deg := 5, azimuth_deg := some 0 },
            { measured_depth_m := 30, inclination_deg := 6, azimuth_deg := some 360 },
            { measured_depth_m := 40, inclination_deg := 7, azimuth_deg := none }] ∧
    (some 360 : Option ℚ) ≠ some 0 := by
  decide!

/-- C6 (amended): for every row that `parseCsvMeasurements` accepts, the azimuth of
the point is absent when the azimuth column lies outside the row, and otherwise it is
exactly what `toDouble` makes of the trimmed azimuth cell: absent for an empty cell,
present 0 for the cell `0` and present 360 for the cell `360` (the value is stored as
parsed, not reduced modulo 360). -/
theorem csvRow_azimuth (depth_col incl_col azim_col : Int) (values : List QString)
    (p : MeasuredPoint) (h : csvRow depth_col incl_col azim_col values = some p) :
    (¬(0 ≤ azim_col ∧ azim_col < values.length) → p.azimuth_deg = none) ∧
    (0 ≤ azim_col → azim_col < values.length →
      p.azimuth_deg = toDouble (trimmed (values.getD azim_col.toNat [])) ∧
      (trimmed (values.getD azim_col.toNat []) = [] → p.azimuth_deg = none) ∧
      (trimmed (values.getD azim_col.toNat []) = "0".toList → p.azimuth_deg = some 0) ∧
      (trimmed (values.getD azim_col.toNat []) = "360".toList →
        p.azimuth_deg = some 360)) := by
  unfold csvRow at h
  by_cases hc : depth_col < 0 ∨ incl_col < 0 ∨ depth_col ≥ values.length ∨
      incl_col ≥ values.length
  · rw [if_pos hc] at h
    exact absurd h (by simp)
  · rw [if_neg hc] at h
    split at h
    · simp only [Option.some.injEq] at h
      subst h
      refine ⟨fun hout => ?_, fun h0 h1 => ?_⟩
      · have hcond : ¬(azim_col ≥ 0 ∧ azim_col < values.length ∧
            trimmed (values.getD azim_col.toNat []) ≠ []) :=
          fun hh => hout ⟨hh.1, hh.2.1⟩
        simp only [if_neg hcond]
      · have hp : (if azim_col ≥ 0 ∧ azim_col < values.length ∧
              trimmed (values.getD azim_col.toNat []) ≠ [] then
              toDouble (trimmed (values.getD azim_col.toNat [])) else none) =
            toDouble (trimmed (values.getD azim_col.toNat [])) := by
          by_cases he : trimmed (values.getD azim_col.toNat []) = []
          · rw [if_neg (fun hh => hh.2.2 he), he]
            decide!
          · rw [if_pos ⟨h0, h1, he⟩]
        refine ⟨hp, ?_, ?_, ?_⟩
        · intro he; exact hp.trans (by rw [he]; decide!)
        · intro he; exact hp.trans (by rw [he]; decide!)
        · intro he; exact hp.trans (by rw [he]; decide!)
    · exact absurd h (by simp)

/-- Witness for C6 (amended): the theorem applied to the row `30;6;360`. -/
theorem csvRow_azimuth_witness :
    csvRow 0 1 2 ["30".toList, "6".toList, "360".toList] =
      some { measured_depth_m := 30, inclination_deg := 6, azimuth_deg := some 360 } ∧
    (some 360 : Option ℚ) = toDouble (trimmed "360".toList) :=
  ⟨by decide!,
   ((csvRow_azimuth 0 1 2 ["30".toList, "6".toList, "360".toList]
     { measured_depth_m := 30, inclination_deg := 6, azimuth_deg := some 360 }
     (by decide!)).2 (by decide) (by decide)).1⟩

/-! ## Angle helpers -/

/-- C8: for every angle `d`, `deg_from_degmin (deg_to_degmin d) = d` (exactly, over
the rationals); in particular for the test value 123.456. -/
theorem deg_from_degmin_to_degmin (d : ℚ) : deg_from_degmin (deg_to_degmin d) = d := by
  have h0 : 0 ≤ d - (⌊d⌋ : ℚ) := by linarith [Int.floor_le d]
  have h1 : d - (⌊d⌋ : ℚ) < 1 := by linarith [Int.lt_floor_add_one d]
  have hf : ⌊(⌊d⌋ : ℚ) + (d - (⌊d⌋ : ℚ)) * 60 / 100⌋ = ⌊d⌋ :=
    floor_add_small _ _ (by linarith) (by linarith)
  simp only [deg_from_degmin, deg_to_degmin, hf]
  ring

/-- C10 (defect in the code): on doubles the sum `deg + 360.0` is rounded, and for a
negative remainder close to 0 it rounds to 360 itself. For the double `-1e-20`, whose
remainder is itself, `normalize_angle_360` returns 360, which is not below 360; for
the double `-180.00000000000003`, `normalize_angle_180` returns 180, which is not
below 180. At the values of the tests the results are exact: -90 gives 270, -360
gives 0, 450 gives 90, 180 gives -180, 270 gives -90. -/
theorem normalize_angle_endpoint_sample :
    roundDouble sampleTinyAngle = sampleTinyAngle ∧
    fmod sampleTinyAngle 360 = sampleTinyAngle ∧
    normalize_angle_360 sampleTinyAngle = 360 ∧
    ¬(normalize_angle_360 sampleTinyAngle < 360) ∧
    roundDouble sampleBelowMinus180 = sampleBelowMinus180 ∧
    normalize_angle_180 sampleBelowMinus180 = 180 ∧
    ¬(normalize_angle_180 sampleBelowMinus180 < 180) ∧
    normalize_angle_360 (-90) = 270 ∧ normalize_angle_360 (-360) = 0 ∧
    normalize_angle_360 450 = 90 ∧ normalize_angle_180 180 = -180 ∧
    normalize_angle_180 270 = -90 := by
  decide!

/-! ## Angle text -/

/-- C11: for every string whose trimmed text is a bare decimal number (an optional
minus sign, digits, and optionally `.` or `,` followed by digits), `parse_angle`
returns exactly that number, so "45.30" gives 45.30; it fails for the empty string
and for "abc", and for every text that holds no degree sign and is not a number, with
or without the comma replaced. -/
theorem parse_angle_bare (str : QString) (neg : Bool) (ip fp : List Char) (sep : Char)
    (hip : ip ≠ []) (hipd : ∀ c ∈ ip, isDigit c = true) (hfpd : ∀ c ∈ fp, isDigit c = true)
    (hsep : sep = '.' ∨ sep = ',') (hstr : trimmed str = bareDecimal neg ip fp sep) :
    parse_angle str = some (bareDecimalValue neg ip fp) ∧
    parse_angle "45.30".toList = some (4530 / 100) ∧
    parse_angle [] = none ∧ parse_angle "abc".toList = none ∧
    (∀ s : QString, '°' ∉ trimmed s → toDouble (trimmed s) = none →
      toDouble (commaToPoint (trimmed s)) = none → parse_angle s = none) := by
  refine ⟨?_, by decide!, by decide!, by decide!, ?_⟩
  · unfold parse_angle
    simp only [hstr, bareDecimal_ne_nil neg ip fp sep hip, if_false]
    by_cases hpoint : sep = '.' ∨ fp = []
    · have e : bareDecimal neg ip fp sep = bareDecimal neg ip fp '.' := by
        rcases hpoint with rfl | hf
        · rfl
        · simp [bareDecimal, hf]
      rw [e, toDouble_bare_point neg ip fp hip hipd hfpd]
    · have hs : sep = ',' := by
        rcases hsep with h | h
        · exact absurd (Or.inl h) hpoint
        · exact h
      have hf : fp ≠ [] := fun h => hpoint (Or.inr h)
      subst hs
      have hno := bareDecimal_no_degree neg ip fp ',' (Or.inr rfl) hipd hfpd
      rw [toDouble_bare_comma neg ip fp hip hf hipd hfpd]
      simp only [reSearch_none reDmsAt '°' reDmsAt_degree _ hno,
        reSearch_none reDmAt '°' reDmAt_degree _ hno,
        reSearch_none reDAt '°' reDAt_degree _ hno,
        commaToPoint_bare neg ip fp hipd hfpd, toDouble_bare_point neg ip fp hip hipd hfpd]
      simp
  · intro s hno h1 h2
    unfold parse_angle
    dsimp only
    split_ifs
    · rfl
    · simp only [h1, h2, reSearch_none reDmsAt '°' reDmsAt_degree _ hno,
        reSearch_none reDmAt '°' reDmAt_degree _ hno,
        reSearch_none reDAt '°' reDAt_degree _ hno]

/-- Witness for C11: the theorem at " 45,30 ", whose trimmed text is the bare decimal
45,30 with the value 45.30. -/
theorem parse_angle_bare_witness :
    trimmed " 45,30 ".toList = bareDecimal false "45".toList "30".toList ',' ∧
    bareDecimalValue false "45".toList "30".toList = 4530 / 100 ∧
    parse_angle " 45,30 ".toList = some (bareDecimalValue false "45".toList "30".toList) :=
  ⟨by decide, by decide!,
   (parse_angle_bare " 45,30 ".toList false "45".toList "30".toList ',' (by decide) (by decide)
     (by decide) (Or.inr rfl) (by decide)).1⟩

/-! ## Delimited text files -/

/-- C12: when the first line that is neither blank nor a comment has at least two
cells and no header keyword, then: if its first two cells are numbers the line is
taken as the first measurement, with the columns depth, inclination and (with a third
cell) azimuth; if one of the two is not a number the line gives no measurement; in
both cases the following lines are read with that same column order. -/
theorem csv_first_line (path raw : QString) (pre : List QString)
    (hpre : ∀ l ∈ pre, trimmed l = [] ∨ startsWith (trimmed l) '#' = true)
    (h1 : trimmed raw ≠ []) (h2 : startsWith (trimmed raw) '#' = false)
    (h3 : (csvSplit (trimmed raw)).length ≥ 2)
    (h4 : ∀ v ∈ csvSplit (trimmed raw), ¬csvIsHeaderCell v) :
    (∀ d i, toDouble ((csvSplit (trimmed raw)).getD 0 []) = some d →
      toDouble ((csvSplit (trimmed raw)).getD 1 []) = some i →
      (pre ++ [raw]).foldl csvLine (csvInit path) =
        { first_line := false, depth_col := 0, incl_col := 1,
          azim_col := if (csvSplit (trimmed raw)).length ≥ 3 then 2 else -1,
          well := { (csvInit path).well with
            measurements :=
              [{ measured_depth_m := d, inclination_deg := i,
                 azimuth_deg :=
                   if (csvSplit (trimmed raw)).length ≥ 3 ∧
                       trimmed ((csvSplit (trimmed raw)).getD 2 []) ≠ [] then
                     toDouble (trimmed ((csvSplit (trimmed raw)).getD 2 []))
                   else none }] } }) ∧
    ((toDouble ((csvSplit (trimmed raw)).getD 0 []) = none ∨
        toDouble ((csvSplit (trimmed raw)).getD 1 []) = none) →
      (pre ++ [raw]).foldl csvLine (csvInit path) =
        { first_line := false, depth_col := 0, incl_col := 1,
          azim_col := if (csvSplit (trimmed raw)).length ≥ 3 then 2 else -1,
          well := (csvInit path).well }) := by
  have hcols := csvHeaderCols_none _ h4 0 (-1, -1, -1)
  have hbl : ¬(trimmed raw = [] ∨ startsWith (trimmed raw) '#' = true) := by
    rintro (h | h)
    · exact h1 h
    · rw [h2] at h; exact absurd h (by decide)
  rw [List.foldl_append, csv_skip_lines pre _ hpre, List.foldl_cons, List.foldl_nil]
  constructor
  · intro d i hd hi
    unfold csvLine
    simp only [if_neg hbl]
    simp only [csvInit, if_true, hcols]
    simp only [show ((-1 : Int) < 0 ∨ (-1 : Int) < 0) from Or.inl (by norm_num), if_true, h3,
      hd, hi]
    unfold csvAppend
    simp only [csvRow_first _ d i h3 hd hi]
    rfl
  · intro hnone
    unfold csvLine
    simp only [if_neg hbl]
    simp only [csvInit, if_true, hcols]
    simp only [show ((-1 : Int) < 0 ∨ (-1 : Int) < 0) from Or.inl (by norm_num), if_true, h3]
    rcases hnone with hn | hn
    · rw [hn]
    · rw [hn]
      cases toDouble ((csvSplit (trimmed raw)).getD 0 []) <;> rfl

/-- Witness for C12: the theorem at the first line "10.5,45.2" after a blank line and
a comment: the state after it holds the one point with depth 10.5 and inclination
45.2, and the columns are 0, 1 and none. -/
theorem csv_first_line_witness :
    ["".toList, "# survey".toList, "10.5,45.2".toList].foldl csvLine (csvInit samplePath) =
      { first_line := false, depth_col := 0, incl_col := 1, azim_col := -1,
        well := { (csvInit samplePath).well with
          measurements := [{ measured_depth_m := 105 / 10, inclination_deg := 452 / 10 }] } } :=
  ((csv_first_line samplePath "10.5,45.2".toList ["".toList, "# survey".toList]
    (by decide) (by decide) (by decide) (by decide) (by decide)).1
    (105 / 10) (452 / 10) (by decide!) (by decide!)).trans (by decide!)

/-- C13 (as stated, refuted): in the file with the lines `10,5` and `20;6` the first
line is split at the comma, and the second line, which split at the comma is one cell
and gives no row, is read as the row (20, 6): it is split at its own semicolon. -/
theorem csv_delimiter_counterexample :
    csvSplit (trimmed "10,5".toList) = split ',' "10,5".toList ∧
    csvRow 0 1 (-1) (split ',' "20;6".toList) = none ∧
    Option.map WellData.measurements (parseCsvMeasurements (some sampleCsvMixed) samplePath).well =
      some [{ measured_depth_m := 10, inclination_deg := 5 },
            { measured_depth_m := 20, inclination_deg := 6 }] := by
  decide!

/-- C13 (amended): the parser chooses the delimiter for every line on its own, the
first of `;`, tab and `,` that occurs in that line: a line after the first that is
neither blank nor a comment contributes the row of its cells under that split,
whatever delimiter an earlier line had. -/
theorem csv_delimiter_per_line (st : CsvState) (raw : QString) (hf : st.first_line = false)
    (h1 : trimmed raw ≠ []) (h2 : startsWith (trimmed raw) '#' = false) :
    (csvLine st raw).well.measurements =
      st.well.measurements ++
        (csvRow st.depth_col st.incl_col st.azim_col (csvSplit (trimmed raw))).toList ∧
    (containsChar (trimmed raw) ';' = true → csvSplit (trimmed raw) = split ';' (trimmed raw)) ∧
    (containsChar (trimmed raw) ';' = false → containsChar (trimmed raw) '\t' = true →
      csvSplit (trimmed raw) = split '\t' (trimmed raw)) ∧
    (containsChar (trimmed raw) ';' = false → containsChar (trimmed raw) '\t' = false →
      csvSplit (trimmed raw) = split ',' (trimmed raw)) := by
  have hbl : ¬(trimmed raw = [] ∨ startsWith (trimmed raw) '#' = true) := by
    rintro (h | h)
    · exact h1 h
    · rw [h2] at h; exact absurd h (by decide)
  refine ⟨?_, ?_, ?_, ?_⟩
  · have h := (csvLine_rest_cols st raw hf).2.2.2.2
    rw [h]
    unfold csvLinePoint
    rw [if_neg hbl]
  · intro h; unfold csvSplit; rw [if_pos h]
  · intro h h'; unfold csvSplit; rw [if_neg (by rw [h]; decide), if_pos h']
  · intro h h'; unfold csvSplit; rw [if_neg (by rw [h]; decide), if_neg (by rw [h']; decide)]

/-- Witness for C13 (amended): the theorem at the line `20;6` after a first line that
set the columns 0 and 1: the row (20, 6) is appended. -/
theorem csv_delimiter_per_line_witness :
    (csvLine { first_line := false, depth_col := 0, incl_col := 1 } "20;6".toList).well.measurements =
      [{ measured_depth_m := 20, inclination_deg := 6 }] :=
  ((csv_delimiter_per_line { first_line := false, depth_col := 0, incl_col := 1 } "20;6".toList
    rfl (by decide) (by decide)).1).trans (by decide!)

/-- C15: the loops of the delimited-text parser and of the `[intervals]` reader append
the points of the accepted lines one by one, in the order of the lines, and neither
parser touches the list afterwards: the measurements are the earlier ones followed by
the points of the lines in file order; rows at the depths 100, 50, 50 come back at
100, 50, 50. -/
theorem rows_in_file_order :
    (∀ (lines : List QString) (st : CsvState), st.first_line = false →
      (lines.foldl csvLine st).well.measurements =
        st.well.measurements ++
          lines.filterMap (csvLinePoint st.depth_col st.incl_col st.azim_col)) ∧
    (∀ (lines : List QString) (st : WsState), st.current_section = "intervals".toList →
      st.headers ≠ [] → (∀ raw ∈ lines, ¬wsIsTag raw) →
      (lines.foldl wsLine st).well.measurements =
        st.well.measurements ++ lines.filterMap wsIntervalsLinePoint) ∧
    (∀ text path : QString,
      Option.map WellData.measurements (parseWsFile (some text) path).well =
        some ((readLines text).foldl wsLine (wsInit path)).well.measurements) ∧
    (∀ text path : QString,
      Option.map WellData.measurements (parseCsvMeasurements (some text) path).well =
        some ((readLines text).foldl csvLine (csvInit path)).well.measurements) ∧
    Option.map (fun w => w.measurements.map MeasuredPoint.measured_depth_m)
      (parseCsvMeasurements (some sampleCsvDepths) samplePath).well = some [100, 50, 50] ∧
    Option.map (fun w => w.measurements.map MeasuredPoint.measured_depth_m)
      (parseWsFile (some sampleWsDepths) samplePath).well = some [100, 50, 50] := by
  refine ⟨csv_rows_in_order, ws_rows_in_order, ?_, ?_, by decide!, by decide!⟩
  · intro text path
    unfold parseWsFile
    dsimp only [Option.map_some']
    rw [wsFinish_measurements]
  · intro text path
    unfold parseCsvMeasurements
    dsimp only
    cases ((readLines text).foldl csvLine (csvInit path)).well.measurements.getLast? <;> rfl

/-- Witness for C15: the theorem at the lines `100;1`, `50;2`, `50;3` after a header
that set the columns 0 and 1, and at the lines `100 1 0`, `50 2 0`, `50 3 0`
(tab-separated) inside an `[intervals]` section. -/
theorem rows_in_file_order_witness :
    (["100;1".toList, "50;2".toList, "50;3".toList].foldl csvLine
        { first_line := false, depth_col := 0, incl_col := 1 }).well.measurements =
      [{ measured_depth_m := 100, inclination_deg := 1 },
       { measured_depth_m := 50, inclination_deg := 2 },
       { measured_depth_m := 50, inclination_deg := 3 }] ∧
    (["100\t1\t0".toList, "50\t2\t0".toList, "50\t3\t0".toList].foldl wsLine
        { current_section := "intervals".toList, headers := ["Depth".toList] }).well.measurements =
      [{ measured_depth_m := 100, inclination_deg := 1 },
       { measured_depth_m := 50, inclination_deg := 2 },
       { measured_depth_m := 50, inclination_deg := 3 }] :=
  ⟨(rows_in_file_order.1 ["100;1".toList, "50;2".toList, "50;3".toList]
      { first_line := false, depth_col := 0, incl_col := 1 } rfl).trans (by decide!),
   (rows_in_file_order.2.1 ["100\t1\t0".toList, "50\t2\t0".toList, "50\t3\t0".toList]
      { current_section := "intervals".toList, headers := ["Depth".toList] } rfl (by decide)
      (by decide)).trans (by decide!)⟩

/-! ## Importers -/

/-- C16: in both importers the points imported with the degree-minute flags set are
the points imported with both flags clear, converted by column: the inclination by
`deg_from_degmin` exactly when the inclination flag is set, the azimuth exactly when
the azimuth flag is set, the depth never. With both flags clear the values read are
stored as they are. A row with inclination and azimuth 45.30 is stored with 45.5 in
the flagged column and 45.30 in the other. -/
theorem degmin_flags_per_column :
    (∀ (dlg : ImportZakDialog) (lines : List QString),
      zakPoints (lines.map (zakImportLine dlg)) =
        (zakPoints (lines.map
          (zakImportLine { dlg with angle_degmin := false, azimuth_degmin := false }))).map
          (degminConvert dlg.angle_degmin dlg.azimuth_degmin)) ∧
    (∀ (nv : ℚ) (a z : Bool) (dd ad : List ℚ) (azd : Option (List ℚ)) (rows : List Nat),
      lasImportRows nv a z dd ad azd rows =
        (lasImportRows nv false false dd ad azd rows).map (List.map (degminConvert a z))) ∧
    (∀ (a z : Bool) (p : MeasuredPoint),
      (degminConvert a z p).measured_depth_m = p.measured_depth_m ∧
      (degminConvert true false p).inclination_deg = deg_from_degmin p.inclination_deg ∧
      (degminConvert true false p).azimuth_deg = p.azimuth_deg ∧
      (degminConvert false true p).inclination_deg = p.inclination_deg ∧
      (degminConvert false true p).azimuth_deg = p.azimuth_deg.map deg_from_degmin ∧
      degminConvert false false p = p) ∧
    (∀ (nv depth angle azimuth : ℚ), |depth - nv| > 1 / 1000 → |angle - nv| > 1 / 1000 →
      |azimuth - nv| > 1 / 1000 →
      lasImportPoint nv false false depth angle true azimuth =
        some { measured_depth_m := depth, inclination_deg := angle,
               azimuth_deg := some azimuth }) ∧
    (∀ (dlg : ImportZakDialog) (raw : QString) (d a : ℚ), ¬zakIsIgnored raw →
      ¬((zakSplit dlg.separator (trimmed raw)).length ≤ (dlg.depth_col_spin : Int) - 1 ∨
        ((zakSplit dlg.separator (trimmed raw)).length : Int) ≤ (dlg.angle_col_spin : Int) - 1) →
      toDouble (zakFields dlg (zakSplit dlg.separator (trimmed raw))).1 = some d →
      toDouble (zakFields dlg (zakSplit dlg.separator (trimmed raw))).2.1 = some a →
      dlg.angle_degmin = false → dlg.azimuth_degmin = false →
      zakImportLine dlg raw =
        ZakRow.imported
          { measured_depth_m := d, inclination_deg := a,
            azimuth_deg :=
              if (zakFields dlg (zakSplit dlg.separator (trimmed raw))).2.2 = [] then none
              else toDouble (zakFields dlg (zakSplit dlg.separator (trimmed raw))).2.2 }) ∧
    ({ sampleZakDialog with angle_degmin := true }.onImport).well_.measurements =
      [{ measured_depth_m := 100, inclination_deg := 455 / 10,
         azimuth_deg := some (4530 / 100) }] ∧
    ({ sampleZakDialog with azimuth_degmin := true }.onImport).well_.measurements =
      [{ measured_depth_m := 100, inclination_deg := 4530 / 100,
         azimuth_deg := some (455 / 10) }] ∧
    Option.map (fun d => d.well_.measurements)
        { sampleLasDialog with angle_degmin := true }.onImport =
      some [{ measured_depth_m := 100, inclination_deg := 455 / 10,
              azimuth_deg := some (4530 / 100) }] ∧
    Option.map (fun d => d.well_.measurements)
        { sampleLasDialog with azimuth_degmin := true }.onImport =
      some [{ measured_depth_m := 100, inclination_deg := 4530 / 100,
              azimuth_deg := some (455 / 10) }] := by
  refine ⟨zakPoints_flags, lasImportRows_flags, ?_, ?_, ?_, by decide!, by decide!, by decide!,
    by decide!⟩
  · intro a z p
    refine ⟨rfl, rfl, ?_, rfl, rfl, degminConvert_clear p⟩
    cases p
    simp [degminConvert]
  · intro nv depth angle azimuth hd ha hz
    unfold lasImportPoint
    dsimp only
    rw [decide_eq_true hd, decide_eq_true ha, decide_eq_true hz]
    rfl
  · intro dlg raw d a h1 h2 hd ha hfa hfz
    rw [zakImportLine_eq dlg raw h1 h2, hd, ha, hfa, hfz]
    dsimp only
    rw [degminConvert_clear]

/-- Witness for C16: the theorem at the sample dialog with both flags clear and its
line `100;45.30;45.30`: the row is stored with the values read. -/
theorem degmin_flags_per_column_witness :
    zakImportLine sampleZakDialog "100;45.30;45.30".toList =
      ZakRow.imported
        { measured_depth_m := 100, inclination_deg := 4530 / 100,
          azimuth_deg := some (4530 / 100) } ∧
    lasImportPoint (-99925 / 100) false false 100 (4530 / 100) true (4530 / 100) =
      some { measured_depth_m := 100, inclination_deg := 4530 / 100,
             azimuth_deg := some (4530 / 100) } :=
  ⟨(degmin_flags_per_column.2.2.2.2.1 sampleZakDialog "100;45.30;45.30".toList 100 (4530 / 100)
      (by decide) (by decide) (by decide!) (by decide!) rfl rfl).trans (by decide!),
   degmin_flags_per_column.2.2.2.1 (-99925 / 100) 100 (4530 / 100) (4530 / 100)
      (by decide!) (by decide!) (by decide!)⟩

/-- C17 (as stated, refuted): for the line `WELL . : name of well : W-12` the well name
taken is `name of well : W-12`, the text after the first colon, not `W-12`. -/
theorem las_well_value_counterexample :
    (lasWellLine {} sampleLasWellLine).las_data_.well_name = "name of well : W-12".toList ∧
    (lasWellLine {} sampleLasWellLine).las_data_.well_name ≠ "W-12".toList ∧
    Option.map (fun d => d.las_data_.well_name)
        (ImportLasDialog.parseLasFile {} (some sampleLasWellFile)) =
      some "name of well : W-12".toList := by
  decide

/-- C17 (amended): for every well-section line made of a mnemonic word, optional
whitespace, a point, a unit text without colon, a colon and a rest, the value taken
for the mnemonic is the trimmed rest, that is the trimmed text after the first colon
that follows the point: it is stored as the well name for WELL, as the field for FLD
and FIELD, as the identifier for UWI and UWID, and its number, if it is one, as the
null value for NULL. -/
theorem las_well_value_first_colon (dlg : ImportLasDialog) (m ws unit rest : List Char)
    (hm : m ≠ []) (hmw : ∀ c ∈ m, isWordChar c = true)
    (hws : ∀ c ∈ ws, isRegexSpace c = true) (hu : ∀ c ∈ unit, c ≠ ':') :
    (toUpper m = "WELL".toList →
      (lasWellLine dlg (m ++ ws ++ '.' :: (unit ++ ':' :: rest))).las_data_.well_name =
        trimmed rest ∧
      (lasWellLine dlg (m ++ ws ++ '.' :: (unit ++ ':' :: rest))).well_name_edit_ =
        trimmed rest) ∧
    (toUpper m = "FLD".toList ∨ toUpper m = "FIELD".toList →
      (lasWellLine dlg (m ++ ws ++ '.' :: (unit ++ ':' :: rest))).las_data_.field =
        trimmed rest) ∧
    (toUpper m = "UWI".toList ∨ toUpper m = "UWID".toList →
      (lasWellLine dlg (m ++ ws ++ '.' :: (unit ++ ':' :: rest))).las_data_.uwi =
        trimmed rest) ∧
    (toUpper m = "NULL".toList →
      (lasWellLine dlg (m ++ ws ++ '.' :: (unit ++ ':' :: rest))).las_data_.null_value =
        (toDouble (trimmed rest)).getD dlg.las_data_.null_value) := by
  rw [lasWellLine_value dlg m ws unit rest hm hmw hws hu]
  refine ⟨?_, ?_, ?_, ?_⟩
  · intro h
    rw [if_pos h]
    exact ⟨rfl, rfl⟩
  · intro h
    have h0 : toUpper m ≠ "WELL".toList := by
      rcases h with h | h <;> rw [h] <;> decide
    rw [if_neg h0, if_pos h]
  · intro h
    have h0 : toUpper m ≠ "WELL".toList := by
      rcases h with h | h <;> rw [h] <;> decide
    have h1 : ¬(toUpper m = "FLD".toList ∨ toUpper m = "FIELD".toList) := by
      rcases h with h | h <;> rw [h] <;> decide
    rw [if_neg h0, if_neg h1, if_pos h]
  · intro h
    have h0 : toUpper m ≠ "WELL".toList := by rw [h]; decide
    have h1 : ¬(toUpper m = "FLD".toList ∨ toUpper m = "FIELD".toList) := by rw [h]; decide
    have h2 : ¬(toUpper m = "UWI".toList ∨ toUpper m = "UWID".toList) := by rw [h]; decide
    rw [if_neg h0, if_neg h1, if_neg h2, if_pos h]
    cases toDouble (trimmed rest) <;> rfl

/-- Witness for C17 (amended): the theorem at `WELL . : name of well : W-12`, with the
unit text " " and the rest " name of well : W-12". -/
theorem las_well_value_first_colon_witness :
    "WELL".toList ++ " ".toList ++ '.' :: (" ".toList ++ ':' :: " name of well : W-12".toList) =
      sampleLasWellLine ∧
    trimmed " name of well : W-12".toList = "name of well : W-12".toList ∧
    (lasWellLine {} ("WELL".toList ++ " ".toList ++
        '.' :: (" ".toList ++ ':' :: " name of well : W-12".toList))).las_data_.well_name =
      trimmed " name of well : W-12".toList :=
  ⟨by decide, by decide,
   ((las_well_value_first_colon {} "WELL".toList " ".toList " ".toList
      " name of well : W-12".toList (by decide) (by decide) (by decide) (by decide)).1
      (by decide)).1⟩

/-- C18 (defect in the code): for the file with the curves DEPT and INCL and the data
lines `100 5` and `200`, `parseLasFile` leaves the depth column with two values and
the inclination column with one, and the import loop, which reads the inclination
column at every index of the depth column, reads it at index 1, outside the column. -/
theorem las_short_line_sample :
    Option.map (fun d => d.las_data_.curve_data)
        (ImportLasDialog.parseLasFile { depth_idx := 0, angle_idx := 1 }
          (some sampleLasShort)) =
      some [[100, 200], [5]] ∧
    lasImportRow (-99925 / 100) false false [100, 200] [5] none 1 = none ∧
    (ImportLasDialog.parseLasFile { depth_idx := 0, angle_idx := 1 }
        (some sampleLasShort)).bind ImportLasDialog.onImport = none := by
  decide!

/-- C19 (as stated, refuted): the line `100;;5.5` has the three fields `100`, empty
and `5.5` between its semicolons, and with depth column 1 and inclination column 3
the importer skips it. -/
theorem zak_empty_field_counterexample :
    split ';' sampleZakLine = ["100".toList, [], "5.5".toList] ∧
    zakImportLine { depth_col_spin := 1, angle_col_spin := 3, azimuth_col_spin := 0 }
      sampleZakLine = ZakRow.skipped := by
  decide!

/-- C19 (amended): with a literal delimiter the column index k denotes the k-th field
that is not empty: a line that is not passed over is skipped when it has fewer
non-empty fields than the depth or the inclination column asks for, and when both
fields exist and are numbers it is imported with the depth of the one and the
inclination of the other (converted when the inclination flag is set). -/
theorem zak_column_nonempty (dlg : ImportZakDialog) (raw : QString)
    (hsep : dlg.separator ≠ ' ') (hline : ¬zakIsIgnored raw)
    (hdc : 1 ≤ dlg.depth_col_spin) (hac : 1 ≤ dlg.angle_col_spin) :
    ((nthNonEmpty (dlg.depth_col_spin - 1) (split dlg.separator (trimmed raw)) = none ∨
        nthNonEmpty (dlg.angle_col_spin - 1) (split dlg.separator (trimmed raw)) = none) →
      zakImportLine dlg raw = ZakRow.skipped) ∧
    (∀ (ds as : QString) (d a : ℚ),
      nthNonEmpty (dlg.depth_col_spin - 1) (split dlg.separator (trimmed raw)) = some ds →
      nthNonEmpty (dlg.angle_col_spin - 1) (split dlg.separator (trimmed raw)) = some as →
      toDouble (zakDecimal dlg ds) = some d → toDouble (zakDecimal dlg as) = some a →
      ∃ p, zakImportLine dlg raw = ZakRow.imported p ∧ p.measured_depth_m = d ∧
        p.inclination_deg = if dlg.angle_degmin then deg_from_degmin a else a) := by
  rw [← zakSplit_get? dlg.separator hsep, ← zakSplit_get? dlg.separator hsep]
  constructor
  · intro h
    have h2 : ((zakSplit dlg.separator (trimmed raw)).length : Int) ≤ (dlg.depth_col_spin : Int) - 1 ∨
        ((zakSplit dlg.separator (trimmed raw)).length : Int) ≤ (dlg.angle_col_spin : Int) - 1 := by
      rcases h with h | h
      · have := List.get?_eq_none.mp h
        left; omega
      · have := List.get?_eq_none.mp h
        right; omega
    unfold zakIsIgnored at hline
    unfold zakImportLine
    dsimp only
    rw [if_neg hline, if_pos h2]
  · intro ds as d a hds has hd ha
    have l1 : dlg.depth_col_spin - 1 < (zakSplit dlg.separator (trimmed raw)).length := by
      by_contra hc
      rw [List.get?_eq_none.mpr (by omega)] at hds
      exact absurd hds (by simp)
    have l2 : dlg.angle_col_spin - 1 < (zakSplit dlg.separator (trimmed raw)).length := by
      by_contra hc
      rw [List.get?_eq_none.mpr (by omega)] at has
      exact absurd has (by simp)
    have h2 : ¬(((zakSplit dlg.separator (trimmed raw)).length : Int) ≤ (dlg.depth_col_spin : Int) - 1 ∨
        ((zakSplit dlg.separator (trimmed raw)).length : Int) ≤ (dlg.angle_col_spin : Int) - 1) := by
      omega
    have hc := zakFields_cells dlg (zakSplit dlg.separator (trimmed raw))
    rw [get?_getD _ _ _ hds, get?_getD _ _ _ has] at hc
    rw [zakImportLine_eq dlg raw hline h2, hc.1, hc.2, hd, ha]
    exact ⟨_, rfl, rfl, rfl⟩

/-- Witness for C19 (amended): the theorem at the line `100;;5.5` with depth column 1
and inclination column 2: the second non-empty field, `5.5`, is the inclination. -/
theorem zak_column_nonempty_witness :
    nthNonEmpty 1 (split ';' (trimmed sampleZakLine)) = some "5.5".toList ∧
    ∃ p, zakImportLine { depth_col_spin := 1, angle_col_spin := 2, azimuth_col_spin := 0 }
        sampleZakLine = ZakRow.imported p ∧
      p.measured_depth_m = 100 ∧ p.inclination_deg = if false = true then deg_from_degmin (55 / 10) else 55 / 10 :=
  ⟨by decide,
   (zak_column_nonempty { depth_col_spin := 1, angle_col_spin := 2, azimuth_col_spin := 0 }
      sampleZakLine (by decide) (by decide) (by decide) (by decide)).2
      "100".toList "5.5".toList 100 (55 / 10) (by decide) (by decide) (by decide!) (by decide!)⟩

/-- C20: `parseWsFile` returns a well whose `total_depth` is the depth of the last
results point when there are results, otherwise the depth of the last measurement
when there are measurements, otherwise 0; a successful `parseCsvMeasurements` returns
a well whose `total_depth` is the depth of its last measurement. -/
theorem total_depth_last (text path : QString) :
    (∃ w, parseWsFile (some text) path = { success := true, well := some w } ∧
      w.total_depth =
        match w.results.getLast? with
        | some last => last.measured_depth_m
        | none =>
          match w.measurements.getLast? with
          | some last => last.measured_depth_m
          | none => 0) ∧
    ((parseCsvMeasurements (some text) path).success = true →
      ∃ w last, (parseCsvMeasurements (some text) path).well = some w ∧
        w.measurements.getLast? = some last ∧ w.total_depth = last.measured_depth_m) := by
  constructor
  · refine ⟨_, rfl, ?_⟩
    rw [wsFinish_total_depth, wsFinish_results, wsFinish_measurements, ws_loop_total_depth]
    rfl
  · unfold parseCsvMeasurements
    dsimp only
    cases h : ((readLines text).foldl csvLine (csvInit path)).well.measurements.getLast? with
    | none => intro hs; exact absurd hs (by simp)
    | some last => intro _; exact ⟨_, last, rfl, h, rfl⟩

/-- Witness for C20: the sectioned file with results at the depths 100 and 500 gives
`total_depth` 500, and the theorem at the delimited file with rows at 100, 50 and 50
gives a well whose `total_depth` is the depth of its last measurement. -/
theorem total_depth_last_witness :
    Option.map WellData.total_depth (parseWsFile (some sampleWsResults) samplePath).well =
      some 500 ∧
    Option.map (fun w => w.results.map ProcessedPoint.measured_depth_m)
      (parseWsFile (some sampleWsResults) samplePath).well = some [100, 500] ∧
    Option.map WellData.total_depth
      (parseCsvMeasurements (some sampleCsvDepths) samplePath).well = some 50 ∧
    ∃ w last, (parseCsvMeasurements (some sampleCsvDepths) samplePath).well = some w ∧
      w.measurements.getLast? = some last ∧ w.total_depth = last.measured_depth_m :=
  ⟨by decide!, by decide!, by decide!,
   (total_depth_last sampleCsvDepths samplePath).2 (by decide!)⟩

/-! ## Summary fields -/

/-- C21 (as stated, refuted): for the file with two results points whose inclinations
are -5 and -3, `max_inclination_deg` is 0 and not -3. -/
theorem ws_max_inclination_counterexample :
    Option.map (fun w => (w.results.map ProcessedPoint.inclination_deg, w.max_inclination_deg))
      (parseWsFile (some sampleWsNegative) samplePath).well = some ([-5, -3], 0) := by
  decide!

/-- C21 (amended): after `parseWsFile` on a file with results, `max_inclination_deg` is
the greatest of 0 and the inclinations of the results points: it is at least 0 and at
least every inclination, and it is 0 or the inclination of a results point; it is the
maximum over the results points whenever one of them has an inclination of at least
0. -/
theorem ws_max_inclination (text path : QString) (hr : (wsParsedWell text path).results ≠ []) :
    parseWsFile (some text) path = { success := true, well := some (wsParsedWell text path) } ∧
    0 ≤ (wsParsedWell text path).max_inclination_deg ∧
    (∀ p ∈ (wsParsedWell text path).results,
      p.inclination_deg ≤ (wsParsedWell text path).max_inclination_deg) ∧
    ((wsParsedWell text path).max_inclination_deg = 0 ∨
      ∃ p ∈ (wsParsedWell text path).results,
        p.inclination_deg = (wsParsedWell text path).max_inclination_deg) ∧
    ((∃ p ∈ (wsParsedWell text path).results, 0 ≤ p.inclination_deg) →
      ∃ p ∈ (wsParsedWell text path).results,
        p.inclination_deg = (wsParsedWell text path).max_inclination_deg) := by
  have hres : (wsParsedWell text path).results =
      ((readLines text).foldl wsLine (wsInit path)).well.results := wsFinish_results _ _
  rw [hres] at hr
  have hsum := (wsFinish_summary path _ hr).1
  have hfold := wsMaxStep_inclination ((readLines text).foldl wsLine (wsInit path)).well.results
    (0, 0, 0)
  have hmax : (wsParsedWell text path).max_inclination_deg =
      (((readLines text).foldl wsLine (wsInit path)).well.results.foldl wsMaxStep (0, 0, 0)).1 :=
    hsum
  rw [hres, hmax]
  obtain ⟨h1, h2, h3⟩ := hfold
  refine ⟨rfl, h1, h2, h3, ?_⟩
  rintro ⟨p, hp, hp0⟩
  rcases h3 with h3 | h3
  · refine ⟨p, hp, ?_⟩
    have := h2 p hp
    rw [h3] at this ⊢
    exact le_antisymm this hp0
  · exact h3

/-- Witness for C21 (amended): the theorem at the file with the results points
(100, 5°) and (500, 30°): `max_inclination_deg` is 30. -/
theorem ws_max_inclination_witness :
    (wsParsedWell sampleWsResults samplePath).max_inclination_deg = 30 ∧
    ∃ p ∈ (wsParsedWell sampleWsResults samplePath).results,
      p.inclination_deg = (wsParsedWell sampleWsResults samplePath).max_inclination_deg :=
  ⟨by decide!,
   (ws_max_inclination sampleWsResults samplePath (by decide!)).2.2.2.2
     ⟨{ measured_depth_m := 100, inclination_deg := 5, tvd_m := 100 }, by decide!, by decide!⟩⟩

/-- C22 (as stated, refuted): for the file with the results points at the depths 100
and 500, whose 10 m intensities are both 0, `max_intensity_10m` is 0 and
`max_intensity_10m_depth` is 0, which is the depth of neither point. -/
theorem ws_max_intensity_counterexample :
    Option.map (fun w => (w.results.map ProcessedPoint.intensity_10m,
        w.results.map ProcessedPoint.measured_depth_m, w.max_intensity_10m,
        w.max_intensity_10m_depth))
      (parseWsFile (some sampleWsResults) samplePath).well = some ([0, 0], [100, 500], 0, 0) := by
  decide!

/-- C22 (amended): after `parseWsFile` on a file with results, `max_intensity_10m` is
the greatest of 0 and the 10 m intensities of the results points. When no point has a
positive intensity, it and `max_intensity_10m_depth` are both 0; otherwise it is the
maximum over the results points and `max_intensity_10m_depth` is the depth of the
first point that attains it. -/
theorem ws_max_intensity (text path : QString) (hr : (wsParsedWell text path).results ≠ []) :
    parseWsFile (some text) path = { success := true, well := some (wsParsedWell text path) } ∧
    (((wsParsedWell text path).max_intensity_10m = 0 ∧
        (wsParsedWell text path).max_intensity_10m_depth = 0 ∧
        ∀ p ∈ (wsParsedWell text path).results, p.intensity_10m ≤ 0) ∨
      ∃ pre p post, (wsParsedWell text path).results = pre ++ p :: post ∧
        (∀ q ∈ pre, q.intensity_10m < p.intensity_10m) ∧
        (∀ q ∈ post, q.intensity_10m ≤ p.intensity_10m) ∧ 0 < p.intensity_10m ∧
        (wsParsedWell text path).max_intensity_10m = p.intensity_10m ∧
        (wsParsedWell text path).max_intensity_10m_depth = p.measured_depth_m) := by
  have hres : (wsParsedWell text path).results =
      ((readLines text).foldl wsLine (wsInit path)).well.results := wsFinish_results _ _
  rw [hres] at hr
  obtain ⟨_, hint, hdep⟩ := wsFinish_summary path _ hr
  have hi : (wsParsedWell text path).max_intensity_10m =
      (((readLines text).foldl wsLine (wsInit path)).well.results.foldl wsMaxStep (0, 0, 0)).2.1 :=
    hint
  have hd : (wsParsedWell text path).max_intensity_10m_depth =
      (((readLines text).foldl wsLine (wsInit path)).well.results.foldl wsMaxStep (0, 0, 0)).2.2 :=
    hdep
  rw [hres, hi, hd]
  refine ⟨rfl, ?_⟩
  rcases wsMaxStep_intensity ((readLines text).foldl wsLine (wsInit path)).well.results (0, 0, 0)
    with ⟨e, hall⟩ | ⟨pre, p, post, hrs, hpre, hpost, hlt, e⟩
  · left
    rw [e]
    exact ⟨rfl, rfl, hall⟩
  · right
    rw [e]
    exact ⟨pre, p, post, hrs, hpre, hpost, hlt, rfl, rfl⟩

/-- Witness for C22 (amended): the theorem at the file with the intensities 1.5, 2.5
and 2.5 at the depths 100, 200 and 300: the maximum is 2.5 and its depth is 200, the
depth of the first point that attains it. -/
theorem ws_max_intensity_witness :
    (wsParsedWell sampleWsIntensity samplePath).max_intensity_10m = 25 / 10 ∧
    (wsParsedWell sampleWsIntensity samplePath).max_intensity_10m_depth = 200 ∧
    parseWsFile (some sampleWsIntensity) samplePath =
      { success := true, well := some (wsParsedWell sampleWsIntensity samplePath) } :=
  ⟨by decide!, by decide!, (ws_max_intensity sampleWsIntensity samplePath (by decide!)).1⟩

/-- C23 (defect in the code): neither import writes `total_depth`: the well of the
dialog keeps the value it had, which is 0 for the well the dialog creates. After
the sample row at depth 100 has been imported, the run is marked successful, the last
measurement is at depth 100 and `total_depth` is 0, for both dialogs. -/
theorem import_total_depth_sample :
    (∀ dlg : ImportZakDialog, (dlg.onImport).well_.total_depth = dlg.well_.total_depth) ∧
    (∀ dlg : ImportLasDialog,
      Option.map (fun d => d.well_.total_depth) dlg.onImport =
        Option.map (fun _ => dlg.well_.total_depth) dlg.onImport) ∧
    ((sampleZakDialog.onImport).import_successful_,
      (sampleZakDialog.onImport).well_.measurements.map MeasuredPoint.measured_depth_m,
      (sampleZakDialog.onImport).well_.total_depth) = (true, [100], 0) ∧
    Option.map (fun d => (d.import_successful_,
        d.well_.measurements.map MeasuredPoint.measured_depth_m, d.well_.total_depth))
      sampleLasDialog.onImport = some (true, [100], 0) := by
  refine ⟨?_, ?_, by decide!, by decide!⟩
  · intro dlg
    unfold ImportZakDialog.onImport
    dsimp only
    split_ifs <;> rfl
  · intro dlg
    cases h : dlg.onImport with
    | none => rfl
    | some d => exact congrArg some (las_onImport_total_depth dlg d h)

/-! ## Project manager: loading -/

/-- C24: when the project file cannot be opened or does not parse, `loadProject`
returns false and the manager afterwards is the manager before: data, wells, file
path and dirty flag are what they were. For every file that parses it returns
true. -/
theorem loadProject_failure_keeps_state (pm : ProjectManager) (path : QString) (fs : WellFiles)
    (project_dir : QString) :
    pm.loadProject path ProjectFile.unreadable fs project_dir = (false, pm) ∧
    pm.loadProject path ProjectFile.malformed fs project_dir = (false, pm) ∧
    ∀ doc, (pm.loadProject path (ProjectFile.document doc) fs project_dir).1 = true :=
  ⟨rfl, rfl, fun _ => rfl⟩

/-- C25: when the document's entries are `pre`, then an entry `e` whose file is not
there, then `post`, `loadProject` returns true and the wells are those of `pre` and
`post` that load, in the order of the document; when all of them load, each of them
gives its well and there is one well fewer than entries. The entry `e` itself stays
in the list of entries. -/
theorem loadProject_missing_well (pm : ProjectManager) (path : QString) (doc : QJsonValue)
    (fs : WellFiles) (project_dir : QString) (pre post : List WellEntry) (e : WellEntry)
    (hdoc : (readProjectData doc.toObject).well_entries = pre ++ e :: post)
    (hmiss : fs (entryAbsPath project_dir e) = none) :
    (pm.loadProject path (ProjectFile.document doc) fs project_dir).1 = true ∧
    (pm.loadProject path (ProjectFile.document doc) fs project_dir).2.wells_ =
      (pre ++ post).filterMap (loadEntryWell fs project_dir) ∧
    ((∀ x ∈ pre ++ post, (loadEntryWell fs project_dir x).isSome = true) →
      (pre ++ post).map (loadEntryWell fs project_dir) =
        (pm.loadProject path (ProjectFile.document doc) fs project_dir).2.wells_.map some ∧
      (pm.loadProject path (ProjectFile.document doc) fs project_dir).2.wells_.length + 1 =
        (pre ++ e :: post).length) ∧
    (pm.loadProject path (ProjectFile.document doc) fs project_dir).2.data_.well_entries =
      pre ++ e :: post := by
  rw [loadProject_document]
  dsimp only
  have hw : (readProjectData doc.toObject).well_entries.filterMap (loadEntryWell fs project_dir) =
      (pre ++ post).filterMap (loadEntryWell fs project_dir) := by
    rw [hdoc, List.filterMap_append, List.filterMap_cons,
      loadEntryWell_missing fs project_dir e hmiss, List.filterMap_append]
  rw [hw]
  refine ⟨rfl, rfl, ?_, hdoc⟩
  intro hall
  have hmap := filterMap_all_some (loadEntryWell fs project_dir) (pre ++ post) hall
  refine ⟨hmap, ?_⟩
  have hlen := congrArg List.length hmap
  simp only [List.length_map, List.length_append, List.length_cons] at hlen ⊢
  omega

/-- Witness for C25: the theorem at the document with the entries of `a.ws` (not on
the disk) and `b.ws` (on the disk): the load returns true with the one well of
`b.ws`. -/
theorem loadProject_missing_well_witness :
    sampleDisk (entryAbsPath "/p".toList sampleEntryA) = none ∧
    (({} : ProjectManager).loadProject "/p/x.inclproj".toList
      (ProjectFile.document sampleMissingDocument) sampleDisk "/p".toList).1 = true ∧
    (({} : ProjectManager).loadProject "/p/x.inclproj".toList
      (ProjectFile.document sampleMissingDocument) sampleDisk "/p".toList).2.wells_.length + 1 =
      ([] ++ sampleEntryA :: [sampleEntryB]).length :=
  ⟨by decide,
   (loadProject_missing_well {} "/p/x.inclproj".toList sampleMissingDocument sampleDisk
      "/p".toList [] [sampleEntryB] sampleEntryA (by decide) (by decide)).1,
   ((loadProject_missing_well {} "/p/x.inclproj".toList sampleMissingDocument sampleDisk
      "/p".toList [] [sampleEntryB] sampleEntryA (by decide) (by decide)).2.2.1
      (by decide!)).2⟩

/-- C26 (defect in the code): `loadWell` parses only the formats Ws and Csv; for Las
and Zak it returns the failure "conversion through inclproc required" without
converting, so an entry tagged `las` or `zak` never loads. The document with the one
entry of `c.las`, tagged `las`, whose file is on the disk, loads with no well. -/
theorem loadProject_las_sample :
    (∀ (file : Option QString) (path : QString),
      loadWell file path FileFormat.kLas =
        { error_message := "Для формата las требуется конвертация через inclproc".toList } ∧
      loadWell file path FileFormat.kZak =
        { error_message := "Для формата zak требуется конвертация через inclproc".toList }) ∧
    (∀ (fs : WellFiles) (project_dir : QString) (entry : WellEntry),
      loadEntryWell fs project_dir { entry with format := "las".toList } = none ∧
      loadEntryWell fs project_dir { entry with format := "zak".toList } = none) ∧
    (sampleDisk (entryAbsPath "/p".toList sampleEntryC)).isSome = true ∧
    (({} : ProjectManager).loadProject "/p/x.inclproj".toList
      (ProjectFile.document sampleLasDocument) sampleDisk "/p".toList).1 = true ∧
    (({} : ProjectManager).loadProject "/p/x.inclproj".toList
      (ProjectFile.document sampleLasDocument) sampleDisk "/p".toList).2.wells_ = [] ∧
    (({} : ProjectManager).loadProject "/p/x.inclproj".toList
      (ProjectFile.document sampleLasDocument) sampleDisk "/p".toList).2.data_.well_entries =
      [sampleEntryC] := by
  refine ⟨fun _ _ => ⟨rfl, rfl⟩, ?_, by decide!, by decide!, by decide!, by decide!⟩
  intro fs project_dir entry
  exact ⟨loadEntryWell_converted fs project_dir _ (Or.inl rfl),
    loadEntryWell_converted fs project_dir _ (Or.inr rfl)⟩

/-! ## Sectioned text files: skipped lines -/

/-- C27: a line that is blank or whose first non-blank character is `#` or `;` leaves
the state of the loop as it is, whatever the section and the header row: the loop
over the lines with such a line added at any place ends in the same state, and the
text with such a line added at the start of any line gives the same result of
`parseWsFile`. -/
theorem ws_skipped_lines (path l : QString) (h : wsIsSkipped l) :
    (∀ st : WsState, wsLine st l = st) ∧
    (∀ (pre post : List QString) (st : WsState),
      (pre ++ l :: post).foldl wsLine st = (pre ++ post).foldl wsLine st) ∧
    (∀ a b : QString, (a = [] ∨ a.getLast? = some '\n') → (∀ c ∈ l, c ≠ '\n') →
      parseWsFile (some (a ++ (l ++ '\n' :: b))) path = parseWsFile (some (a ++ b)) path) := by
  refine ⟨fun st => wsLine_skipped st l h, fun pre post st => ws_lines_insert pre post l st h, ?_⟩
  intro a b ha hl
  obtain ⟨pre, h1, h2⟩ := readLines_insert a l b ha hl
  unfold parseWsFile
  dsimp only
  rw [h1, h2, ws_lines_insert pre (readLines b) l _ h]

/-- Witness for C27: the theorem at the comment line `  # survey of May` added right
after the tag `[intervals]`: the file with the comment reads as the file without it,
with the row at depth 100. -/
theorem ws_skipped_lines_witness :
    "[intervals]\n".toList ++ ("  # survey of May".toList ++
      '\n' :: "Depth\tAngle\tAzimuth\n100\t1\t0\n".toList) = sampleWsComment ∧
    "[intervals]\n".toList ++ "Depth\tAngle\tAzimuth\n100\t1\t0\n".toList = sampleWsPlain ∧
    Option.map (fun w => w.measurements.map MeasuredPoint.measured_depth_m)
      (parseWsFile (some sampleWsPlain) samplePath).well = some [100] ∧
    parseWsFile (some ("[intervals]\n".toList ++ ("  # survey of May".toList ++
      '\n' :: "Depth\tAngle\tAzimuth\n100\t1\t0\n".toList))) samplePath =
      parseWsFile (some ("[intervals]\n".toList ++
        "Depth\tAngle\tAzimuth\n100\t1\t0\n".toList)) samplePath :=
  ⟨by decide, by decide, by decide!,
   (ws_skipped_lines samplePath "  # survey of May".toList (by decide)).2.2
     "[intervals]\n".toList "Depth\tAngle\tAzimuth\n100\t1\t0\n".toList
     (Or.inr (by decide)) (by decide)⟩

/-! ## Formats and method names -/

/-- C28: `detectFormat` takes the path only; its value is fixed by the lower-cased
text after the last point of the file name: Csv for csv, Las for las, Zak for zak, Ws
for ws and txt, Unknown for every other text and for a file name without point. Two
paths with the same extension up to letter case have the same format. -/
theorem detectFormat_extension :
    (∀ dir name ext : QString, (∀ c ∈ name, c ≠ '/') → (∀ c ∈ ext, c ≠ '/' ∧ c ≠ '.') →
      detectFormat (dir ++ '/' :: (name ++ '.' :: ext)) = formatOfExtension (toLower ext) ∧
      detectFormat (name ++ '.' :: ext) = formatOfExtension (toLower ext)) ∧
    (∀ dir name : QString, (∀ c ∈ name, c ≠ '/' ∧ c ≠ '.') →
      detectFormat (dir ++ '/' :: name) = FileFormat.kUnknown ∧
      detectFormat name = FileFormat.kUnknown) ∧
    (∀ p q : QString, toLower (suffix p) = toLower (suffix q) → detectFormat p = detectFormat q) ∧
    formatOfExtension "csv".toList = FileFormat.kCsv ∧
    formatOfExtension "las".toList = FileFormat.kLas ∧
    formatOfExtension "zak".toList = FileFormat.kZak ∧
    formatOfExtension "ws".toList = FileFormat.kWs ∧
    formatOfExtension "txt".toList = FileFormat.kWs ∧
    (∀ ext : QString, ext ∉ ["csv".toList, "las".toList, "zak".toList, "ws".toList,
        "txt".toList] → formatOfExtension ext = FileFormat.kUnknown) ∧
    detectFormat "/data/Well.CSV".toList = FileFormat.kCsv ∧
    detectFormat "survey.Txt".toList = FileFormat.kWs ∧
    detectFormat "/data.las/well".toList = FileFormat.kUnknown ∧
    detectFormat "well.xlsx".toList = FileFormat.kUnknown := by
  have hdef : ∀ p : QString, detectFormat p = formatOfExtension (toLower (suffix p)) :=
    fun _ => rfl
  refine ⟨?_, ?_, ?_, rfl, rfl, rfl, rfl, rfl, ?_, by decide, by decide, by decide, by decide⟩
  · intro dir name ext hn he
    have hne : ∀ c ∈ name ++ '.' :: ext, c ≠ '/' := by
      intro c hc
      rcases List.mem_append.mp hc with h | h
      · exact hn c h
      · rcases List.mem_cons.mp h with rfl | h
        · decide
        · exact (he c h).1
    constructor
    · rw [hdef, suffix_of_fileName _ name ext (fileName_dir dir _ hne) (fun c hc => (he c hc).2)]
    · rw [hdef, suffix_of_fileName _ name ext (fileName_plain _ hne) (fun c hc => (he c hc).2)]
  · intro dir name hn
    have h1 : formatOfExtension (toLower []) = FileFormat.kUnknown := rfl
    constructor
    · rw [hdef, suffix_none]
      · exact h1
      · rw [fileName_dir dir name (fun c hc => (hn c hc).1)]
        exact fun c hc => (hn c hc).2
    · rw [hdef, suffix_none]
      · exact h1
      · rw [fileName_plain name (fun c hc => (hn c hc).1)]
        exact fun c hc => (hn c hc).2
  · intro p q h
    rw [hdef, hdef, h]
  · intro ext hext
    simp only [List.mem_cons, List.mem_singleton, List.not_mem_nil, or_false, not_or] at hext
    unfold formatOfExtension
    rw [if_neg hext.1, if_neg hext.2.1, if_neg hext.2.2.1,
      if_neg (fun h => h.elim hext.2.2.2.1 hext.2.2.2.2)]

/-- Witness for C28: the theorem at the directory `/data`, the name `Well.v2` and the
extension `CSV`: the format is that of `csv`. -/
theorem detectFormat_extension_witness :
    detectFormat ("/data".toList ++ '/' :: ("Well.v2".toList ++ '.' :: "CSV".toList)) =
      formatOfExtension (toLower "CSV".toList) ∧
    formatOfExtension (toLower "CSV".toList) = FileFormat.kCsv :=
  ⟨((detectFormat_extension.1 "/data".toList "Well.v2".toList "CSV".toList (by decide)
      (by decide))).1, by decide⟩

/-- C29: `string_to_method (method_to_string m) = m` for each method; the value of
`string_to_method` depends on the string up to letter case only; each short and each
long name gives its method; every string that is none of the ten names in lower case
gives the minimum-curvature method. -/
theorem string_to_method_names :
    (∀ m : CalculationMethod, string_to_method (method_to_string m) = m) ∧
    (∀ s t : QString, s.map tolower = t.map tolower → string_to_method s = string_to_method t) ∧
    (∀ s : QString,
      (s.map tolower = "mincurv".toList ∨ s.map tolower = "minimum-curvature".toList →
        string_to_method s = CalculationMethod.kMinimumCurvature) ∧
      (s.map tolower = "balanced".toList ∨ s.map tolower = "balanced-tangential".toList →
        string_to_method s = CalculationMethod.kBalancedTangential) ∧
      (s.map tolower = "average".toList ∨ s.map tolower = "average-angle".toList →
        string_to_method s = CalculationMethod.kAverageAngle) ∧
      (s.map tolower = "radiuscurv".toList ∨ s.map tolower = "radius-of-curvature".toList →
        string_to_method s = CalculationMethod.kRadiusOfCurvature) ∧
      (s.map tolower = "ringarc".toList ∨ s.map tolower = "ring-arc".toList →
        string_to_method s = CalculationMethod.kRingArc) ∧
      (s.map tolower ∉ ["mincurv".toList, "balanced".toList, "average".toList,
          "radiuscurv".toList, "ringarc".toList, "minimum-curvature".toList,
          "balanced-tangential".toList, "average-angle".toList, "radius-of-curvature".toList,
          "ring-arc".toList] →
        string_to_method s = CalculationMethod.kMinimumCurvature)) := by
  refine ⟨string_to_method_to_string, string_to_method_lower, ?_⟩
  intro s
  refine ⟨?_, ?_, ?_, ?_, ?_, ?_⟩
  · rintro (h | h) <;> (unfold string_to_method; dsimp only; rw [h]; rfl)
  · rintro (h | h) <;> (unfold string_to_method; dsimp only; rw [h]; rfl)
  · rintro (h | h) <;> (unfold string_to_method; dsimp only; rw [h]; rfl)
  · rintro (h | h) <;> (unfold string_to_method; dsimp only; rw [h]; rfl)
  · rintro (h | h) <;> (unfold string_to_method; dsimp only; rw [h]; rfl)
  · intro h
    simp only [List.mem_cons, List.mem_singleton, List.not_mem_nil, or_false, not_or] at h
    obtain ⟨a1, a2, a3, a4, a5, a6, a7, a8, a9, a10⟩ := h
    unfold string_to_method
    dsimp only
    rw [if_neg a3, if_neg a2, if_neg a1, if_neg a4, if_neg a5, if_neg a8, if_neg a7, if_neg a6,
      if_neg a9, if_neg a10]

/-- Witness for C29: the theorem at "Minimum-Curvature", "RingArc" and "unknown". -/
theorem string_to_method_names_witness :
    string_to_method "Ring-Arc".toList = CalculationMethod.kRingArc ∧
    string_to_method "BALANCED".toList = string_to_method "balanced".toList ∧
    string_to_method "unknown".toList = CalculationMethod.kMinimumCurvature :=
  ⟨(string_to_method_names.2.2 "Ring-Arc".toList).2.2.2.2.1 (Or.inr (by decide)),
   string_to_method_names.2.1 "BALANCED".toList "balanced".toList (by decide),
   (string_to_method_names.2.2 "unknown".toList).2.2.2.2.2 (by decide)⟩

/-! ## Project manager: wells and entries -/

/-- C30 (defect in the code): `newProject` empties both lists, `addWell` appends the
well to the wells and its entry to the entries, and `removeWell` with an index inside
the wells erases that index from both lists (an index outside changes nothing); but
`readProjectJson` keeps the entry of a well that does not load. After loading the
document with the entries of `a.ws` (file missing) and `b.ws` there are two entries
and the one well of `b.ws`, and `removeWell(0)` removes that well together with the
entry of `a.ws`: no well is left, and the entry left is that of `b.ws`. -/
theorem wells_entries_alignment_sample :
    (∀ (pm : ProjectManager) (now : QString),
      (pm.newProject now).wells_ = [] ∧ (pm.newProject now).data_.well_entries = []) ∧
    (∀ (pm : ProjectManager) (well : WellData),
      (pm.addWell well).wells_ = pm.wells_ ++ [well] ∧
      (pm.addWell well).data_.well_entries = pm.data_.well_entries ++
        [{ file_path := well.source_file_path, format := well.source_format,
           visible := well.visible, color := well.display_color,
           line_width := well.line_width }]) ∧
    (∀ (pm : ProjectManager) (index : Int),
      (pm.removeWell index).wells_ =
        (if 0 ≤ index ∧ index < pm.wells_.length then pm.wells_.eraseIdx index.toNat
         else pm.wells_) ∧
      (pm.removeWell index).data_.well_entries =
        (if 0 ≤ index ∧ index < pm.wells_.length then
           pm.data_.well_entries.eraseIdx index.toNat
         else pm.data_.well_entries)) ∧
    sampleLoadedManager.data_.well_entries = [sampleEntryA, sampleEntryB] ∧
    sampleLoadedManager.wells_.map WellData.source_file_path = ["/p/b.ws".toList] ∧
    (sampleLoadedManager.removeWell 0).wells_ = [] ∧
    (sampleLoadedManager.removeWell 0).data_.well_entries = [sampleEntryB] := by
  refine ⟨fun _ _ => ⟨rfl, rfl⟩, ?_, ?_, by decide!, by decide!, by decide!, by decide!⟩
  · intro pm well
    unfold ProjectManager.addWell ProjectManager.setDirty
    dsimp only
    split_ifs <;> exact ⟨rfl, rfl⟩
  · intro pm index
    unfold ProjectManager.removeWell ProjectManager.setDirty
    by_cases h : index < 0 ∨ index ≥ pm.wells_.length
    · have h' : ¬(0 ≤ index ∧ index < pm.wells_.length) := by omega
      rw [if_pos h, if_neg h', if_neg h']
      exact ⟨rfl, rfl⟩
    · have h' : 0 ≤ index ∧ index < pm.wells_.length := by omega
      rw [if_neg h, if_pos h', if_pos h']
      dsimp only
      by_cases he : index < pm.data_.well_entries.length
      · rw [if_pos he]
        split_ifs <;> exact ⟨rfl, rfl⟩
      · rw [if_neg he]
        have hlen : pm.data_.well_entries.length ≤ index.toNat := by omega
        rw [List.eraseIdx_of_length_le hlen]
        split_ifs <;> exact ⟨rfl, rfl⟩

end Incline3d
